import Mathlib

/-!
# Minesweeper rule engine (`src/script.js`)

A shallow embedding of the game logic of `src/script.js`: the grid of cells, lazy mine
placement around the first click, the worklist flood, flag toggling and the win / loss
transitions.  The module-level variables of the script (`rows`, `cols`, `mines`, `grid`,
`gameOver`, `firstClickDone`, `flagsLeft`, `openedSafeCells`, `totalSafeCells`) become the
fields of `Game`, and every function of the script that mutates them becomes a function
`Game → Game`.

Modelling conventions:
* a cell object is identified with its coordinates `(row, col)`; the fields `row` and `col`
  of the script's cells are therefore the indices of the cell in the grid;
* of the DOM element of a cell only the CSS classes `mine` and `exploded` are kept (they
  carry the "revealed" and "exploded" marks); text, aria attributes, sound and the timer are
  presentation;
* `Math.random` is an explicit parameter `rnd : Nat → Nat`; the draw of the shuffle at loop
  index `i` is `rnd i % (i + 1)`, which ranges over all of `0 .. i`;
* JavaScript numbers are integers here: `rows`, `cols` are naturals, `mines` and the counters
  derived from it are integers.  The script computes in IEEE doubles, which agree with integer
  arithmetic as long as every value stays within `2^53` in absolute value; the statement about
  `restart` carries that range as hypotheses on the configuration;
* the `while (stack.length)` loop of `floodOpen` runs on fuel; `floodLoop_terminates` shows
  that the fuel handed out by `floodOpen` is never exhausted.
-/

namespace Minesweeper

/-! ## Data model -/

/-- One cell of the grid (`@typedef Cell`), with the two CSS marks of its element. -/
structure Cell where
  isMine : Bool
  isOpen : Bool
  isFlag : Bool
  adjacent : Nat
  elMine : Bool
  elExploded : Bool
  deriving DecidableEq, Repr

/-- The cell pushed by `createEmptyGrid`; `renderBoard` gives it the class list `cell closed`. -/
def emptyCell : Cell :=
  { isMine := false, isOpen := false, isFlag := false, adjacent := 0,
    elMine := false, elExploded := false }

/-- The assignment `cell.isMine = true`. -/
def Cell.setMine (x : Cell) : Cell := { x with isMine := true }

/-- The assignment `cell.adjacent = count`. -/
def Cell.setAdjacent (x : Cell) (count : Nat) : Cell := { x with adjacent := count }

/-- The assignment `cell.isOpen = true`. -/
def Cell.setOpen (x : Cell) : Cell := { x with isOpen := true }

/-- The assignment `cell.isFlag = b`. -/
def Cell.setFlag (x : Cell) (b : Bool) : Cell := { x with isFlag := b }

/-- The class-list updates of `revealMine(cell, exploded)`: add `mine`, and `exploded` if asked. -/
def Cell.reveal (x : Cell) (exploded : Bool) : Cell :=
  { x with elMine := true, elExploded := if exploded then true else x.elExploded }

/-- The grid is an array of rows. -/
abbrev Grid := List (List Cell)

/-- The module state of the script. `banner` is the end-of-game banner: `none` while hidden,
`some won` once `endGame(won)` has filled it. -/
structure Game where
  rows : Nat
  cols : Nat
  mines : Int
  grid : Grid
  gameOver : Bool
  firstClickDone : Bool
  flagsLeft : Int
  openedSafeCells : Int
  totalSafeCells : Int
  banner : Option Bool
  deriving DecidableEq

/-- Read `grid[r][c]`. -/
def cellAt (g : Grid) (r c : Nat) : Cell :=
  ((g[r]?.getD [])[c]?).getD emptyCell

/-- In-place update of the fields of `grid[r][c]`. -/
def modifyCell (g : Grid) (r c : Nat) (f : Cell → Cell) : Grid :=
  g.modify (List.modify f c) r

/-- The grid built by `createEmptyGrid`: `rows` rows of `cols` fresh cells. -/
def createEmptyGrid (rows cols : Nat) : Grid :=
  List.replicate rows (List.replicate cols emptyCell)

/-- The coordinates visited by `for r < rows, for c < cols`, in loop order. -/
def allPositions (rows cols : Nat) : List (Nat × Nat) :=
  (List.range rows).flatMap fun r => (List.range cols).map fun c => (r, c)

/-- The values taken by `dr` and by `dc` in `forEachNeighbor`. -/
def deltas : List Int := [-1, 0, 1]

/-- The cells that `forEachNeighbor(r, c, cb)` hands to `cb`, in call order. -/
def forEachNeighbor (rows cols r c : Nat) : List (Nat × Nat) :=
  deltas.flatMap fun dr => deltas.flatMap fun dc =>
    if dr = 0 ∧ dc = 0 then []
    else
      let nr : Int := (r : Int) + dr
      let nc : Int := (c : Int) + dc
      if 0 ≤ nr ∧ nr < (rows : Int) ∧ 0 ≤ nc ∧ nc < (cols : Int) then [(nr.toNat, nc.toNat)]
      else []

/-! ## Mine placement -/

/-- The three assignments `tmp = arr[i]; arr[i] = arr[j]; arr[j] = tmp`. -/
def swapAt {α : Type} (arr : List α) (i j : Nat) : List α :=
  match arr[i]?, arr[j]? with
  | some a, some b => (arr.set i b).set j a
  | _, _ => arr

/-- The loop of `shuffleInPlace` from index `i` down to `1`. -/
def shuffleLoop {α : Type} (rnd : Nat → Nat) : Nat → List α → List α
  | 0, arr => arr
  | i + 1, arr => shuffleLoop rnd i (swapAt arr (i + 1) (rnd (i + 1) % (i + 2)))

/-- The array after `shuffleInPlace(arr)`. -/
def shuffleInPlace {α : Type} (rnd : Nat → Nat) (arr : List α) : List α :=
  shuffleLoop rnd (arr.length - 1) arr

/-- The set `forbidden` of `placeMinesAvoiding`: the first cell and its neighbours. -/
def forbidden (rows cols firstR firstC : Nat) : List (Nat × Nat) :=
  (firstR, firstC) :: forEachNeighbor rows cols firstR firstC

/-- The array `positions` of `placeMinesAvoiding` before it is shuffled. -/
def positions (rows cols firstR firstC : Nat) : List (Nat × Nat) :=
  (allPositions rows cols).filter fun p => !((forbidden rows cols firstR firstC).contains p)

/-- The callback of the counting loop: the number of neighbours of `(r, c)` that are mines. -/
def countMineNeighbors (rows cols : Nat) (g : Grid) (r c : Nat) : Nat :=
  (forEachNeighbor rows cols r c).foldl
    (fun count n => if (cellAt g n.1 n.2).isMine then count + 1 else count) 0

/-- The body of the loop "Подсчитать числа" of `placeMinesAvoiding` at the cell `p`. -/
def adjacentStep (rows cols : Nat) (g : Grid) (p : Nat × Nat) : Grid :=
  if (cellAt g p.1 p.2).isMine then g
  else modifyCell g p.1 p.2 fun x => x.setAdjacent (countMineNeighbors rows cols g p.1 p.2)

/-- The loop "Подсчитать числа" of `placeMinesAvoiding`. -/
def computeAdjacent (rows cols : Nat) (g : Grid) : Grid :=
  (allPositions rows cols).foldl (adjacentStep rows cols) g

/-- The loop `for (i < toPlace) grid[r][c].isMine = true` over the shuffled positions. -/
def setMines (g : Grid) (ps : List (Nat × Nat)) : Grid :=
  ps.foldl (fun g p => modifyCell g p.1 p.2 Cell.setMine) g

/-- The grid after `placeMinesAvoiding(firstR, firstC)`. -/
def placeMinesGrid (rows cols : Nat) (mines : Int) (g : Grid) (firstR firstC : Nat)
    (rnd : Nat → Nat) : Grid :=
  let shuffled := shuffleInPlace rnd (positions rows cols firstR firstC)
  let toPlace : Int := min mines (shuffled.length : Int)
  computeAdjacent rows cols (setMines g (shuffled.take toPlace.toNat))

/-- The function `placeMinesAvoiding(firstR, firstC)` as a state transformer. -/
def placeMinesAvoiding (s : Game) (firstR firstC : Nat) (rnd : Nat → Nat) : Game :=
  { s with grid := placeMinesGrid s.rows s.cols s.mines s.grid firstR firstC rnd }

/-! ## Reveal engine -/

/-- The neighbours pushed by the callback of `floodOpen`, in push order. -/
def floodPushes (rows cols : Nat) (g : Grid) (r c : Nat) : List (Nat × Nat) :=
  (forEachNeighbor rows cols r c).filter fun n =>
    !(cellAt g n.1 n.2).isOpen && !(cellAt g n.1 n.2).isMine

/-- The `while (stack.length)` loop of `floodOpen`; the head of the list is the top of the
stack. Returns the state and the stack left when the fuel ran out (empty on normal exit). -/
def floodLoop : Nat → Game → List (Nat × Nat) → Game × List (Nat × Nat)
  | 0, s, stack => (s, stack)
  | _ + 1, s, [] => (s, [])
  | fuel + 1, s, p :: stack =>
    let cell := cellAt s.grid p.1 p.2
    if cell.isOpen || cell.isFlag then floodLoop fuel s stack
    else
      let s1 : Game :=
        { s with
          grid := modifyCell s.grid p.1 p.2 Cell.setOpen
          openedSafeCells := s.openedSafeCells + 1 }
      if cell.adjacent > 0 then floodLoop fuel s1 stack
      else floodLoop fuel s1 ((floodPushes s.rows s.cols s1.grid p.1 p.2).reverse ++ stack)

/-- Fuel that covers every run of the flood: each iteration pops one entry, and at most
eight entries are pushed per opened cell. -/
def floodFuel (s : Game) : Nat := 8 * (s.rows * s.cols) + 1

/-- The function `floodOpen(startCell)` for the start cell `(r, c)`. -/
def floodOpen (s : Game) (r c : Nat) : Game :=
  (floodLoop (floodFuel s) s [(r, c)]).1

/-- The function `revealMine(cell, exploded)` for the cell `(r, c)`. -/
def revealMine (g : Grid) (r c : Nat) (exploded : Bool) : Grid :=
  modifyCell g r c fun x => x.reveal exploded

/-- The body of the loop of `revealAllMines` at the cell `p`. -/
def revealStep (g : Grid) (p : Nat × Nat) : Grid :=
  if (cellAt g p.1 p.2).isMine && !(cellAt g p.1 p.2).isOpen then revealMine g p.1 p.2 false
  else g

/-- The function `revealAllMines()`. -/
def revealAllMines (rows cols : Nat) (g : Grid) : Grid :=
  (allPositions rows cols).foldl revealStep g

/-- The function `endGame(won)`. -/
def endGame (s : Game) (won : Bool) : Game :=
  { s with
    gameOver := true
    grid := if !won then revealAllMines s.rows s.cols s.grid else s.grid
    banner := some won }

/-- The function `checkWin()`. -/
def checkWin (s : Game) : Game :=
  if s.openedSafeCells ≥ s.totalSafeCells then endGame s true else s

/-- The handler `onOpen(cell)` for the cell at `(r, c)`. -/
def onOpen (s : Game) (r c : Nat) (rnd : Nat → Nat) : Game :=
  if s.gameOver || (cellAt s.grid r c).isOpen || (cellAt s.grid r c).isFlag then s
  else
    let s1 : Game :=
      if !s.firstClickDone then placeMinesAvoiding { s with firstClickDone := true } r c rnd
      else s
    if (cellAt s1.grid r c).isMine then
      endGame { s1 with grid := revealMine s1.grid r c true } false
    else checkWin (floodOpen s1 r c)

/-- The handler `onToggleFlag(cell)` for the cell at `(r, c)`. -/
def onToggleFlag (s : Game) (r c : Nat) : Game :=
  if s.gameOver || (cellAt s.grid r c).isOpen then s
  else if (cellAt s.grid r c).isFlag then
    { s with
      grid := modifyCell s.grid r c fun x => x.setFlag false
      flagsLeft := s.flagsLeft + 1 }
  else if s.flagsLeft ≤ 0 then s
  else
    { s with
      grid := modifyCell s.grid r c fun x => x.setFlag true
      flagsLeft := s.flagsLeft - 1 }

/-- The state after `restart()` with the configuration `r x c x m` read from the size selector. -/
def restart (r c : Nat) (m : Int) : Game :=
  { rows := r, cols := c, mines := m
    totalSafeCells := (r : Int) * (c : Int) - m
    firstClickDone := false
    gameOver := false
    flagsLeft := m
    openedSafeCells := 0
    grid := createEmptyGrid r c
    banner := none }

/-- The states of a session: `restart`, then clicks and flag toggles on cells of the board. -/
inductive Reachable (rows cols : Nat) (mines : Int) : Game → Prop
  | init : Reachable rows cols mines (restart rows cols mines)
  | opened {s : Game} (r c : Nat) (rnd : Nat → Nat) :
      Reachable rows cols mines s → r < rows → c < cols →
      Reachable rows cols mines (onOpen s r c rnd)
  | flagged {s : Game} (r c : Nat) :
      Reachable rows cols mines s → r < rows → c < cols →
      Reachable rows cols mines (onToggleFlag s r c)

/-! ## Predicates used by the statements -/

/-- The grid has `rows` rows of `cols` cells each. -/
def GridOK (rows cols : Nat) (g : Grid) : Prop :=
  g.length = rows ∧ ∀ row ∈ g, row.length = cols

instance (rows cols : Nat) (g : Grid) : Decidable (GridOK rows cols g) := by
  unfold GridOK; infer_instance

/-- The number of cells of the board that satisfy `q`. -/
def countCells (rows cols : Nat) (g : Grid) (q : Cell → Bool) : Nat :=
  (allPositions rows cols).countP fun p => q (cellAt g p.1 p.2)

/-- Cells `p` and `q` are distinct and at most one row and one column apart. -/
def isNeighbour (p q : Nat × Nat) : Bool :=
  decide (p ≠ q ∧ p.1 ≤ q.1 + 1 ∧ q.1 ≤ p.1 + 1 ∧ p.2 ≤ q.2 + 1 ∧ q.2 ≤ p.2 + 1)

/-- The number of cells of the board that are 8-neighbours of `(r, c)` and are mines. -/
def mineNeighbours (rows cols : Nat) (g : Grid) (r c : Nat) : Nat :=
  (allPositions rows cols).countP fun p => isNeighbour p (r, c) && (cellAt g p.1 p.2).isMine

/-- The candidate cells of a first click at `(r, c)`: every cell of the board other than
`(r, c)` and its 8-neighbours. -/
def candidates (rows cols r c : Nat) : List (Nat × Nat) :=
  (allPositions rows cols).filter fun p => !(decide (p = (r, c)) || isNeighbour p (r, c))

/-- The cells on which `placeMinesAvoiding` puts a mine: the first `toPlace` shuffled positions. -/
def minedCells (rows cols : Nat) (mines : Int) (firstR firstC : Nat) (rnd : Nat → Nat) :
    List (Nat × Nat) :=
  (shuffleInPlace rnd (positions rows cols firstR firstC)).take
    (min mines ((shuffleInPlace rnd (positions rows cols firstR firstC)).length : Int)).toNat

/-! ## Regions and invariants -/

/-- The cells the flood started at `start` on the grid `g` has to open: `start` itself, and
every closed, unflagged, non-mine cell of the board that is an 8-neighbour of a zero-count cell
already in the set. -/
inductive FloodReach (rows cols : Nat) (g : Grid) (start : Nat × Nat) : Nat × Nat → Prop
  | start : FloodReach rows cols g start start
  | step {y x : Nat × Nat} :
      FloodReach rows cols g start y → (cellAt g y.1 y.2).adjacent = 0 →
      x.1 < rows → x.2 < cols → isNeighbour x y = true →
      (cellAt g x.1 x.2).isMine = false → (cellAt g x.1 x.2).isOpen = false →
      (cellAt g x.1 x.2).isFlag = false → FloodReach rows cols g start x

/-- The maximal 8-connected region of zero-count cells of the board that contains `start`
(for a zero-count cell `start`). -/
inductive ZeroRegion (rows cols : Nat) (g : Grid) (start : Nat × Nat) : Nat × Nat → Prop
  | start : ZeroRegion rows cols g start start
  | step {y x : Nat × Nat} :
      ZeroRegion rows cols g start y → x.1 < rows → x.2 < cols → isNeighbour x y = true →
      (cellAt g x.1 x.2).isMine = false → (cellAt g x.1 x.2).adjacent = 0 →
      ZeroRegion rows cols g start x

/-- Loop invariant of `floodOpen`, relative to the grid `g0` at loop entry. -/
structure FloodInv (rows cols : Nat) (g0 : Grid) (start : Nat × Nat) (s : Game)
    (stack : List (Nat × Nat)) : Prop where
  rows_eq : s.rows = rows
  cols_eq : s.cols = cols
  ok : GridOK rows cols s.grid
  mine_eq : ∀ r c, (cellAt s.grid r c).isMine = (cellAt g0 r c).isMine
  flag_eq : ∀ r c, (cellAt s.grid r c).isFlag = (cellAt g0 r c).isFlag
  adj_eq : ∀ r c, (cellAt s.grid r c).adjacent = (cellAt g0 r c).adjacent
  elMine_eq : ∀ r c, (cellAt s.grid r c).elMine = (cellAt g0 r c).elMine
  elExploded_eq : ∀ r c, (cellAt s.grid r c).elExploded = (cellAt g0 r c).elExploded
  mono : ∀ r c, (cellAt g0 r c).isOpen = true → (cellAt s.grid r c).isOpen = true
  stack_in : ∀ p ∈ stack, p.1 < rows ∧ p.2 < cols
  start_ok : (cellAt s.grid start.1 start.2).isOpen = true ∨
    (cellAt g0 start.1 start.2).isFlag = true ∨ start ∈ stack
  closure : ∀ y : Nat × Nat, (cellAt g0 y.1 y.2).isOpen = false →
    (cellAt s.grid y.1 y.2).isOpen = true → (cellAt g0 y.1 y.2).adjacent = 0 →
    ∀ x ∈ forEachNeighbor rows cols y.1 y.2, (cellAt g0 x.1 x.2).isMine = false →
      (cellAt s.grid x.1 x.2).isOpen = true ∨ (cellAt g0 x.1 x.2).isFlag = true ∨ x ∈ stack

/-- Invariant of the states of a session started by `restart rows cols mines`. -/
structure Inv (rows cols : Nat) (mines : Int) (s : Game) : Prop where
  rows_eq : s.rows = rows
  cols_eq : s.cols = cols
  mines_eq : s.mines = mines
  total_eq : s.totalSafeCells = (rows : Int) * (cols : Int) - mines
  ok : GridOK rows cols s.grid
  opened_eq : s.openedSafeCells = (countCells rows cols s.grid Cell.isOpen : Int)
  no_open_mine : ∀ r c, (cellAt s.grid r c).isMine = true → (cellAt s.grid r c).isOpen = false
  fresh : s.firstClickDone = false →
    (∀ r c, (cellAt s.grid r c).isMine = false ∧ (cellAt s.grid r c).isOpen = false) ∧
      s.gameOver = false
  flags : 0 ≤ s.flagsLeft ∨ (s.flagsLeft = mines ∧ ∀ r c, (cellAt s.grid r c).isFlag = false)
  win : mines < (rows : Int) * (cols : Int) → s.totalSafeCells ≤ s.openedSafeCells →
    s.gameOver = true ∧ s.banner = some true
  not_exploded : s.gameOver = false → ∀ r c, (cellAt s.grid r c).elExploded = false
  mine_count : s.firstClickDone = true → 0 ≤ mines → mines ≤ (rows : Int) * (cols : Int) - 9 →
    (countCells rows cols s.grid Cell.isMine : Int) = mines

/-! ## Actions and the blocks of `onOpen` -/

/-- A player action on a cell of the board. -/
inductive Action where
  | click (r c : Nat) (rnd : Nat → Nat)
  | toggle (r c : Nat)

/-- The handler run for an action. -/
def step (s : Game) : Action → Game
  | .click r c rnd => onOpen s r c rnd
  | .toggle r c => onToggleFlag s r c

/-- A sequence of actions, handled one after the other. -/
def run (s : Game) (acts : List Action) : Game :=
  acts.foldl step s

/-- The first-click block of `onOpen`: `if (!firstClickDone) { ... placeMinesAvoiding ... }`. -/
def firstClick (s : Game) (r c : Nat) (rnd : Nat → Nat) : Game :=
  if !s.firstClickDone then placeMinesAvoiding { s with firstClickDone := true } r c rnd else s

/-- The rest of `onOpen`: the mine check, then the flood and the win check. -/
def openCell (s : Game) (r c : Nat) : Game :=
  if (cellAt s.grid r c).isMine then endGame { s with grid := revealMine s.grid r c true } false
  else checkWin (floodOpen s r c)

/-! ## A concrete session -/

/-- A session on a 1 x 12 board with 3 mines: flags on columns 5, 7 and 9, a first click on
column 8 (the shuffle leaves the candidates in place, so the mines go to columns 0, 1, 2), then
the flags on columns 7 and 9 are taken off again. -/
def floodState : Game :=
  onToggleFlag (onToggleFlag (onOpen (onToggleFlag (onToggleFlag (onToggleFlag
    (restart 1 12 3) 0 5) 0 7) 0 9) 0 8 (fun i => i)) 0 7) 0 9

/-- Further invariant of the states of a session: the flag budget, and what the banner of a
win records. -/
structure Inv2 (rows cols : Nat) (mines : Int) (s : Game) : Prop where
  flag_sum : s.flagsLeft + (countCells rows cols s.grid Cell.isFlag : Int) = mines
  won : s.banner = some true →
    s.gameOver = true ∧ s.totalSafeCells ≤ s.openedSafeCells ∧ s.firstClickDone = true

/-- A configuration the spec calls valid: `rows, cols ≥ 1` and `0 ≤ mines < rows * cols`. -/
def validConfig (rows cols : Nat) (mines : Int) : Prop :=
  1 ≤ rows ∧ 1 ≤ cols ∧ 0 ≤ mines ∧ mines < (rows : Int) * (cols : Int)

instance (rows cols : Nat) (mines : Int) : Decidable (validConfig rows cols mines) := by
  unfold validConfig; infer_instance

/-- The body of `restart()` run on the module state `prev`, assignment by assignment in source
order, with `{ r, c, m }` the numbers returned by `parseSizeValue(sizeSelect.value)`:
`rows = r; cols = c; mines = m; totalSafeCells = rows * cols - mines; firstClickDone = false;
gameOver = false; flagsLeft = mines; openedSafeCells = 0;`, the banner is hidden, and
`createEmptyGrid()` rebuilds `grid` from the `rows` and `cols` just stored.  No statement of the
function tests the configuration, returns early or throws. -/
def restartFrom (prev : Game) (r c : Nat) (m : Int) : Game :=
  let s1 : Game := { prev with rows := r, cols := c, mines := m }
  let s2 : Game := { s1 with totalSafeCells := (s1.rows : Int) * (s1.cols : Int) - s1.mines }
  let s3 : Game := { s2 with firstClickDone := false }
  let s4 : Game := { s3 with gameOver := false }
  let s5 : Game := { s4 with flagsLeft := s4.mines }
  let s6 : Game := { s5 with openedSafeCells := 0 }
  let s7 : Game := { s6 with banner := none }
  { s7 with grid := createEmptyGrid s7.rows s7.cols }

/-- The number of iterations (stack pops) of the `while (stack.length)` loop of `floodOpen`
performed by the run `floodLoop fuel s stack`. -/
def floodIters : Nat → Game → List (Nat × Nat) → Nat
  | 0, _, _ => 0
  | _ + 1, _, [] => 0
  | fuel + 1, s, p :: stack =>
    let cell := cellAt s.grid p.1 p.2
    if cell.isOpen || cell.isFlag then 1 + floodIters fuel s stack
    else
      let s1 : Game :=
        { s with
          grid := modifyCell s.grid p.1 p.2 Cell.setOpen
          openedSafeCells := s.openedSafeCells + 1 }
      if cell.adjacent > 0 then 1 + floodIters fuel s1 stack
      else 1 + floodIters fuel s1 ((floodPushes s.rows s.cols s1.grid p.1 p.2).reverse ++ stack)

/-! ## Coordinates and neighbours -/

theorem mem_allPositions (rows cols : Nat) (p : Nat × Nat) :
    p ∈ allPositions rows cols ↔ p.1 < rows ∧ p.2 < cols := by
  obtain ⟨a, b⟩ := p
  simp [allPositions, List.mem_flatMap]

theorem nodup_allPositions (rows cols : Nat) : (allPositions rows cols).Nodup := by
  unfold allPositions
  rw [List.nodup_flatMap]
  refine ⟨fun r _ => ?_, ?_⟩
  · exact (List.nodup_range cols).map (fun a b h => by simpa using h)
  · refine (List.nodup_range rows).pairwise_of_forall_ne ?_
    intro a _ b _ hab
    simp only [Function.onFun, List.disjoint_left, List.mem_map, List.mem_range]
    rintro p ⟨x, _, rfl⟩ ⟨y, _, h⟩
    simp only [Prod.mk.injEq] at h
    exact hab h.1.symm

theorem length_allPositions (rows cols : Nat) : (allPositions rows cols).length = rows * cols := by
  unfold allPositions
  induction rows with
  | zero => simp
  | succ n ih =>
    rw [List.range_succ, List.flatMap_append, List.length_append, ih]
    simp [Nat.succ_mul]

theorem mem_forEachNeighbor (rows cols r c : Nat) (p : Nat × Nat) :
    p ∈ forEachNeighbor rows cols r c ↔
      p.1 < rows ∧ p.2 < cols ∧ p ≠ (r, c) ∧ p.1 ≤ r + 1 ∧ r ≤ p.1 + 1 ∧ p.2 ≤ c + 1 ∧ c ≤ p.2 + 1 := by
  obtain ⟨a, b⟩ := p
  simp only [forEachNeighbor, deltas, List.mem_flatMap, List.mem_cons, List.mem_singleton,
    List.not_mem_nil, or_false, exists_eq_or_imp, exists_eq_left, ne_eq, Prod.mk.injEq]
  constructor
  · intro h
    rcases h with h | h | h <;> rcases h with h | h | h <;> simp at h <;> omega
  · intro h
    by_cases h1 : a + 1 = r <;> by_cases h2 : a = r <;> by_cases h3 : b + 1 = c <;> by_cases h4 : b = c
    all_goals first
      | omega
      | (left; left; simp; omega)
      | (left; right; left; simp; omega)
      | (left; right; right; simp; omega)
      | (right; left; left; simp; omega)
      | (right; left; right; right; simp; omega)
      | (right; right; left; simp; omega)
      | (right; right; right; left; simp; omega)
      | (right; right; right; right; simp; omega)

/-! ## Reading and writing cells -/

theorem cellAt_modifyCell (g : Grid) (r c : Nat) (f : Cell → Cell) (r' c' : Nat) :
    cellAt (modifyCell g r c f) r' c' =
      if r' = r ∧ c' = c ∧ r < g.length ∧ c < (g[r]?.getD []).length then f (cellAt g r c)
      else cellAt g r' c' := by
  unfold cellAt modifyCell
  rw [List.getElem?_modify]
  by_cases hr : r = r'
  · subst hr
    by_cases hlt : r < g.length
    · simp only [List.getElem?_eq_getElem hlt, Option.map_eq_map, Option.map_some', if_true,
        Option.getD_some, true_and, hlt]
      rw [List.getElem?_modify]
      by_cases hc : c = c'
      · subst hc
        by_cases hc2 : c < g[r].length
        · simp [hc2, List.getElem?_eq_getElem hc2]
        · simp [hc2, List.getElem?_eq_none (Nat.le_of_not_lt hc2)]
      · have : ¬ c' = c := fun h => hc h.symm
        simp [hc, this]
    · simp [hlt, List.getElem?_eq_none (Nat.le_of_not_lt hlt)]
  · have : ¬ r' = r := fun h => hr h.symm
    cases h : g[r']? <;> simp [hr, this, h]

theorem GridOK.modifyCell {rows cols : Nat} {g : Grid} (h : GridOK rows cols g) (r c : Nat)
    (f : Cell → Cell) : GridOK rows cols (modifyCell g r c f) := by
  obtain ⟨h1, h2⟩ := h
  refine ⟨by simp [Minesweeper.modifyCell, h1], ?_⟩
  intro row hrow
  obtain ⟨i, hi, rfl⟩ := List.getElem_of_mem hrow
  have hi' : i < g.length := by simpa [Minesweeper.modifyCell] using hi
  have key : (List.modify (List.modify f c) r g)[i]? =
      some (if r = i then List.modify f c g[i] else g[i]) := by
    rw [List.getElem?_modify, List.getElem?_eq_getElem hi']
    rfl
  have key2 := (List.getElem?_eq_some.mp key).2
  show (List.modify (List.modify f c) r g)[i].length = cols
  rw [key2]
  split_ifs <;> simp [h2 _ (List.getElem_mem hi')]

theorem GridOK.inGrid {rows cols : Nat} {g : Grid} (h : GridOK rows cols g) (r c : Nat) :
    (r < g.length ∧ c < (g[r]?.getD []).length) ↔ (r < rows ∧ c < cols) := by
  obtain ⟨h1, h2⟩ := h
  subst h1
  by_cases hr : r < g.length
  · simp [hr, List.getElem?_eq_getElem hr, h2 _ (List.getElem_mem hr)]
  · simp [hr]

/-- Writing a cell of a well-formed grid. -/
theorem cellAt_modifyCell_ok {rows cols : Nat} {g : Grid} (h : GridOK rows cols g) (r c : Nat)
    (f : Cell → Cell) (r' c' : Nat) :
    cellAt (modifyCell g r c f) r' c' =
      if r' = r ∧ c' = c ∧ r < rows ∧ c < cols then f (cellAt g r c) else cellAt g r' c' := by
  rw [cellAt_modifyCell]
  have := h.inGrid r c
  by_cases h1 : r' = r ∧ c' = c
  · by_cases h2 : r < rows ∧ c < cols
    · rw [if_pos ⟨h1.1, h1.2, this.mpr h2⟩, if_pos ⟨h1.1, h1.2, h2⟩]
    · have h3 := fun h' => h2 (this.mp h')
      rw [if_neg (fun h' => h3 h'.2.2), if_neg (fun h' => h2 h'.2.2)]
  · rw [if_neg (fun h' => h1 ⟨h'.1, h'.2.1⟩), if_neg (fun h' => h1 ⟨h'.1, h'.2.1⟩)]

theorem cellAt_outside {rows cols : Nat} {g : Grid} (h : GridOK rows cols g) (r c : Nat)
    (hrc : ¬ (r < rows ∧ c < cols)) : cellAt g r c = emptyCell := by
  have := (h.inGrid r c).not.mpr hrc
  unfold cellAt
  by_cases hr : r < g.length
  · have hc : ¬ c < (g[r]?.getD []).length := fun hc => this ⟨hr, hc⟩
    rw [List.getElem?_eq_none (Nat.le_of_not_lt hc)]
    rfl
  · simp [List.getElem?_eq_none (Nat.le_of_not_lt hr)]

theorem gridOK_createEmptyGrid (rows cols : Nat) : GridOK rows cols (createEmptyGrid rows cols) := by
  refine ⟨by simp [createEmptyGrid], ?_⟩
  intro row hrow
  simp only [createEmptyGrid, List.mem_replicate] at hrow
  simp [hrow.2]

theorem cellAt_createEmptyGrid (rows cols r c : Nat) :
    cellAt (createEmptyGrid rows cols) r c = emptyCell := by
  unfold cellAt createEmptyGrid
  by_cases hr : r < rows
  · by_cases hc : c < cols
    · simp [hr, hc, List.getElem?_replicate]
    · simp [hr, hc, List.getElem?_replicate]
  · simp [hr, List.getElem?_replicate]

/-! ## The shuffle is a permutation -/

theorem swapAt_perm {α : Type} [DecidableEq α] (arr : List α) (i j : Nat) :
    (swapAt arr i j).Perm arr := by
  unfold swapAt
  split
  · rename_i a b hi hj
    obtain ⟨hil, hia⟩ := List.getElem?_eq_some.mp hi
    obtain ⟨hjl, hjb⟩ := List.getElem?_eq_some.mp hj
    rw [List.perm_iff_count]
    intro x
    have hjl' : j < (arr.set i b).length := by simpa using hjl
    rw [List.count_set _ _ _ _ hjl', List.count_set _ _ _ _ hil, List.getElem_set, hia]
    have h1 := List.boole_getElem_le_count x arr i hil
    have h2 := List.boole_getElem_le_count x arr j hjl
    rw [hia] at h1
    rw [hjb] at h2
    by_cases hij : i = j
    · subst hij
      have hab : a = b := by rw [← hia, ← hjb]
      subst hab
      simp only [if_true]
      by_cases hax : a = x
      · simp only [hax, beq_self_eq_true, if_true] at h1 ⊢
        omega
      · simp [hax]
    · simp only [hij, if_false, hjb]
      by_cases hax : a = x <;> by_cases hbx : b = x <;>
        simp only [hax, hbx, beq_self_eq_true, if_true, beq_iff_eq, if_false] at h1 h2 ⊢ <;> omega
  · exact List.Perm.refl _

theorem shuffleLoop_perm {α : Type} [DecidableEq α] (rnd : Nat → Nat) (n : Nat) (arr : List α) :
    (shuffleLoop rnd n arr).Perm arr := by
  induction n generalizing arr with
  | zero => exact List.Perm.refl _
  | succ i ih => exact (ih _).trans (swapAt_perm _ _ _)

theorem shuffleInPlace_perm {α : Type} [DecidableEq α] (rnd : Nat → Nat) (arr : List α) :
    (shuffleInPlace rnd arr).Perm arr :=
  shuffleLoop_perm rnd _ arr

/-! ## Candidate positions -/

theorem mem_positions (rows cols firstR firstC : Nat) (p : Nat × Nat) :
    p ∈ positions rows cols firstR firstC ↔
      p ∈ allPositions rows cols ∧ p ≠ (firstR, firstC) ∧
        p ∉ forEachNeighbor rows cols firstR firstC := by
  simp [positions, forbidden, List.mem_filter]

theorem nodup_positions (rows cols firstR firstC : Nat) :
    (positions rows cols firstR firstC).Nodup :=
  (nodup_allPositions rows cols).filter _


theorem nodup_forEachNeighbor (rows cols r c : Nat) : (forEachNeighbor rows cols r c).Nodup := by
  unfold forEachNeighbor
  rw [List.nodup_flatMap]
  constructor
  · intro dr _
    rw [List.nodup_flatMap]
    constructor
    · intro dc _
      dsimp only
      split_ifs <;> simp
    · simp only [deltas, List.pairwise_cons, List.mem_cons, List.mem_singleton, Function.onFun,
        List.disjoint_left, forall_eq_or_imp, forall_eq, List.not_mem_nil, false_imp_iff,
        implies_true, List.Pairwise.nil, and_true]
      refine ⟨⟨?_, ?_⟩, ?_⟩ <;> rintro ⟨x, y⟩ h1 h2 <;> split_ifs at h1 h2 <;>
        simp only [List.mem_singleton, Prod.mk.injEq, List.not_mem_nil] at h1 h2 <;> omega
  · simp only [deltas, List.pairwise_cons, List.mem_cons, List.mem_singleton, Function.onFun,
        List.disjoint_left, forall_eq_or_imp, forall_eq, List.not_mem_nil, false_imp_iff,
        implies_true, List.Pairwise.nil, and_true, List.mem_flatMap, exists_eq_or_imp, exists_eq_left,
        or_false]
    refine ⟨⟨?_, ?_⟩, ?_⟩ <;> rintro ⟨x, y⟩ h1 h2 <;>
      rcases h1 with h1 | h1 | h1 <;> rcases h2 with h2 | h2 | h2 <;>
      split_ifs at h1 h2 <;>
      simp only [List.mem_singleton, Prod.mk.injEq, List.not_mem_nil] at h1 h2 <;> omega

/-! ## Loops that write one cell per iteration -/

theorem gridOK_setMines {rows cols : Nat} (ps : List (Nat × Nat)) {g : Grid}
    (h : GridOK rows cols g) : GridOK rows cols (setMines g ps) := by
  induction ps generalizing g with
  | nil => exact h
  | cons p ps ih => exact ih (h.modifyCell _ _ _)

theorem cellAt_setMines {rows cols : Nat} (ps : List (Nat × Nat)) {g : Grid}
    (h : GridOK rows cols g) (r c : Nat) :
    cellAt (setMines g ps) r c =
      if (r, c) ∈ ps ∧ r < rows ∧ c < cols then (cellAt g r c).setMine else cellAt g r c := by
  induction ps generalizing g with
  | nil => simp [setMines]
  | cons p ps ih =>
    obtain ⟨a, b⟩ := p
    have := ih (h.modifyCell a b Cell.setMine)
    simp only [setMines, List.foldl_cons] at this ⊢
    rw [this, cellAt_modifyCell_ok h]
    by_cases hp : r = a ∧ c = b
    · obtain ⟨rfl, rfl⟩ := hp
      by_cases hin : r < rows ∧ c < cols
      · simp [hin, Cell.setMine]
      · simp [hin]
    · have hne : ¬ ((r, c) = (a, b)) := by simpa using hp
      have hne2 : ¬ (r = a ∧ c = b ∧ a < rows ∧ b < cols) := fun h' => hp ⟨h'.1, h'.2.1⟩
      simp [hne, hne2]

theorem countMineNeighbors_congr (rows cols : Nat) {g g' : Grid}
    (h : ∀ r c, (cellAt g' r c).isMine = (cellAt g r c).isMine) (r c : Nat) :
    countMineNeighbors rows cols g' r c = countMineNeighbors rows cols g r c := by
  unfold countMineNeighbors
  simp only [h]

theorem gridOK_adjacentStep {rows cols : Nat} {g : Grid} (h : GridOK rows cols g)
    (p : Nat × Nat) : GridOK rows cols (adjacentStep rows cols g p) := by
  unfold adjacentStep
  split_ifs
  · exact h
  · exact h.modifyCell _ _ _

theorem cellAt_adjacentStep {rows cols : Nat} {g : Grid} (h : GridOK rows cols g)
    (p : Nat × Nat) (r c : Nat) :
    cellAt (adjacentStep rows cols g p) r c =
      if (r, c) = p ∧ r < rows ∧ c < cols ∧ (cellAt g r c).isMine = false then
        (cellAt g r c).setAdjacent (countMineNeighbors rows cols g r c)
      else cellAt g r c := by
  obtain ⟨a, b⟩ := p
  unfold adjacentStep
  dsimp only
  by_cases hm : (cellAt g a b).isMine = true
  · rw [if_pos hm]
    by_cases hp : r = a ∧ c = b
    · obtain ⟨rfl, rfl⟩ := hp
      simp [hm]
    · have hne : ¬ ((r, c) = (a, b)) := by simpa using hp
      simp [hne]
  · rw [if_neg hm, cellAt_modifyCell_ok h]
    simp only [Bool.not_eq_true] at hm
    by_cases hp : r = a ∧ c = b
    · obtain ⟨rfl, rfl⟩ := hp
      by_cases hin : r < rows ∧ c < cols
      · simp [hin, hm]
      · have : ¬ (r < rows ∧ c < cols ∧ (cellAt g r c).isMine = false) :=
          fun h' => hin ⟨h'.1, h'.2.1⟩
        simp [hin, this]
    · have hne : ¬ ((r, c) = (a, b)) := by simpa using hp
      have hne2 : ¬ (r = a ∧ c = b ∧ a < rows ∧ b < cols) := fun h' => hp ⟨h'.1, h'.2.1⟩
      simp [hne, hne2]

theorem computeAdjacent_loop {rows cols : Nat} (l : List (Nat × Nat)) {g : Grid}
    (h : GridOK rows cols g) :
    GridOK rows cols (l.foldl (adjacentStep rows cols) g) ∧
      ∀ r c, cellAt (l.foldl (adjacentStep rows cols) g) r c =
        if (r, c) ∈ l ∧ r < rows ∧ c < cols ∧ (cellAt g r c).isMine = false then
          (cellAt g r c).setAdjacent (countMineNeighbors rows cols g r c)
        else cellAt g r c := by
  induction l generalizing g with
  | nil => exact ⟨h, by simp⟩
  | cons p l ih =>
    simp only [List.foldl_cons]
    have h1 := gridOK_adjacentStep h p
    have hmine : ∀ r c, (cellAt (adjacentStep rows cols g p) r c).isMine =
        (cellAt g r c).isMine := by
      intro r c
      rw [cellAt_adjacentStep h]
      split_ifs <;> simp [Cell.setAdjacent]
    refine ⟨(ih h1).1, fun r c => ?_⟩
    rw [(ih h1).2, hmine, countMineNeighbors_congr rows cols hmine, cellAt_adjacentStep h]
    by_cases hp : (r, c) = p
    · by_cases hin : r < rows ∧ c < cols ∧ (cellAt g r c).isMine = false
      · simp [hp, hin, Cell.setAdjacent]
      · simp [hp, hin]
    · simp [hp]

theorem gridOK_computeAdjacent {rows cols : Nat} {g : Grid} (h : GridOK rows cols g) :
    GridOK rows cols (computeAdjacent rows cols g) :=
  (computeAdjacent_loop (allPositions rows cols) h).1

theorem cellAt_computeAdjacent {rows cols : Nat} {g : Grid} (h : GridOK rows cols g)
    (r c : Nat) :
    cellAt (computeAdjacent rows cols g) r c =
      if r < rows ∧ c < cols ∧ (cellAt g r c).isMine = false then
        (cellAt g r c).setAdjacent (countMineNeighbors rows cols g r c)
      else cellAt g r c := by
  unfold computeAdjacent
  rw [(computeAdjacent_loop (allPositions rows cols) h).2]
  by_cases hin : r < rows ∧ c < cols
  · simp [hin, mem_allPositions]
  · have : ¬ (r < rows ∧ c < cols ∧ (cellAt g r c).isMine = false) :=
      fun h' => hin ⟨h'.1, h'.2.1⟩
    simp [hin, this]

/-! ## Counting -/

theorem foldl_count_eq {α : Type} (q : α → Bool) (l : List α) (k : Nat) :
    l.foldl (fun count n => if q n then count + 1 else count) k = k + l.countP q := by
  induction l generalizing k with
  | nil => simp
  | cons a l ih =>
    simp only [List.foldl_cons, List.countP_cons, ih]
    split_ifs <;> omega

theorem countP_mem_eq_length {α : Type} [DecidableEq α] {l m : List α} (hl : l.Nodup)
    (hm : m.Nodup) (hsub : ∀ a ∈ m, a ∈ l) : l.countP (fun a => decide (a ∈ m)) = m.length := by
  rw [List.countP_eq_length_filter]
  refine List.Perm.length_eq ?_
  rw [List.perm_ext_iff_of_nodup (hl.filter _) hm]
  intro a
  simp only [List.mem_filter, decide_eq_true_eq]
  exact ⟨fun h => h.2, fun h => ⟨hsub a h, h⟩⟩

theorem forEachNeighbor_perm (rows cols r c : Nat) :
    (forEachNeighbor rows cols r c).Perm
      ((allPositions rows cols).filter fun p => isNeighbour p (r, c)) := by
  rw [List.perm_ext_iff_of_nodup (nodup_forEachNeighbor rows cols r c)
    ((nodup_allPositions rows cols).filter _)]
  intro p
  rw [mem_forEachNeighbor, List.mem_filter, mem_allPositions]
  simp only [isNeighbour, decide_eq_true_eq]
  tauto

theorem countMineNeighbors_eq_countP (rows cols : Nat) (g : Grid) (r c : Nat) :
    countMineNeighbors rows cols g r c =
      (forEachNeighbor rows cols r c).countP fun n => (cellAt g n.1 n.2).isMine :=
  (foldl_count_eq _ _ 0).trans (Nat.zero_add _)

theorem countMineNeighbors_eq (rows cols : Nat) (g : Grid) (r c : Nat) :
    countMineNeighbors rows cols g r c = mineNeighbours rows cols g r c := by
  rw [countMineNeighbors_eq_countP, (forEachNeighbor_perm rows cols r c).countP_eq,
    List.countP_filter]
  unfold mineNeighbours
  congr 1
  funext p
  exact Bool.and_comm _ _

theorem length_forEachNeighbor_le (rows cols r c : Nat) :
    (forEachNeighbor rows cols r c).length ≤ 8 := by
  have hsub : forEachNeighbor rows cols r c ⊆
      [(r - 1, c - 1), (r - 1, c), (r - 1, c + 1), (r, c - 1), (r, c + 1),
        (r + 1, c - 1), (r + 1, c), (r + 1, c + 1)] := by
    rintro ⟨x, y⟩ hp
    rw [mem_forEachNeighbor] at hp
    simp only [ne_eq, Prod.mk.injEq] at hp
    simp only [List.mem_cons, Prod.mk.injEq, List.mem_singleton, List.not_mem_nil, or_false]
    omega
  exact (List.subperm_of_subset (nodup_forEachNeighbor rows cols r c) hsub).length_le

theorem countMineNeighbors_le (rows cols : Nat) (g : Grid) (r c : Nat) :
    countMineNeighbors rows cols g r c ≤ 8 := by
  rw [countMineNeighbors_eq_countP]
  exact (List.countP_le_length _).trans (length_forEachNeighbor_le rows cols r c)

theorem positions_eq_candidates (rows cols r c : Nat) :
    positions rows cols r c = candidates rows cols r c := by
  unfold positions candidates
  apply List.filter_congr
  intro p hp
  rw [mem_allPositions] at hp
  have := mem_forEachNeighbor rows cols r c p
  congr 1
  rw [Bool.eq_iff_iff]
  simp only [forbidden, List.elem_iff, List.mem_cons, this, isNeighbour,
    Bool.or_eq_true, decide_eq_true_eq]
  tauto

/-! ## Mine placement: where the mines go -/

theorem placeMinesGrid_eq (rows cols : Nat) (mines : Int) (g : Grid) (firstR firstC : Nat)
    (rnd : Nat → Nat) :
    placeMinesGrid rows cols mines g firstR firstC rnd =
      computeAdjacent rows cols (setMines g (minedCells rows cols mines firstR firstC rnd)) :=
  rfl

theorem nodup_minedCells (rows cols : Nat) (mines : Int) (firstR firstC : Nat)
    (rnd : Nat → Nat) : (minedCells rows cols mines firstR firstC rnd).Nodup :=
  ((shuffleInPlace_perm rnd _).nodup_iff.mpr (nodup_positions rows cols firstR firstC)).sublist
    (List.take_sublist _ _)

theorem mem_minedCells {rows cols : Nat} {mines : Int} {firstR firstC : Nat} {rnd : Nat → Nat}
    {p : Nat × Nat} (h : p ∈ minedCells rows cols mines firstR firstC rnd) :
    p ∈ positions rows cols firstR firstC :=
  (shuffleInPlace_perm rnd _).mem_iff.mp (List.mem_of_mem_take h)

theorem length_minedCells (rows cols : Nat) (mines : Int) (firstR firstC : Nat)
    (rnd : Nat → Nat) (hm : 0 ≤ mines) :
    ((minedCells rows cols mines firstR firstC rnd).length : Int) =
      min mines ((positions rows cols firstR firstC).length : Int) := by
  unfold minedCells
  rw [List.length_take, (shuffleInPlace_perm rnd _).length_eq]
  omega

theorem gridOK_placeMinesGrid {rows cols : Nat} {g : Grid} (h : GridOK rows cols g)
    (mines : Int) (firstR firstC : Nat) (rnd : Nat → Nat) :
    GridOK rows cols (placeMinesGrid rows cols mines g firstR firstC rnd) :=
  gridOK_computeAdjacent (gridOK_setMines _ h)

theorem isMine_placeMinesGrid {rows cols : Nat} {g : Grid} (h : GridOK rows cols g)
    (mines : Int) (firstR firstC : Nat) (rnd : Nat → Nat) (r c : Nat) :
    (cellAt (placeMinesGrid rows cols mines g firstR firstC rnd) r c).isMine =
      ((cellAt g r c).isMine || decide ((r, c) ∈ minedCells rows cols mines firstR firstC rnd)) := by
  rw [placeMinesGrid_eq, cellAt_computeAdjacent (gridOK_setMines _ h), cellAt_setMines _ h]
  have hin : (r, c) ∈ minedCells rows cols mines firstR firstC rnd → r < rows ∧ c < cols :=
    fun hp => (mem_allPositions rows cols (r, c)).mp ((mem_positions _ _ _ _ _).mp (mem_minedCells hp)).1
  by_cases hp : (r, c) ∈ minedCells rows cols mines firstR firstC rnd
  · simp [hp, hin hp, Cell.setMine]
  · simp only [hp, false_and, if_false, decide_False, Bool.or_false]
    split_ifs <;> simp [Cell.setAdjacent]

/-- Mine placement leaves the fields other than `isMine` and `adjacent` alone. -/
theorem frame_placeMinesGrid {rows cols : Nat} {g : Grid} (h : GridOK rows cols g)
    (mines : Int) (firstR firstC : Nat) (rnd : Nat → Nat) (r c : Nat) :
    (cellAt (placeMinesGrid rows cols mines g firstR firstC rnd) r c).isOpen = (cellAt g r c).isOpen ∧
    (cellAt (placeMinesGrid rows cols mines g firstR firstC rnd) r c).isFlag = (cellAt g r c).isFlag ∧
    (cellAt (placeMinesGrid rows cols mines g firstR firstC rnd) r c).elMine = (cellAt g r c).elMine ∧
    (cellAt (placeMinesGrid rows cols mines g firstR firstC rnd) r c).elExploded =
      (cellAt g r c).elExploded := by
  rw [placeMinesGrid_eq, cellAt_computeAdjacent (gridOK_setMines _ h), cellAt_setMines _ h]
  split_ifs <;> simp [Cell.setAdjacent, Cell.setMine]

theorem adjacent_placeMinesGrid {rows cols : Nat} {g : Grid} (h : GridOK rows cols g)
    (mines : Int) (firstR firstC : Nat) (rnd : Nat → Nat) (r c : Nat) (hr : r < rows)
    (hc : c < cols)
    (hsafe : (cellAt (placeMinesGrid rows cols mines g firstR firstC rnd) r c).isMine = false) :
    (cellAt (placeMinesGrid rows cols mines g firstR firstC rnd) r c).adjacent =
      countMineNeighbors rows cols (placeMinesGrid rows cols mines g firstR firstC rnd) r c := by
  have hcongr : ∀ r c, (cellAt (placeMinesGrid rows cols mines g firstR firstC rnd) r c).isMine =
      (cellAt (setMines g (minedCells rows cols mines firstR firstC rnd)) r c).isMine := by
    intro r c
    rw [placeMinesGrid_eq, cellAt_computeAdjacent (gridOK_setMines _ h)]
    split_ifs <;> simp [Cell.setAdjacent]
  rw [countMineNeighbors_congr rows cols hcongr]
  rw [hcongr] at hsafe
  rw [placeMinesGrid_eq, cellAt_computeAdjacent (gridOK_setMines _ h),
    if_pos ⟨hr, hc, hsafe⟩]
  simp [Cell.setAdjacent]

/-- C3. Adjacency correctness on safe cells: after `placeMinesAvoiding` has run on a freshly
created grid, the field `adjacent` of every cell of the board that is not a mine is the number
of cells of the board that are 8-neighbours of it and are mines; in particular it is at most 8. -/
theorem placeMines_adjacent_safe (rows cols : Nat) (mines : Int) (firstR firstC : Nat)
    (rnd : Nat → Nat) (r c : Nat) (hr : r < rows) (hc : c < cols)
    (hsafe : (cellAt (placeMinesGrid rows cols mines (createEmptyGrid rows cols) firstR firstC rnd)
      r c).isMine = false) :
    (cellAt (placeMinesGrid rows cols mines (createEmptyGrid rows cols) firstR firstC rnd)
        r c).adjacent =
      mineNeighbours rows cols
        (placeMinesGrid rows cols mines (createEmptyGrid rows cols) firstR firstC rnd) r c ∧
    (cellAt (placeMinesGrid rows cols mines (createEmptyGrid rows cols) firstR firstC rnd)
        r c).adjacent ≤ 8 := by
  have key := adjacent_placeMinesGrid (gridOK_createEmptyGrid rows cols) mines firstR firstC rnd
    r c hr hc hsafe
  exact ⟨key.trans (countMineNeighbors_eq _ _ _ _ _), key ▸ countMineNeighbors_le _ _ _ _ _⟩

set_option maxRecDepth 100000 in
theorem placeMines_adjacent_safe_witness :
    (0 < 4 ∧ 2 < 4 ∧
      (cellAt (placeMinesGrid 4 4 3 (createEmptyGrid 4 4) 0 0 (fun _ => 0)) 0 2).isMine = false) ∧
    (cellAt (placeMinesGrid 4 4 3 (createEmptyGrid 4 4) 0 0 (fun _ => 0)) 0 2).adjacent =
      mineNeighbours 4 4 (placeMinesGrid 4 4 3 (createEmptyGrid 4 4) 0 0 (fun _ => 0)) 0 2 ∧
    (cellAt (placeMinesGrid 4 4 3 (createEmptyGrid 4 4) 0 0 (fun _ => 0)) 0 2).adjacent ≤ 8 :=
  ⟨by decide, placeMines_adjacent_safe 4 4 3 0 0 (fun _ => 0) 0 2 (by decide) (by decide)
    (by decide)⟩

/-- The number of mines put on a grid without mines. -/
theorem mineCount_placeMinesGrid {rows cols : Nat} {g : Grid} (h : GridOK rows cols g)
    (hno : ∀ r c, (cellAt g r c).isMine = false)
    (mines : Int) (firstR firstC : Nat) (rnd : Nat → Nat) :
    countCells rows cols (placeMinesGrid rows cols mines g firstR firstC rnd) Cell.isMine =
      (minedCells rows cols mines firstR firstC rnd).length := by
  unfold countCells
  rw [← countP_mem_eq_length (nodup_allPositions rows cols)
    (nodup_minedCells rows cols mines firstR firstC rnd)
    (fun a ha => ((mem_positions _ _ _ _ _).mp (mem_minedCells ha)).1)]
  congr 1
  funext p
  rw [isMine_placeMinesGrid h, hno]
  simp

/-- C4. Mine count: for `mines ≥ 0`, every centre `(r, c)` and every outcome of the shuffle,
after `placeMinesAvoiding(r, c)` on a freshly created grid the number of cells of the board
with `isMine = true` is exactly `min(mines, |candidates|)`, where the candidates are the cells
of the board other than `(r, c)` and its neighbours, and every mine lies on a candidate cell. -/
theorem placeMines_count (rows cols : Nat) (mines : Int) (hm : 0 ≤ mines) (r c : Nat)
    (rnd : Nat → Nat) :
    ((countCells rows cols
        (placeMinesGrid rows cols mines (createEmptyGrid rows cols) r c rnd) Cell.isMine : Nat) : Int) =
      min mines ((candidates rows cols r c).length : Int) ∧
    ∀ r' c', (cellAt (placeMinesGrid rows cols mines (createEmptyGrid rows cols) r c rnd)
        r' c').isMine = true → (r', c') ∈ candidates rows cols r c := by
  have hno : ∀ r c, (cellAt (createEmptyGrid rows cols) r c).isMine = false := by
    intro r c
    rw [cellAt_createEmptyGrid]
    rfl
  refine ⟨?_, fun r' c' hmine => ?_⟩
  · rw [mineCount_placeMinesGrid (gridOK_createEmptyGrid rows cols) hno,
      length_minedCells _ _ _ _ _ _ hm, positions_eq_candidates]
  · rw [isMine_placeMinesGrid (gridOK_createEmptyGrid rows cols), hno] at hmine
    rw [← positions_eq_candidates]
    exact mem_minedCells (by simpa using hmine)

set_option maxRecDepth 100000 in
theorem placeMines_count_witness :
    (0 : Int) ≤ 10 ∧
    ((countCells 4 4 (placeMinesGrid 4 4 10 (createEmptyGrid 4 4) 1 1 (fun _ => 0))
        Cell.isMine : Nat) : Int) = min 10 ((candidates 4 4 1 1).length : Int) ∧
    ∀ r' c', (cellAt (placeMinesGrid 4 4 10 (createEmptyGrid 4 4) 1 1 (fun _ => 0))
        r' c').isMine = true → (r', c') ∈ candidates 4 4 1 1 :=
  ⟨by decide, placeMines_count 4 4 10 (by decide) 1 1 (fun _ => 0)⟩

/-! ## The flood -/

theorem countP_update {α : Type} [DecidableEq α] (q1 q2 : α → Bool) (a : α) {l : List α}
    (hl : l.Nodup) (ha : a ∈ l) (h : ∀ b, b ≠ a → q1 b = q2 b) :
    l.countP q1 + (if q2 a then 1 else 0) = l.countP q2 + (if q1 a then 1 else 0) := by
  induction l with
  | nil => simp at ha
  | cons b l ih =>
    rw [List.nodup_cons] at hl
    simp only [List.countP_cons]
    by_cases hb : b = a
    · subst hb
      have : l.countP q1 = l.countP q2 := by
        apply List.countP_congr
        intro x hx
        have hne : x ≠ b := fun e => hl.1 (e ▸ hx)
        rw [h x hne]
      omega
    · have ha' : a ∈ l := by
        rcases List.mem_cons.mp ha with e | e
        · exact absurd e.symm hb
        · exact e
      have := ih hl.2 ha'
      rw [h b hb]
      omega

theorem countCells_modifyCell {rows cols : Nat} {g : Grid} (h : GridOK rows cols g)
    {r c : Nat} (hr : r < rows) (hc : c < cols) (f : Cell → Cell) (q : Cell → Bool) :
    countCells rows cols (modifyCell g r c f) q + (if q (cellAt g r c) then 1 else 0) =
      countCells rows cols g q + (if q (f (cellAt g r c)) then 1 else 0) := by
  unfold countCells
  have := countP_update (fun p : Nat × Nat => q (cellAt (modifyCell g r c f) p.1 p.2))
    (fun p : Nat × Nat => q (cellAt g p.1 p.2)) (r, c) (nodup_allPositions rows cols)
    ((mem_allPositions rows cols (r, c)).mpr ⟨hr, hc⟩)
    (by
      intro b hb
      have hne : ¬ (b.1 = r ∧ b.2 = c ∧ r < rows ∧ c < cols) :=
        fun h' => hb (Prod.ext h'.1 h'.2.1)
      simp only [cellAt_modifyCell_ok h, if_neg hne])
  have hval : cellAt (modifyCell g r c f) r c = f (cellAt g r c) := by
    rw [cellAt_modifyCell_ok h, if_pos ⟨rfl, rfl, hr, hc⟩]
  dsimp only at this
  rw [hval] at this
  omega

theorem countCells_le (rows cols : Nat) (g : Grid) (q : Cell → Bool) :
    countCells rows cols g q ≤ rows * cols := by
  unfold countCells
  exact (List.countP_le_length _).trans (length_allPositions rows cols).le

theorem length_floodPushes_le (rows cols : Nat) (g : Grid) (r c : Nat) :
    (floodPushes rows cols g r c).length ≤ 8 :=
  (List.length_filter_le _ _).trans (length_forEachNeighbor_le rows cols r c)

theorem mem_floodPushes (rows cols : Nat) (g : Grid) (r c : Nat) (x : Nat × Nat) :
    x ∈ floodPushes rows cols g r c ↔
      x ∈ forEachNeighbor rows cols r c ∧ (cellAt g x.1 x.2).isOpen = false ∧
        (cellAt g x.1 x.2).isMine = false := by
  simp [floodPushes, List.mem_filter]

theorem cellAt_setOpen {rows cols : Nat} {g : Grid} (h : GridOK rows cols g) (r c r' c' : Nat) :
    (cellAt (modifyCell g r c Cell.setOpen) r' c').isMine = (cellAt g r' c').isMine ∧
    (cellAt (modifyCell g r c Cell.setOpen) r' c').isFlag = (cellAt g r' c').isFlag ∧
    (cellAt (modifyCell g r c Cell.setOpen) r' c').adjacent = (cellAt g r' c').adjacent ∧
    (cellAt (modifyCell g r c Cell.setOpen) r' c').elMine = (cellAt g r' c').elMine ∧
    (cellAt (modifyCell g r c Cell.setOpen) r' c').elExploded = (cellAt g r' c').elExploded ∧
    ((cellAt g r' c').isOpen = true → (cellAt (modifyCell g r c Cell.setOpen) r' c').isOpen = true) := by
  rw [cellAt_modifyCell_ok h]
  split_ifs with h1
  · obtain ⟨rfl, rfl, -, -⟩ := h1
    simp [Cell.setOpen]
  · simp

theorem isOpen_setOpen {rows cols : Nat} {g : Grid} (h : GridOK rows cols g) (r c r' c' : Nat)
    (hr : r < rows) (hc : c < cols) :
    (cellAt (modifyCell g r c Cell.setOpen) r' c').isOpen =
      (decide ((r', c') = (r, c)) || (cellAt g r' c').isOpen) := by
  rw [cellAt_modifyCell_ok h]
  by_cases h1 : r' = r ∧ c' = c
  · obtain ⟨rfl, rfl⟩ := h1
    simp [Cell.setOpen, hr, hc]
  · have h2 : ¬ (r' = r ∧ c' = c ∧ r < rows ∧ c < cols) := fun h' => h1 ⟨h'.1, h'.2.1⟩
    have h3 : ¬ ((r', c') = (r, c)) := by simpa using h1
    simp [h2, h3]

/-- The state after the loop body has opened the popped cell `p`. -/
theorem FloodInv.skip {rows cols : Nat} {g0 : Grid} {start : Nat × Nat} {s : Game} {p : Nat × Nat}
    {stack : List (Nat × Nat)} (h : FloodInv rows cols g0 start s (p :: stack))
    (hskip : ((cellAt s.grid p.1 p.2).isOpen || (cellAt s.grid p.1 p.2).isFlag) = true) :
    FloodInv rows cols g0 start s stack := by
  have hpop : ∀ x : Nat × Nat, x ∈ p :: stack →
      (cellAt s.grid x.1 x.2).isOpen = true ∨ (cellAt g0 x.1 x.2).isFlag = true ∨ x ∈ stack := by
    intro x hx
    rcases List.mem_cons.mp hx with e | e
    · subst e
      simp only [Bool.or_eq_true] at hskip
      rcases hskip with h2 | h2
      · exact Or.inl h2
      · exact Or.inr (Or.inl (by rw [← h.flag_eq]; exact h2))
    · exact Or.inr (Or.inr e)
  refine { h with
    stack_in := fun q hq => h.stack_in q (List.mem_cons_of_mem _ hq), start_ok := ?_,
    closure := ?_ }
  · rcases h.start_ok with h1 | h1 | h1
    · exact Or.inl h1
    · exact Or.inr (Or.inl h1)
    · exact hpop _ h1
  intro y hy0 hy hadj0 x hx hxm
  rcases h.closure y hy0 hy hadj0 x hx hxm with h1 | h1 | h1
  · exact Or.inl h1
  · exact Or.inr (Or.inl h1)
  · rcases List.mem_cons.mp h1 with e | e
    · subst e
      simp only [Bool.or_eq_true] at hskip
      rcases hskip with h2 | h2
      · exact Or.inl h2
      · exact Or.inr (Or.inl (by rw [← h.flag_eq]; exact h2))
    · exact Or.inr (Or.inr e)

theorem FloodInv.openNumbered {rows cols : Nat} {g0 : Grid} {start : Nat × Nat} {s : Game} {p : Nat × Nat}
    {stack : List (Nat × Nat)} (h : FloodInv rows cols g0 start s (p :: stack))
    (hadj : (cellAt s.grid p.1 p.2).adjacent > 0) :
    FloodInv rows cols g0 start
      { s with
        grid := modifyCell s.grid p.1 p.2 Cell.setOpen
        openedSafeCells := s.openedSafeCells + 1 } stack := by
  have hp := h.stack_in p (List.mem_cons_self _ _)
  have hs := cellAt_setOpen h.ok p.1 p.2
  refine
    { rows_eq := h.rows_eq, cols_eq := h.cols_eq, ok := h.ok.modifyCell _ _ _
      mine_eq := fun r c => (hs r c).1.trans (h.mine_eq r c)
      flag_eq := fun r c => (hs r c).2.1.trans (h.flag_eq r c)
      adj_eq := fun r c => (hs r c).2.2.1.trans (h.adj_eq r c)
      elMine_eq := fun r c => (hs r c).2.2.2.1.trans (h.elMine_eq r c)
      elExploded_eq := fun r c => (hs r c).2.2.2.2.1.trans (h.elExploded_eq r c)
      mono := fun r c h0 => (hs r c).2.2.2.2.2 (h.mono r c h0)
      stack_in := fun q hq => h.stack_in q (List.mem_cons_of_mem _ hq)
      start_ok := ?_
      closure := ?_ }
  · dsimp only
    rw [isOpen_setOpen h.ok _ _ _ _ hp.1 hp.2]
    rcases h.start_ok with h1 | h1 | h1
    · exact Or.inl (by simp [h1])
    · exact Or.inr (Or.inl h1)
    · rcases List.mem_cons.mp h1 with e | e
      · subst e
        exact Or.inl (by simp)
      · exact Or.inr (Or.inr e)
  intro y hy0 hy hadj0 x hx hxm
  dsimp only at hy ⊢
  rw [isOpen_setOpen h.ok _ _ _ _ hp.1 hp.2] at hy ⊢
  by_cases hyp : (y.1, y.2) = (p.1, p.2)
  · exfalso
    have : y = p := Prod.ext (by simpa using congrArg Prod.fst hyp)
      (by simpa using congrArg Prod.snd hyp)
    subst this
    rw [← h.adj_eq] at hadj0
    omega
  · simp only [hyp, decide_False, Bool.false_or] at hy
    rcases h.closure y hy0 hy hadj0 x hx hxm with h1 | h1 | h1
    · exact Or.inl (by simp [h1])
    · exact Or.inr (Or.inl h1)
    · rcases List.mem_cons.mp h1 with e | e
      · subst e
        exact Or.inl (by simp)
      · exact Or.inr (Or.inr e)

theorem FloodInv.openZero {rows cols : Nat} {g0 : Grid} {start : Nat × Nat} {s : Game} {p : Nat × Nat}
    {stack : List (Nat × Nat)} (h : FloodInv rows cols g0 start s (p :: stack)) :
    FloodInv rows cols g0 start
      { s with
        grid := modifyCell s.grid p.1 p.2 Cell.setOpen
        openedSafeCells := s.openedSafeCells + 1 }
      ((floodPushes s.rows s.cols (modifyCell s.grid p.1 p.2 Cell.setOpen) p.1 p.2).reverse ++
        stack) := by
  have hp := h.stack_in p (List.mem_cons_self _ _)
  have hs := cellAt_setOpen h.ok p.1 p.2
  refine
    { rows_eq := h.rows_eq, cols_eq := h.cols_eq, ok := h.ok.modifyCell _ _ _
      mine_eq := fun r c => (hs r c).1.trans (h.mine_eq r c)
      flag_eq := fun r c => (hs r c).2.1.trans (h.flag_eq r c)
      adj_eq := fun r c => (hs r c).2.2.1.trans (h.adj_eq r c)
      elMine_eq := fun r c => (hs r c).2.2.2.1.trans (h.elMine_eq r c)
      elExploded_eq := fun r c => (hs r c).2.2.2.2.1.trans (h.elExploded_eq r c)
      mono := fun r c h0 => (hs r c).2.2.2.2.2 (h.mono r c h0)
      stack_in := ?_
      start_ok := ?_
      closure := ?_ }
  · intro q hq
    rcases List.mem_append.mp hq with e | e
    · rw [List.mem_reverse, mem_floodPushes, mem_forEachNeighbor] at e
      rw [← h.rows_eq, ← h.cols_eq]
      exact ⟨e.1.1, e.1.2.1⟩
    · exact h.stack_in q (List.mem_cons_of_mem _ e)
  · dsimp only
    rw [isOpen_setOpen h.ok _ _ _ _ hp.1 hp.2]
    rcases h.start_ok with h1 | h1 | h1
    · exact Or.inl (by simp [h1])
    · exact Or.inr (Or.inl h1)
    · rcases List.mem_cons.mp h1 with e | e
      · subst e
        exact Or.inl (by simp)
      · exact Or.inr (Or.inr (List.mem_append_right _ e))
  · intro y hy0 hy hadj0 x hx hxm
    dsimp only at hy ⊢
    rw [isOpen_setOpen h.ok _ _ _ _ hp.1 hp.2] at hy ⊢
    by_cases hxo : (cellAt s.grid x.1 x.2).isOpen = true
    · exact Or.inl (by simp [hxo])
    by_cases hxp : (x.1, x.2) = (p.1, p.2)
    · exact Or.inl (by simp [hxp])
    by_cases hyp : (y.1, y.2) = (p.1, p.2)
    · have : y = p := Prod.ext (by simpa using congrArg Prod.fst hyp)
        (by simpa using congrArg Prod.snd hyp)
      subst this
      refine Or.inr (Or.inr (List.mem_append_left _ ?_))
      rw [List.mem_reverse, mem_floodPushes, h.rows_eq, h.cols_eq]
      refine ⟨hx, ?_, ?_⟩
      · rw [isOpen_setOpen h.ok _ _ _ _ hp.1 hp.2]
        simpa [hxp] using hxo
      · rw [(hs x.1 x.2).1, h.mine_eq]
        exact hxm
    · simp only [hyp, decide_False, Bool.false_or] at hy
      rcases h.closure y hy0 hy hadj0 x hx hxm with h1 | h1 | h1
      · exact absurd h1 hxo
      · exact Or.inr (Or.inl h1)
      · rcases List.mem_cons.mp h1 with e | e
        · subst e
          exact absurd rfl hxp
        · exact Or.inr (Or.inr (List.mem_append_right _ e))

/-- The loop of `floodOpen` keeps its invariant. -/
theorem floodLoop_inv {rows cols : Nat} {g0 : Grid} {start : Nat × Nat} (fuel : Nat) {s : Game}
    {stack : List (Nat × Nat)} (h : FloodInv rows cols g0 start s stack) :
    FloodInv rows cols g0 start (floodLoop fuel s stack).1 (floodLoop fuel s stack).2 := by
  induction fuel generalizing s stack with
  | zero => simpa [floodLoop] using h
  | succ fuel ih =>
    cases stack with
    | nil => simpa [floodLoop] using h
    | cons p stack =>
      simp only [floodLoop]
      split_ifs with hskip hadj
      · exact ih (h.skip hskip)
      · exact ih (h.openNumbered hadj)
      · exact ih h.openZero

/-- The loop of `floodOpen` touches only the grid and `openedSafeCells`. -/
theorem floodLoop_fields (fuel : Nat) (s : Game) (stack : List (Nat × Nat)) :
    (floodLoop fuel s stack).1.rows = s.rows ∧ (floodLoop fuel s stack).1.cols = s.cols ∧
    (floodLoop fuel s stack).1.mines = s.mines ∧
    (floodLoop fuel s stack).1.gameOver = s.gameOver ∧
    (floodLoop fuel s stack).1.firstClickDone = s.firstClickDone ∧
    (floodLoop fuel s stack).1.flagsLeft = s.flagsLeft ∧
    (floodLoop fuel s stack).1.totalSafeCells = s.totalSafeCells ∧
    (floodLoop fuel s stack).1.banner = s.banner := by
  induction fuel generalizing s stack with
  | zero => simp [floodLoop]
  | succ fuel ih =>
    cases stack with
    | nil => simp [floodLoop]
    | cons p stack =>
      simp only [floodLoop]
      split_ifs
      · exact ih _ _
      · exact ih _ _
      · exact ih _ _

/-- Every cell opened by the loop is counted once in `openedSafeCells`. -/
theorem floodLoop_count {rows cols : Nat} {g0 : Grid} {start : Nat × Nat} (fuel : Nat) {s : Game}
    {stack : List (Nat × Nat)} (h : FloodInv rows cols g0 start s stack) :
    (floodLoop fuel s stack).1.openedSafeCells -
        (countCells rows cols (floodLoop fuel s stack).1.grid Cell.isOpen : Int) =
      s.openedSafeCells - (countCells rows cols s.grid Cell.isOpen : Int) := by
  induction fuel generalizing s stack with
  | zero => simp [floodLoop]
  | succ fuel ih =>
    cases stack with
    | nil => simp [floodLoop]
    | cons p stack =>
      have hp := h.stack_in p (List.mem_cons_self _ _)
      have hcnt := countCells_modifyCell h.ok hp.1 hp.2 Cell.setOpen Cell.isOpen
      simp only [floodLoop]
      split_ifs with hskip hadj
      · exact ih (h.skip hskip)
      · rw [ih (h.openNumbered hadj)]
        simp only [Bool.or_eq_true, not_or, Bool.not_eq_true] at hskip
        simp only [hskip.1, Cell.setOpen] at hcnt
        simp at hcnt
        dsimp only
        omega
      · rw [ih h.openZero]
        simp only [Bool.or_eq_true, not_or, Bool.not_eq_true] at hskip
        simp only [hskip.1, Cell.setOpen] at hcnt
        simp at hcnt
        dsimp only
        omega

/-- The fuel of `floodOpen` is enough: the loop ends because the stack is empty. -/
theorem floodLoop_terminates {rows cols : Nat} {g0 : Grid} {start : Nat × Nat} (fuel : Nat) {s : Game}
    {stack : List (Nat × Nat)} (h : FloodInv rows cols g0 start s stack)
    (hfuel : stack.length + 8 * countCells rows cols s.grid (fun x => !x.isOpen) ≤ fuel) :
    (floodLoop fuel s stack).2 = [] := by
  induction fuel generalizing s stack with
  | zero =>
    have : stack.length = 0 := by omega
    simp [floodLoop, List.length_eq_zero.mp this]
  | succ fuel ih =>
    cases stack with
    | nil => simp [floodLoop]
    | cons p stack =>
      have hp := h.stack_in p (List.mem_cons_self _ _)
      have hcnt := countCells_modifyCell h.ok hp.1 hp.2 Cell.setOpen (fun x => !x.isOpen)
      simp only [List.length_cons] at hfuel
      simp only [floodLoop]
      split_ifs with hskip hadj
      · exact ih (h.skip hskip) (by omega)
      · simp only [Bool.or_eq_true, not_or, Bool.not_eq_true] at hskip
        simp only [hskip.1, Cell.setOpen] at hcnt
        simp at hcnt
        exact ih (h.openNumbered hadj) (by dsimp only; omega)
      · simp only [Bool.or_eq_true, not_or, Bool.not_eq_true] at hskip
        simp only [hskip.1, Cell.setOpen] at hcnt
        simp at hcnt
        have hlen := length_floodPushes_le s.rows s.cols
          (modifyCell s.grid p.1 p.2 Cell.setOpen) p.1 p.2
        exact ih h.openZero (by
          simp only [List.length_append, List.length_reverse]
          omega)

/-- The loop opens only non-mine, unflagged cells when only non-mine cells are on the stack. -/
theorem floodLoop_opened {rows cols : Nat} {g0 : Grid} {start : Nat × Nat} (fuel : Nat)
    {s : Game} {stack : List (Nat × Nat)} (h : FloodInv rows cols g0 start s stack)
    (hst : ∀ p ∈ stack, (cellAt g0 p.1 p.2).isMine = false) (r c : Nat)
    (hopen : (cellAt (floodLoop fuel s stack).1.grid r c).isOpen = true) :
    (cellAt s.grid r c).isOpen = true ∨
      ((cellAt g0 r c).isMine = false ∧ (cellAt g0 r c).isFlag = false) := by
  induction fuel generalizing s stack with
  | zero => exact Or.inl (by simpa [floodLoop] using hopen)
  | succ fuel ih =>
    cases stack with
    | nil => exact Or.inl (by simpa [floodLoop] using hopen)
    | cons p stack =>
      have hp := h.stack_in p (List.mem_cons_self _ _)
      have hpm := hst p (List.mem_cons_self _ _)
      have hst' : ∀ q ∈ stack, (cellAt g0 q.1 q.2).isMine = false :=
        fun q hq => hst q (List.mem_cons_of_mem _ hq)
      simp only [floodLoop] at hopen
      split_ifs at hopen with hskip hadj
      · exact ih (h.skip hskip) hst' hopen
      · simp only [Bool.or_eq_true, not_or, Bool.not_eq_true] at hskip
        rcases ih (h.openNumbered hadj) hst' hopen with h1 | h1
        · dsimp only at h1
          rw [isOpen_setOpen h.ok _ _ _ _ hp.1 hp.2] at h1
          simp only [Bool.or_eq_true, decide_eq_true_eq, Prod.mk.injEq] at h1
          rcases h1 with ⟨rfl, rfl⟩ | h1
          · exact Or.inr ⟨hpm, by rw [← h.flag_eq]; exact hskip.2⟩
          · exact Or.inl h1
        · exact Or.inr h1
      · simp only [Bool.or_eq_true, not_or, Bool.not_eq_true] at hskip
        have hst2 : ∀ q ∈ (floodPushes s.rows s.cols (modifyCell s.grid p.1 p.2 Cell.setOpen)
            p.1 p.2).reverse ++ stack, (cellAt g0 q.1 q.2).isMine = false := by
          intro q hq
          rcases List.mem_append.mp hq with e | e
          · rw [List.mem_reverse, mem_floodPushes] at e
            rw [← h.mine_eq, ← (cellAt_setOpen h.ok p.1 p.2 q.1 q.2).1]
            exact e.2.2
          · exact hst' q e
        rcases ih h.openZero hst2 hopen with h1 | h1
        · dsimp only at h1
          rw [isOpen_setOpen h.ok _ _ _ _ hp.1 hp.2] at h1
          simp only [Bool.or_eq_true, decide_eq_true_eq, Prod.mk.injEq] at h1
          rcases h1 with ⟨rfl, rfl⟩ | h1
          · exact Or.inr ⟨hpm, by rw [← h.flag_eq]; exact hskip.2⟩
          · exact Or.inl h1
        · exact Or.inr h1

/-- The invariant holds when `floodOpen` enters its loop. -/
theorem floodInv_init {s : Game} (ok : GridOK s.rows s.cols s.grid) {r c : Nat}
    (hr : r < s.rows) (hc : c < s.cols) :
    FloodInv s.rows s.cols s.grid (r, c) s [(r, c)] :=
  { rows_eq := rfl, cols_eq := rfl, ok := ok
    mine_eq := fun _ _ => rfl, flag_eq := fun _ _ => rfl, adj_eq := fun _ _ => rfl
    elMine_eq := fun _ _ => rfl, elExploded_eq := fun _ _ => rfl
    mono := fun _ _ h => h
    stack_in := fun p hp => by
      rw [List.mem_singleton] at hp
      subst hp
      exact ⟨hr, hc⟩
    start_ok := Or.inr (Or.inr (List.mem_singleton.mpr rfl))
    closure := fun y hy0 hy => by rw [hy0] at hy; exact absurd hy (by simp) }

/-- The invariant at the exit of `floodOpen`: the loop has emptied its stack. -/
theorem floodOpen_inv {s : Game} (ok : GridOK s.rows s.cols s.grid) {r c : Nat}
    (hr : r < s.rows) (hc : c < s.cols) :
    FloodInv s.rows s.cols s.grid (r, c) (floodOpen s r c) [] := by
  have h := floodLoop_inv (floodFuel s) (floodInv_init ok hr hc)
  have ht : (floodLoop (floodFuel s) s [(r, c)]).2 = [] := by
    apply floodLoop_terminates _ (floodInv_init ok hr hc)
    have := countCells_le s.rows s.cols s.grid (fun x => !x.isOpen)
    simp only [List.length_singleton, floodFuel]
    omega
  rw [ht] at h
  exact h

theorem floodReach_closed {rows cols : Nat} {g : Grid} {start x : Nat × Nat}
    (h : FloodReach rows cols g start x) (hstart : (cellAt g start.1 start.2).isOpen = false) :
    (cellAt g x.1 x.2).isOpen = false := by
  cases h with
  | start => exact hstart
  | step _ _ _ _ _ _ ho _ => exact ho

/-- Completeness of the flood: every cell of `FloodReach` is open when `floodOpen` returns. -/
theorem floodOpen_complete {s : Game} (ok : GridOK s.rows s.cols s.grid) {r c : Nat}
    (hr : r < s.rows) (hc : c < s.cols) (hclosed : (cellAt s.grid r c).isOpen = false)
    (hflag : (cellAt s.grid r c).isFlag = false) {x : Nat × Nat}
    (hx : FloodReach s.rows s.cols s.grid (r, c) x) :
    (cellAt (floodOpen s r c).grid x.1 x.2).isOpen = true := by
  have inv := floodOpen_inv ok hr hc
  induction hx with
  | start =>
    rcases inv.start_ok with h1 | h1 | h1
    · exact h1
    · rw [hflag] at h1
      exact absurd h1 (by simp)
    · simp at h1
  | @step y x hy hadj hxr hxc hn hm ho hf ih =>
    have hyc := floodReach_closed hy hclosed
    have hmem : x ∈ forEachNeighbor s.rows s.cols y.1 y.2 := by
      rw [mem_forEachNeighbor]
      simp only [isNeighbour, decide_eq_true_eq] at hn
      exact ⟨hxr, hxc, hn.1, hn.2⟩
    rcases inv.closure y hyc ih hadj x hmem hm with h1 | h1 | h1
    · exact h1
    · rw [hf] at h1
      exact absurd h1 (by simp)
    · simp at h1

/-! ## Revealing the mines -/

theorem gridOK_revealStep {rows cols : Nat} {g : Grid} (h : GridOK rows cols g)
    (p : Nat × Nat) : GridOK rows cols (revealStep g p) := by
  unfold revealStep revealMine
  split_ifs
  · exact h.modifyCell _ _ _
  · exact h

theorem cellAt_revealStep {rows cols : Nat} {g : Grid} (h : GridOK rows cols g)
    (p : Nat × Nat) (r c : Nat) :
    cellAt (revealStep g p) r c =
      if (r, c) = p ∧ r < rows ∧ c < cols ∧ (cellAt g r c).isMine = true ∧
          (cellAt g r c).isOpen = false then (cellAt g r c).reveal false
      else cellAt g r c := by
  obtain ⟨a, b⟩ := p
  unfold revealStep revealMine
  dsimp only
  by_cases hp : r = a ∧ c = b
  · obtain ⟨rfl, rfl⟩ := hp
    by_cases hm : (cellAt g r c).isMine = true <;> by_cases ho : (cellAt g r c).isOpen = true <;>
      by_cases hin : r < rows ∧ c < cols <;>
      simp [hm, ho, hin, cellAt_modifyCell_ok h]
  · have hne : ¬ ((r, c) = (a, b)) := by simpa using hp
    have hne2 : ¬ (r = a ∧ c = b ∧ a < rows ∧ b < cols) := fun h' => hp ⟨h'.1, h'.2.1⟩
    have hrhs : ¬ ((r, c) = (a, b) ∧ r < rows ∧ c < cols ∧ (cellAt g r c).isMine = true ∧
        (cellAt g r c).isOpen = false) := fun h' => hne h'.1
    rw [if_neg hrhs]
    split_ifs <;> simp [hne2, cellAt_modifyCell_ok h]

theorem revealAllMines_loop {rows cols : Nat} (l : List (Nat × Nat)) {g : Grid}
    (h : GridOK rows cols g) :
    GridOK rows cols (l.foldl revealStep g) ∧
      ∀ r c, cellAt (l.foldl revealStep g) r c =
        if (r, c) ∈ l ∧ r < rows ∧ c < cols ∧ (cellAt g r c).isMine = true ∧
            (cellAt g r c).isOpen = false then (cellAt g r c).reveal false
        else cellAt g r c := by
  induction l generalizing g with
  | nil => exact ⟨h, by simp⟩
  | cons p l ih =>
    simp only [List.foldl_cons]
    have h1 := gridOK_revealStep h p
    refine ⟨(ih h1).1, fun r c => ?_⟩
    rw [(ih h1).2, cellAt_revealStep h]
    by_cases hp : (r, c) = p
    · by_cases hc : r < rows ∧ c < cols ∧ (cellAt g r c).isMine = true ∧
          (cellAt g r c).isOpen = false
      · simp [hp, hc, Cell.reveal]
      · simp [hp, hc]
    · simp [hp]

theorem gridOK_revealAllMines {rows cols : Nat} {g : Grid} (h : GridOK rows cols g) :
    GridOK rows cols (revealAllMines rows cols g) :=
  (revealAllMines_loop (allPositions rows cols) h).1

theorem cellAt_revealAllMines {rows cols : Nat} {g : Grid} (h : GridOK rows cols g)
    (r c : Nat) :
    cellAt (revealAllMines rows cols g) r c =
      if r < rows ∧ c < cols ∧ (cellAt g r c).isMine = true ∧ (cellAt g r c).isOpen = false then
        (cellAt g r c).reveal false
      else cellAt g r c := by
  unfold revealAllMines
  rw [(revealAllMines_loop (allPositions rows cols) h).2]
  by_cases hin : r < rows ∧ c < cols
  · simp [hin, mem_allPositions]
  · have : ¬ (r < rows ∧ c < cols ∧ (cellAt g r c).isMine = true ∧
        (cellAt g r c).isOpen = false) := fun h' => hin ⟨h'.1, h'.2.1⟩
    simp [hin, this]

/-- The grid of a lost game: the clicked mine revealed as exploded, then all mines revealed. -/
theorem cellAt_lost {rows cols : Nat} {g : Grid} (h : GridOK rows cols g) (r c : Nat)
    (hr : r < rows) (hc : c < cols) (r' c' : Nat) :
    cellAt (revealAllMines rows cols (revealMine g r c true)) r' c' =
      { cellAt g r' c' with
        elMine := (cellAt g r' c').elMine || decide ((r', c') = (r, c)) ||
          (decide (r' < rows ∧ c' < cols) && (cellAt g r' c').isMine && !(cellAt g r' c').isOpen)
        elExploded := (cellAt g r' c').elExploded || decide ((r', c') = (r, c)) } := by
  unfold revealMine
  rw [cellAt_revealAllMines (h.modifyCell _ _ _), cellAt_modifyCell_ok h]
  by_cases hp : r' = r ∧ c' = c
  · obtain ⟨rfl, rfl⟩ := hp
    simp only [hr, hc, and_self, if_true]
    generalize cellAt g r' c' = x
    obtain ⟨m, o, f, a, em, ee⟩ := x
    cases m <;> cases o <;> simp [Cell.reveal]
  · have hne : ¬ ((r', c') = (r, c)) := by simpa using hp
    have hne2 : ¬ (r' = r ∧ c' = c ∧ r < rows ∧ c < cols) := fun h' => hp ⟨h'.1, h'.2.1⟩
    simp only [hne2, if_false, hne, decide_False, Bool.or_false]
    generalize cellAt g r' c' = x
    obtain ⟨m, o, f, a, em, ee⟩ := x
    by_cases h1 : r' < rows <;> by_cases h2 : c' < cols <;> cases m <;> cases o <;>
      simp [Cell.reveal, h1, h2]

/-! ## Invariant of a session -/

theorem countCells_congr (rows cols : Nat) {g g' : Grid} (q : Cell → Bool)
    (h : ∀ r c, q (cellAt g' r c) = q (cellAt g r c)) :
    countCells rows cols g' q = countCells rows cols g q := by
  unfold countCells
  simp only [h]

theorem cellAt_setFlag {rows cols : Nat} {g : Grid} (h : GridOK rows cols g) (r c : Nat)
    (b : Bool) (r' c' : Nat) :
    (cellAt (modifyCell g r c fun x => x.setFlag b) r' c').isMine = (cellAt g r' c').isMine ∧
    (cellAt (modifyCell g r c fun x => x.setFlag b) r' c').isOpen = (cellAt g r' c').isOpen ∧
    (cellAt (modifyCell g r c fun x => x.setFlag b) r' c').adjacent = (cellAt g r' c').adjacent ∧
    (cellAt (modifyCell g r c fun x => x.setFlag b) r' c').elMine = (cellAt g r' c').elMine ∧
    (cellAt (modifyCell g r c fun x => x.setFlag b) r' c').elExploded =
      (cellAt g r' c').elExploded := by
  rw [cellAt_modifyCell_ok h]
  split_ifs with h1
  · obtain ⟨rfl, rfl, -, -⟩ := h1
    simp [Cell.setFlag]
  · simp

theorem inv_restart (rows cols : Nat) (mines : Int) :
    Inv rows cols mines (restart rows cols mines) :=
  { rows_eq := rfl, cols_eq := rfl, mines_eq := rfl, total_eq := rfl
    ok := gridOK_createEmptyGrid rows cols
    opened_eq := by
      have : countCells rows cols (createEmptyGrid rows cols) Cell.isOpen = 0 := by
        unfold countCells
        rw [List.countP_eq_zero]
        intro p _
        simp [cellAt_createEmptyGrid, emptyCell]
      simp [restart, this]
    no_open_mine := fun r c _ => by simp [restart, cellAt_createEmptyGrid, emptyCell]
    fresh := fun _ => ⟨fun r c => by simp [restart, cellAt_createEmptyGrid, emptyCell], rfl⟩
    flags := Or.inr ⟨rfl, fun r c => by simp [restart, cellAt_createEmptyGrid, emptyCell]⟩
    win := fun hm ht => by
      simp only [restart] at ht
      omega
    not_exploded := fun _ r c => by simp [restart, cellAt_createEmptyGrid, emptyCell]
    mine_count := fun h => by simp [restart] at h }

theorem inv_toggle {rows cols : Nat} {mines : Int} {s : Game} (h : Inv rows cols mines s)
    (r c : Nat) : Inv rows cols mines (onToggleFlag s r c) := by
  unfold onToggleFlag
  split_ifs with h1 h2 h3
  · exact h
  · have hs := cellAt_setFlag h.ok r c false
    exact
      { rows_eq := h.rows_eq, cols_eq := h.cols_eq, mines_eq := h.mines_eq
        total_eq := h.total_eq, ok := h.ok.modifyCell _ _ _
        opened_eq := by
          rw [show countCells rows cols (modifyCell s.grid r c fun x => x.setFlag false)
            Cell.isOpen = countCells rows cols s.grid Cell.isOpen from
            countCells_congr rows cols Cell.isOpen fun r' c' => (hs r' c').2.1]
          exact h.opened_eq
        no_open_mine := fun r' c' hm => by
          rw [(hs r' c').2.1]
          exact h.no_open_mine r' c' ((hs r' c').1 ▸ hm)
        fresh := fun hf => ⟨fun r' c' => by
          rw [(hs r' c').1, (hs r' c').2.1]
          exact (h.fresh hf).1 r' c', (h.fresh hf).2⟩
        flags := by
          rcases h.flags with hfl | hfl
          · exact Or.inl (by show 0 ≤ s.flagsLeft + 1; omega)
          · rw [hfl.2 r c] at h2
            exact absurd h2 (by simp)
        win := h.win
        not_exploded := fun hg r' c' => by
          rw [(hs r' c').2.2.2.2]
          exact h.not_exploded hg r' c'
        mine_count := fun hf h0 h9 => by
          rw [show countCells rows cols (modifyCell s.grid r c fun x => x.setFlag false)
            Cell.isMine = countCells rows cols s.grid Cell.isMine from
            countCells_congr rows cols Cell.isMine fun r' c' => (hs r' c').1]
          exact h.mine_count hf h0 h9 }
  · exact h
  · have hs := cellAt_setFlag h.ok r c true
    exact
      { rows_eq := h.rows_eq, cols_eq := h.cols_eq, mines_eq := h.mines_eq
        total_eq := h.total_eq, ok := h.ok.modifyCell _ _ _
        opened_eq := by
          rw [show countCells rows cols (modifyCell s.grid r c fun x => x.setFlag true)
            Cell.isOpen = countCells rows cols s.grid Cell.isOpen from
            countCells_congr rows cols Cell.isOpen fun r' c' => (hs r' c').2.1]
          exact h.opened_eq
        no_open_mine := fun r' c' hm => by
          rw [(hs r' c').2.1]
          exact h.no_open_mine r' c' ((hs r' c').1 ▸ hm)
        fresh := fun hf => ⟨fun r' c' => by
          rw [(hs r' c').1, (hs r' c').2.1]
          exact (h.fresh hf).1 r' c', (h.fresh hf).2⟩
        flags := Or.inl (by show 0 ≤ s.flagsLeft - 1; omega)
        win := h.win
        not_exploded := fun hg r' c' => by
          rw [(hs r' c').2.2.2.2]
          exact h.not_exploded hg r' c'
        mine_count := fun hf h0 h9 => by
          rw [show countCells rows cols (modifyCell s.grid r c fun x => x.setFlag true)
            Cell.isMine = countCells rows cols s.grid Cell.isMine from
            countCells_congr rows cols Cell.isMine fun r' c' => (hs r' c').1]
          exact h.mine_count hf h0 h9 }

theorem length_positions_ge (rows cols r c : Nat) :
    rows * cols ≤ (positions rows cols r c).length + 9 := by
  have hsplit := List.length_eq_countP_add_countP
    (fun p => (forbidden rows cols r c).contains p) (allPositions rows cols)
  rw [length_allPositions] at hsplit
  have h1 : (allPositions rows cols).countP (fun p => (forbidden rows cols r c).contains p) ≤ 9 := by
    rw [List.countP_eq_length_filter]
    have hsub : (allPositions rows cols).filter (fun p => (forbidden rows cols r c).contains p) ⊆
        forbidden rows cols r c := by
      intro p hp
      rw [List.mem_filter] at hp
      exact List.elem_iff.mp hp.2
    have := (List.subperm_of_subset ((nodup_allPositions rows cols).filter _) hsub).length_le
    have h8 := length_forEachNeighbor_le rows cols r c
    have hlen : (forbidden rows cols r c).length = (forEachNeighbor rows cols r c).length + 1 :=
      rfl
    omega
  have h2 : (allPositions rows cols).countP
      (fun p => decide ¬ ((forbidden rows cols r c).contains p) = true) =
      (positions rows cols r c).length := by
    rw [List.countP_eq_length_filter]
    unfold positions
    congr 2
    funext p
    simp
  omega

theorem countCells_disjoint (rows cols : Nat) (g : Grid) (q1 q2 : Cell → Bool)
    (h : ∀ r c, q1 (cellAt g r c) = true → q2 (cellAt g r c) = false) :
    countCells rows cols g q1 + countCells rows cols g q2 ≤ rows * cols := by
  unfold countCells
  rw [← length_allPositions rows cols]
  generalize allPositions rows cols = l
  induction l with
  | nil => simp
  | cons p l ih =>
    simp only [List.countP_cons, List.length_cons]
    have := h p.1 p.2
    cases hq1 : q1 (cellAt g p.1 p.2) <;> cases hq2 : q2 (cellAt g p.1 p.2)
    · simp only [Bool.false_eq_true, if_false]
      omega
    · simp only [Bool.false_eq_true, if_false, if_true]
      omega
    · simp only [Bool.false_eq_true, if_false, if_true]
      omega
    · rw [this hq1] at hq2
      exact absurd hq2 (by simp)

/-- Mine placement on the first click keeps the invariant. -/
theorem inv_place {rows cols : Nat} {mines : Int} {s : Game} (h : Inv rows cols mines s)
    (hf : s.firstClickDone = false) (r c : Nat) (rnd : Nat → Nat) :
    Inv rows cols mines (placeMinesAvoiding { s with firstClickDone := true } r c rnd) := by
  have hfresh := h.fresh hf
  have hok : GridOK s.rows s.cols s.grid := by rw [h.rows_eq, h.cols_eq]; exact h.ok
  have hfr := frame_placeMinesGrid hok s.mines r c rnd
  have hmine := isMine_placeMinesGrid hok s.mines r c rnd
  have hcnt := mineCount_placeMinesGrid hok (fun r c => (hfresh.1 r c).1) s.mines r c rnd
  have hlen := length_minedCells s.rows s.cols s.mines r c rnd
  have hpos := length_positions_ge s.rows s.cols r c
  simp only [h.rows_eq, h.cols_eq, h.mines_eq] at hfr hmine hcnt hlen hpos
  exact
    { rows_eq := h.rows_eq, cols_eq := h.cols_eq, mines_eq := h.mines_eq
      total_eq := h.total_eq
      ok := by
        simp only [placeMinesAvoiding, h.rows_eq, h.cols_eq, h.mines_eq]
        exact gridOK_placeMinesGrid h.ok _ _ _ _
      opened_eq := by
        simp only [placeMinesAvoiding, h.rows_eq, h.cols_eq, h.mines_eq]
        rw [countCells_congr rows cols Cell.isOpen fun r' c' => (hfr r' c').1]
        exact h.opened_eq
      no_open_mine := fun r' c' _ => by
        simp only [placeMinesAvoiding, h.rows_eq, h.cols_eq, h.mines_eq]
        rw [(hfr r' c').1]
        exact (hfresh.1 r' c').2
      fresh := fun hf' => by simp [placeMinesAvoiding] at hf'
      flags := by
        simp only [placeMinesAvoiding, h.rows_eq, h.cols_eq, h.mines_eq]
        rcases h.flags with hfl | hfl
        · exact Or.inl hfl
        · exact Or.inr ⟨hfl.1, fun r' c' => by rw [(hfr r' c').2.1]; exact hfl.2 r' c'⟩
      win := h.win
      not_exploded := fun hg r' c' => by
        simp only [placeMinesAvoiding, h.rows_eq, h.cols_eq, h.mines_eq]
        rw [(hfr r' c').2.2.2]
        exact h.not_exploded hg r' c'
      mine_count := fun _ h0 h9 => by
        simp only [placeMinesAvoiding, h.rows_eq, h.cols_eq, h.mines_eq]
        rw [hcnt, hlen h0]
        omega }

/-- The state `onOpen` returns after a click on a mine. -/
theorem lost_eq (s : Game) (r c : Nat) :
    endGame { s with grid := revealMine s.grid r c true } false =
      { s with
        grid := revealAllMines s.rows s.cols (revealMine s.grid r c true)
        gameOver := true
        banner := some false } := by
  simp [endGame]

/-- The state `checkWin` returns on a win. -/
theorem won_eq (s : Game) : endGame s true = { s with gameOver := true, banner := some true } := by
  simp [endGame]

/-- Opening a mine keeps the invariant. -/
theorem inv_lost {rows cols : Nat} {mines : Int} {s : Game} (h : Inv rows cols mines s)
    (hfc : s.firstClickDone = true) (hgo : s.gameOver = false) {r c : Nat} (hr : r < rows)
    (hc : c < cols) :
    Inv rows cols mines (endGame { s with grid := revealMine s.grid r c true } false) := by
  rw [lost_eq]
  have hok : GridOK s.rows s.cols s.grid := by rw [h.rows_eq, h.cols_eq]; exact h.ok
  have hcell := cellAt_lost hok r c (by rw [h.rows_eq]; exact hr) (by rw [h.cols_eq]; exact hc)
  have hO : ∀ r' c', (cellAt (revealAllMines s.rows s.cols (revealMine s.grid r c true))
      r' c').isOpen = (cellAt s.grid r' c').isOpen := fun r' c' => by rw [hcell]
  have hM : ∀ r' c', (cellAt (revealAllMines s.rows s.cols (revealMine s.grid r c true))
      r' c').isMine = (cellAt s.grid r' c').isMine := fun r' c' => by rw [hcell]
  have hF : ∀ r' c', (cellAt (revealAllMines s.rows s.cols (revealMine s.grid r c true))
      r' c').isFlag = (cellAt s.grid r' c').isFlag := fun r' c' => by rw [hcell]
  exact
    { rows_eq := h.rows_eq, cols_eq := h.cols_eq, mines_eq := h.mines_eq
      total_eq := h.total_eq
      ok := by
        have := gridOK_revealAllMines (hok.modifyCell r c fun x => x.reveal true)
        rw [h.rows_eq, h.cols_eq] at this ⊢
        exact this
      opened_eq := by
        show s.openedSafeCells = _
        dsimp only
        rw [countCells_congr rows cols Cell.isOpen hO]
        exact h.opened_eq
      no_open_mine := fun r' c' hm => by
        dsimp only at hm ⊢
        rw [hM] at hm
        rw [hO]
        exact h.no_open_mine r' c' hm
      fresh := fun hf' => by
        dsimp only at hf'
        rw [hfc] at hf'
        exact absurd hf' (by simp)
      flags := by
        rcases h.flags with hfl | hfl
        · exact Or.inl hfl
        · exact Or.inr ⟨hfl.1, fun r' c' => by dsimp only; rw [hF]; exact hfl.2 r' c'⟩
      win := fun hm ht => by
        have := (h.win hm ht).1
        rw [hgo] at this
        exact absurd this (by simp)
      not_exploded := fun hg => by simp at hg
      mine_count := fun _ h0 h9 => by
        dsimp only
        rw [countCells_congr rows cols Cell.isMine hM]
        exact h.mine_count hfc h0 h9 }

theorem floodOpen_fields (s : Game) (r c : Nat) :
    (floodOpen s r c).rows = s.rows ∧ (floodOpen s r c).cols = s.cols ∧
    (floodOpen s r c).mines = s.mines ∧ (floodOpen s r c).gameOver = s.gameOver ∧
    (floodOpen s r c).firstClickDone = s.firstClickDone ∧
    (floodOpen s r c).flagsLeft = s.flagsLeft ∧
    (floodOpen s r c).totalSafeCells = s.totalSafeCells ∧
    (floodOpen s r c).banner = s.banner :=
  floodLoop_fields (floodFuel s) s [(r, c)]

theorem floodOpen_count {s : Game} (ok : GridOK s.rows s.cols s.grid) {r c : Nat}
    (hr : r < s.rows) (hc : c < s.cols) :
    (floodOpen s r c).openedSafeCells -
        (countCells s.rows s.cols (floodOpen s r c).grid Cell.isOpen : Int) =
      s.openedSafeCells - (countCells s.rows s.cols s.grid Cell.isOpen : Int) :=
  floodLoop_count (floodFuel s) (floodInv_init ok hr hc)

/-- A cell opened by `floodOpen` from a safe start is neither a mine nor flagged. -/
theorem floodOpen_opened {s : Game} (ok : GridOK s.rows s.cols s.grid) {r c : Nat}
    (hr : r < s.rows) (hc : c < s.cols) (hsafe : (cellAt s.grid r c).isMine = false)
    (r' c' : Nat) (hopen : (cellAt (floodOpen s r c).grid r' c').isOpen = true) :
    (cellAt s.grid r' c').isOpen = true ∨
      ((cellAt s.grid r' c').isMine = false ∧ (cellAt s.grid r' c').isFlag = false) :=
  floodLoop_opened (floodFuel s) (floodInv_init ok hr hc)
    (fun p hp => by
      rw [List.mem_singleton] at hp
      subst hp
      exact hsafe) r' c' hopen

/-- The flood followed by the win check keeps the invariant. -/
theorem inv_flood {rows cols : Nat} {mines : Int} {s : Game} (h : Inv rows cols mines s)
    (hfc : s.firstClickDone = true) (hgo : s.gameOver = false) {r c : Nat} (hr : r < rows)
    (hc : c < cols) (hsafe : (cellAt s.grid r c).isMine = false) :
    Inv rows cols mines (checkWin (floodOpen s r c)) := by
  have hok : GridOK s.rows s.cols s.grid := by rw [h.rows_eq, h.cols_eq]; exact h.ok
  have hr' : r < s.rows := by rw [h.rows_eq]; exact hr
  have hc' : c < s.cols := by rw [h.cols_eq]; exact hc
  have inv := floodOpen_inv hok hr' hc'
  have hcount := floodOpen_count hok hr' hc'
  have hopened := floodOpen_opened hok hr' hc' hsafe
  rw [h.rows_eq, h.cols_eq] at inv hcount
  obtain ⟨f1, f2, f3, f4, f5, f6, f7, f8⟩ := floodOpen_fields s r c
  have hopen_eq : (floodOpen s r c).openedSafeCells =
      (countCells rows cols (floodOpen s r c).grid Cell.isOpen : Int) := by
    have := h.opened_eq
    omega
  have hnom : ∀ r' c', (cellAt (floodOpen s r c).grid r' c').isMine = true →
      (cellAt (floodOpen s r c).grid r' c').isOpen = false := by
    intro r' c' hm
    rw [inv.mine_eq] at hm
    by_contra ho
    rcases hopened r' c' (by simpa using ho) with h1 | h1
    · rw [h.no_open_mine r' c' hm] at h1
      exact absurd h1 (by simp)
    · rw [hm] at h1
      exact absurd h1.1 (by simp)
  have hflags : 0 ≤ (floodOpen s r c).flagsLeft ∨ ((floodOpen s r c).flagsLeft = mines ∧
      ∀ r' c', (cellAt (floodOpen s r c).grid r' c').isFlag = false) := by
    rw [f6]
    rcases h.flags with hfl | hfl
    · exact Or.inl hfl
    · exact Or.inr ⟨hfl.1, fun r' c' => by rw [inv.flag_eq]; exact hfl.2 r' c'⟩
  have hmc : 0 ≤ mines → mines ≤ (rows : Int) * (cols : Int) - 9 →
      (countCells rows cols (floodOpen s r c).grid Cell.isMine : Int) = mines := by
    intro h0 h9
    rw [countCells_congr rows cols Cell.isMine inv.mine_eq]
    exact h.mine_count hfc h0 h9
  unfold checkWin
  split_ifs with hwin
  · rw [won_eq]
    exact
      { rows_eq := f1.trans h.rows_eq, cols_eq := f2.trans h.cols_eq
        mines_eq := f3.trans h.mines_eq, total_eq := f7.trans h.total_eq
        ok := inv.ok
        opened_eq := hopen_eq
        no_open_mine := hnom
        fresh := fun hf' => by
          dsimp only at hf'
          rw [f5, hfc] at hf'
          exact absurd hf' (by simp)
        flags := hflags
        win := fun _ _ => ⟨rfl, rfl⟩
        not_exploded := fun hg => by simp at hg
        mine_count := fun _ => hmc }
  · exact
      { rows_eq := f1.trans h.rows_eq, cols_eq := f2.trans h.cols_eq
        mines_eq := f3.trans h.mines_eq, total_eq := f7.trans h.total_eq
        ok := inv.ok
        opened_eq := hopen_eq
        no_open_mine := hnom
        fresh := fun hf' => by
          rw [f5, hfc] at hf'
          exact absurd hf' (by simp)
        flags := hflags
        win := fun _ ht => absurd ht (by simpa using hwin)
        not_exploded := fun _ r' c' => by
          rw [inv.elExploded_eq]
          exact h.not_exploded hgo r' c'
        mine_count := fun _ => hmc }

/-- The paths of `onOpen`. -/
theorem onOpen_eq (s : Game) (r c : Nat) (rnd : Nat → Nat) :
    onOpen s r c rnd =
      if (s.gameOver || (cellAt s.grid r c).isOpen || (cellAt s.grid r c).isFlag) = true then s
      else if s.firstClickDone = false then
        (if (cellAt (placeMinesAvoiding { s with firstClickDone := true } r c rnd).grid r c).isMine
            = true then
          endGame { placeMinesAvoiding { s with firstClickDone := true } r c rnd with
            grid := revealMine (placeMinesAvoiding { s with firstClickDone := true } r c rnd).grid
              r c true } false
        else checkWin (floodOpen (placeMinesAvoiding { s with firstClickDone := true } r c rnd) r c))
      else
        (if (cellAt s.grid r c).isMine = true then
          endGame { s with grid := revealMine s.grid r c true } false
        else checkWin (floodOpen s r c)) := by
  unfold onOpen
  by_cases hg : (s.gameOver || (cellAt s.grid r c).isOpen || (cellAt s.grid r c).isFlag) = true
  · rw [if_pos hg, if_pos hg]
  · rw [if_neg hg, if_neg hg]
    cases hf : s.firstClickDone
    · simp
    · simp [hf]

theorem inv_open {rows cols : Nat} {mines : Int} {s : Game} (h : Inv rows cols mines s)
    {r c : Nat} (hr : r < rows) (hc : c < cols) (rnd : Nat → Nat) :
    Inv rows cols mines (onOpen s r c rnd) := by
  rw [onOpen_eq]
  split_ifs with hguard hf hm hm
  · exact h
  · simp only [Bool.or_eq_true, not_or, Bool.not_eq_true] at hguard
    exact inv_lost (inv_place h hf r c rnd) rfl hguard.1.1 hr hc
  · simp only [Bool.or_eq_true, not_or, Bool.not_eq_true] at hguard
    exact inv_flood (inv_place h hf r c rnd) rfl hguard.1.1 hr hc (by simpa using hm)
  · simp only [Bool.or_eq_true, not_or, Bool.not_eq_true] at hguard
    exact inv_lost h (by simpa using hf) hguard.1.1 hr hc
  · simp only [Bool.or_eq_true, not_or, Bool.not_eq_true] at hguard
    exact inv_flood h (by simpa using hf) hguard.1.1 hr hc (by simpa using hm)

theorem reachable_inv {rows cols : Nat} {mines : Int} {s : Game}
    (h : Reachable rows cols mines s) : Inv rows cols mines s := by
  induction h with
  | init => exact inv_restart rows cols mines
  | opened r c rnd _ hr hc ih => exact inv_open ih hr hc rnd
  | flagged r c _ _ _ ih => exact inv_toggle ih r c

/-! ## Grid extensionality -/

theorem cellAt_eq_getElem {g : Grid} {r c : Nat} (hr : r < g.length) (hc : c < g[r].length) :
    cellAt g r c = g[r][c] := by
  unfold cellAt
  rw [List.getElem?_eq_getElem hr]
  simp [List.getElem?_eq_getElem hc]

theorem grid_ext {rows cols : Nat} {g g' : Grid} (h : GridOK rows cols g)
    (h' : GridOK rows cols g') (hcell : ∀ r c, r < rows → c < cols → cellAt g r c = cellAt g' r c) :
    g = g' := by
  apply List.ext_getElem (h.1.trans h'.1.symm)
  intro r hr hr'
  have hl : g[r].length = cols := h.2 _ (List.getElem_mem hr)
  have hl' : g'[r].length = cols := h'.2 _ (List.getElem_mem hr')
  apply List.ext_getElem (hl.trans hl'.symm)
  intro c hc hc'
  have := hcell r c (h.1 ▸ hr) (hl ▸ hc)
  rwa [cellAt_eq_getElem hr hc, cellAt_eq_getElem hr' hc'] at this

/-- Writing back what a cell already holds changes nothing. -/
theorem modifyCell_modifyCell_self {rows cols : Nat} {g : Grid} (h : GridOK rows cols g)
    (r c : Nat) (f f' : Cell → Cell) (hff : f' (f (cellAt g r c)) = cellAt g r c) :
    modifyCell (modifyCell g r c f) r c f' = g := by
  apply grid_ext ((h.modifyCell r c f).modifyCell r c f') h
  intro r' c' hr' hc'
  simp only [cellAt_modifyCell_ok (h.modifyCell r c f), cellAt_modifyCell_ok h]
  by_cases hp : r' = r ∧ c' = c
  · obtain ⟨rfl, rfl⟩ := hp
    simp [hr', hc', hff]
  · have hne2 : ¬ (r' = r ∧ c' = c ∧ r < rows ∧ c < cols) := fun h' => hp ⟨h'.1, h'.2.1⟩
    simp [hne2]

/-! ## Claims about the state machine -/

/-- C7. Terminal phases are absorbing: in every state with `gameOver = true`, `onOpen` and
`onToggleFlag` on any cell return the state unchanged, and so does every sequence of such
actions; only `restart` leaves the terminal phase. -/
theorem terminal_absorbing (s : Game) (hover : s.gameOver = true) :
    (∀ r c rnd, onOpen s r c rnd = s) ∧ (∀ r c, onToggleFlag s r c = s) ∧
      ∀ acts, run s acts = s := by
  have h1 : ∀ r c rnd, onOpen s r c rnd = s := fun r c rnd => by simp [onOpen, hover]
  have h2 : ∀ r c, onToggleFlag s r c = s := fun r c => by simp [onToggleFlag, hover]
  refine ⟨h1, h2, fun acts => ?_⟩
  induction acts with
  | nil => rfl
  | cons a acts ih =>
    cases a with
    | click r c rnd => simpa [run, step, h1] using ih
    | toggle r c => simpa [run, step, h2] using ih

set_option maxRecDepth 100000 in
theorem terminal_absorbing_witness :
    (onOpen (restart 1 1 0) 0 0 (fun _ => 0)).gameOver = true ∧
    ((∀ r c rnd, onOpen (onOpen (restart 1 1 0) 0 0 (fun _ => 0)) r c rnd =
        onOpen (restart 1 1 0) 0 0 (fun _ => 0)) ∧
      (∀ r c, onToggleFlag (onOpen (restart 1 1 0) 0 0 (fun _ => 0)) r c =
        onOpen (restart 1 1 0) 0 0 (fun _ => 0)) ∧
      ∀ acts, run (onOpen (restart 1 1 0) 0 0 (fun _ => 0)) acts =
        onOpen (restart 1 1 0) 0 0 (fun _ => 0)) :=
  ⟨by decide, terminal_absorbing (onOpen (restart 1 1 0) 0 0 (fun _ => 0)) (by decide)⟩

/-- C9. Flag cap: in every state reachable from `restart` with `mines ≥ 0` by any sequence of
`onOpen` and `onToggleFlag` actions, `flagsLeft ≥ 0`. -/
theorem flag_cap (rows cols : Nat) (mines : Int) (hm : 0 ≤ mines) (s : Game)
    (h : Reachable rows cols mines s) : 0 ≤ s.flagsLeft := by
  rcases (reachable_inv h).flags with h1 | h1
  · exact h1
  · rw [h1.1]
    exact hm

theorem flag_cap_witness :
    (0 : Int) ≤ 1 ∧ Reachable 2 2 1 (onToggleFlag (restart 2 2 1) 0 0) ∧
      0 ≤ (onToggleFlag (restart 2 2 1) 0 0).flagsLeft :=
  ⟨by decide, Reachable.flagged 0 0 Reachable.init (by decide) (by decide),
    flag_cap 2 2 1 (by decide) _ (Reachable.flagged 0 0 Reachable.init (by decide) (by decide))⟩

theorem Cell.setFlag_setFlag (x : Cell) (b b' : Bool) (h : x.isFlag = b) :
    (x.setFlag b').setFlag b = x := by
  obtain ⟨m, o, f, a, em, ee⟩ := x
  simp only [Cell.setFlag, Cell.mk.injEq, true_and, and_true]
  exact h.symm

theorem onToggleFlag_noop {s : Game} {r c : Nat}
    (h : (s.gameOver || (cellAt s.grid r c).isOpen) = true ∨
      ((cellAt s.grid r c).isFlag = false ∧ s.flagsLeft ≤ 0)) : onToggleFlag s r c = s := by
  unfold onToggleFlag
  rcases h with h | h
  · rw [if_pos h]
  · split_ifs with h1 h2
    · rfl
    · rw [h.1] at h2
      exact absurd h2 (by simp)
    · rfl
    · exact absurd h.2 (by assumption)

theorem onToggleFlag_unflag {s : Game} {r c : Nat}
    (hg : (s.gameOver || (cellAt s.grid r c).isOpen) = false)
    (hf : (cellAt s.grid r c).isFlag = true) :
    onToggleFlag s r c =
      { s with
        grid := modifyCell s.grid r c fun x => x.setFlag false
        flagsLeft := s.flagsLeft + 1 } := by
  unfold onToggleFlag
  rw [if_neg (by rw [hg]; simp), if_pos hf]

theorem onToggleFlag_flag {s : Game} {r c : Nat}
    (hg : (s.gameOver || (cellAt s.grid r c).isOpen) = false)
    (hf : (cellAt s.grid r c).isFlag = false) (hpos : 0 < s.flagsLeft) :
    onToggleFlag s r c =
      { s with
        grid := modifyCell s.grid r c fun x => x.setFlag true
        flagsLeft := s.flagsLeft - 1 } := by
  unfold onToggleFlag
  rw [if_neg (by rw [hg]; simp), if_neg (by rw [hf]; simp), if_neg (by omega)]

/-- Two flag toggles in a row on a cell of the board restore the state. -/
theorem toggle_toggle {rows cols : Nat} {mines : Int} {s : Game}
    (h : Reachable rows cols mines s) {r c : Nat} (hr : r < rows) (hc : c < cols) :
    onToggleFlag (onToggleFlag s r c) r c = s := by
  have inv := reachable_inv h
  have hcell : ∀ b, cellAt (modifyCell s.grid r c fun x => x.setFlag b) r c =
      (cellAt s.grid r c).setFlag b := fun b => by
    rw [cellAt_modifyCell_ok inv.ok, if_pos ⟨rfl, rfl, hr, hc⟩]
  by_cases hg : (s.gameOver || (cellAt s.grid r c).isOpen) = true
  · rw [onToggleFlag_noop (Or.inl hg), onToggleFlag_noop (Or.inl hg)]
  · simp only [Bool.not_eq_true] at hg
    by_cases hf : (cellAt s.grid r c).isFlag = true
    · -- unflag, then flag again
      have hpos : 0 ≤ s.flagsLeft := by
        rcases inv.flags with h1 | h1
        · exact h1
        · rw [h1.2 r c] at hf
          exact absurd hf (by simp)
      rw [onToggleFlag_unflag hg hf, onToggleFlag_flag]
      · dsimp only
        rw [modifyCell_modifyCell_self inv.ok r c _ _ (Cell.setFlag_setFlag _ _ _ hf)]
        have : s.flagsLeft + 1 - 1 = s.flagsLeft := by omega
        rw [this]
      · dsimp only
        rw [hcell]
        exact hg
      · dsimp only
        rw [hcell]
        rfl
      · dsimp only
        omega
    · simp only [Bool.not_eq_true] at hf
      by_cases hz : s.flagsLeft ≤ 0
      · rw [onToggleFlag_noop (Or.inr ⟨hf, hz⟩), onToggleFlag_noop (Or.inr ⟨hf, hz⟩)]
      · rw [onToggleFlag_flag hg hf (by omega), onToggleFlag_unflag]
        · dsimp only
          rw [modifyCell_modifyCell_self inv.ok r c _ _ (Cell.setFlag_setFlag _ _ _ hf)]
          have : s.flagsLeft - 1 + 1 = s.flagsLeft := by omega
          rw [this]
        · dsimp only
          rw [hcell]
          exact hg
        · dsimp only
          rw [hcell]
          rfl

/-- C10. Double toggle is the identity: for every reachable state `s`, every cell `(r, c)` of
the board and every `n`, applying `onToggleFlag(r, c)` `2n` times in a row gives back `s`
itself: the same `isFlag` on every cell, the same `flagsLeft`, and every other field
unchanged. -/
theorem double_toggle (rows cols : Nat) (mines : Int) (s : Game)
    (h : Reachable rows cols mines s) (r c : Nat) (hr : r < rows) (hc : c < cols) (n : Nat) :
    (fun t => onToggleFlag t r c)^[2 * n] s = s := by
  induction n with
  | zero => rfl
  | succ n ih =>
    rw [show 2 * (n + 1) = 2 + 2 * n by ring, Function.iterate_add_apply, ih]
    exact toggle_toggle h hr hc

theorem double_toggle_witness :
    Reachable 2 2 1 (restart 2 2 1) ∧ 0 < 2 ∧ 1 < 2 ∧
      (fun t => onToggleFlag t 0 1)^[2 * 3] (restart 2 2 1) = restart 2 2 1 :=
  ⟨Reachable.init, by decide, by decide,
    double_toggle 2 2 1 (restart 2 2 1) Reachable.init 0 1 (by decide) (by decide) 3⟩

/-- C5. Win condition: in every reachable state of a session with `mines < rows * cols` (which
every valid configuration satisfies), whenever `openedSafeCells` has reached `totalSafeCells`
the session is in the terminal Won phase: `gameOver` is true and the banner is the one of
`endGame(true)`. -/
theorem win_condition (rows cols : Nat) (mines : Int) (hm : mines < (rows : Int) * (cols : Int))
    (s : Game) (h : Reachable rows cols mines s)
    (hreached : s.totalSafeCells ≤ s.openedSafeCells) :
    s.gameOver = true ∧ s.banner = some true :=
  (reachable_inv h).win hm hreached

set_option maxRecDepth 100000 in
theorem win_condition_witness :
    (2 : Int) < ((3 : Nat) : Int) * ((3 : Nat) : Int) ∧
    Reachable 3 3 2 (onOpen (restart 3 3 2) 1 1 (fun _ => 0)) ∧
    (onOpen (restart 3 3 2) 1 1 (fun _ => 0)).totalSafeCells ≤
      (onOpen (restart 3 3 2) 1 1 (fun _ => 0)).openedSafeCells ∧
    (onOpen (restart 3 3 2) 1 1 (fun _ => 0)).gameOver = true ∧
      (onOpen (restart 3 3 2) 1 1 (fun _ => 0)).banner = some true :=
  ⟨by decide, Reachable.opened 1 1 _ Reachable.init (by decide) (by decide), by decide,
    win_condition 3 3 2 (by decide) _
      (Reachable.opened 1 1 _ Reachable.init (by decide) (by decide)) (by decide)⟩

/-! ## Claims about opening cells -/

/-- The handler `onOpen` is its guard, then its first-click block, then the mine check and the
flood. -/
theorem onOpen_blocks (s : Game) (r c : Nat) (rnd : Nat → Nat) :
    onOpen s r c rnd =
      if (s.gameOver || (cellAt s.grid r c).isOpen || (cellAt s.grid r c).isFlag) = true then s
      else openCell (firstClick s r c rnd) r c :=
  rfl

theorem checkWin_grid (s : Game) : (checkWin s).grid = s.grid := by
  unfold checkWin
  split_ifs
  · rw [won_eq]
  · rfl

theorem inv_firstClick {rows cols : Nat} {mines : Int} {s : Game} (h : Inv rows cols mines s)
    (r c : Nat) (rnd : Nat → Nat) :
    Inv rows cols mines (firstClick s r c rnd) ∧ (firstClick s r c rnd).firstClickDone = true ∧
      (firstClick s r c rnd).gameOver = s.gameOver := by
  unfold firstClick
  cases hf : s.firstClickDone
  · simp only [Bool.not_false, if_true]
    exact ⟨inv_place h hf r c rnd, rfl, rfl⟩
  · simp only [Bool.not_true, Bool.false_eq_true, if_false]
    refine ⟨h, ?_, ?_⟩ <;> simp [hf]

theorem isMine_openCell {rows cols : Nat} {mines : Int} {s : Game} (h : Inv rows cols mines s)
    {r c : Nat} (hr : r < rows) (hc : c < cols) (r' c' : Nat) :
    (cellAt (openCell s r c).grid r' c').isMine = (cellAt s.grid r' c').isMine := by
  have hok : GridOK s.rows s.cols s.grid := by rw [h.rows_eq, h.cols_eq]; exact h.ok
  have hr' : r < s.rows := by rw [h.rows_eq]; exact hr
  have hc' : c < s.cols := by rw [h.cols_eq]; exact hc
  unfold openCell
  split_ifs with hm
  · rw [lost_eq]
    dsimp only
    rw [cellAt_lost hok r c hr' hc']
  · rw [checkWin_grid]
    exact (floodOpen_inv hok hr' hc').mine_eq r' c'

/-- C1. First-click safety: for every `rows`, `cols`, `mines` and every outcome of the
shuffle, when `onOpen` on the cell `(r0, c0)` is the first open action of a session, after the
call neither `grid[r0][c0]` nor any 8-neighbour of `(r0, c0)` is a mine. (This holds whether
or not the mines fit among the candidates, and whether or not the cell is flagged.) -/
theorem first_click_safe (rows cols : Nat) (mines : Int) (s : Game)
    (h : Reachable rows cols mines s) (hfirst : s.firstClickDone = false) (r0 c0 : Nat)
    (hr : r0 < rows) (hc : c0 < cols) (rnd : Nat → Nat) :
    (cellAt (onOpen s r0 c0 rnd).grid r0 c0).isMine = false ∧
      ∀ r c, isNeighbour (r, c) (r0, c0) = true →
        (cellAt (onOpen s r0 c0 rnd).grid r c).isMine = false := by
  have inv := reachable_inv h
  have hno := (inv.fresh hfirst).1
  have hsafe : ∀ r c, ((r, c) = (r0, c0) ∨ isNeighbour (r, c) (r0, c0) = true) →
      (cellAt (onOpen s r0 c0 rnd).grid r c).isMine = false := by
    intro r c hrc
    rw [onOpen_blocks]
    split_ifs
    · exact (hno r c).1
    · rw [isMine_openCell (inv_firstClick inv r0 c0 rnd).1 hr hc]
      simp only [firstClick, hfirst, Bool.not_false, if_true, placeMinesAvoiding, inv.rows_eq,
        inv.cols_eq, inv.mines_eq]
      rw [isMine_placeMinesGrid inv.ok, (hno r c).1, Bool.false_or, decide_eq_false_iff_not]
      intro hmem
      have hcand := mem_minedCells hmem
      rw [positions_eq_candidates, candidates, List.mem_filter] at hcand
      have := hcand.2
      simp only [Bool.not_eq_true', Bool.or_eq_false_iff, decide_eq_false_iff_not] at this
      rcases hrc with e | e
      · exact this.1 e
      · rw [this.2] at e
        exact absurd e (by simp)
  exact ⟨hsafe r0 c0 (Or.inl rfl), fun r c hn => hsafe r c (Or.inr hn)⟩

set_option maxRecDepth 100000 in
theorem first_click_safe_witness :
    Reachable 4 4 5 (onToggleFlag (restart 4 4 5) 0 0) ∧
    (onToggleFlag (restart 4 4 5) 0 0).firstClickDone = false ∧ 1 < 4 ∧ 2 < 4 ∧
    ((cellAt (onOpen (onToggleFlag (restart 4 4 5) 0 0) 1 2 (fun _ => 0)).grid 1 2).isMine = false ∧
      ∀ r c, isNeighbour (r, c) (1, 2) = true →
        (cellAt (onOpen (onToggleFlag (restart 4 4 5) 0 0) 1 2 (fun _ => 0)).grid r c).isMine =
          false) :=
  ⟨Reachable.flagged 0 0 Reachable.init (by decide) (by decide), by decide, by decide, by decide,
    first_click_safe 4 4 5 _ (Reachable.flagged 0 0 Reachable.init (by decide) (by decide))
      (by decide) 1 2 (by decide) (by decide) (fun _ => 0)⟩

theorem firstClick_done {s : Game} (h : s.firstClickDone = true) (r c : Nat) (rnd : Nat → Nat) :
    firstClick s r c rnd = s := by
  simp [firstClick, h]

/-- C6. Loss reveals all mines: for every in-progress state of a session, when `onOpen` is
applied to a closed, unflagged mine cell `(r, c)`, afterwards the game is over and lost, every
cell with `isMine = true` carries the mark `mine` of a revealed mine, and exactly one cell
carries the mark `exploded`, namely `(r, c)`. -/
theorem loss_reveals_all (rows cols : Nat) (mines : Int) (s : Game)
    (h : Reachable rows cols mines s) (hgo : s.gameOver = false) (r c : Nat) (hr : r < rows)
    (hc : c < cols) (hclosed : (cellAt s.grid r c).isOpen = false)
    (hflag : (cellAt s.grid r c).isFlag = false) (hmine : (cellAt s.grid r c).isMine = true)
    (rnd : Nat → Nat) :
    (onOpen s r c rnd).gameOver = true ∧ (onOpen s r c rnd).banner = some false ∧
    (∀ r' c', (cellAt (onOpen s r c rnd).grid r' c').isMine = true →
      (cellAt (onOpen s r c rnd).grid r' c').elMine = true) ∧
    (∀ r' c', (cellAt (onOpen s r c rnd).grid r' c').elExploded = true ↔ (r', c') = (r, c)) := by
  have inv := reachable_inv h
  have hfc : s.firstClickDone = true := by
    cases hf : s.firstClickDone
    · rw [((inv.fresh hf).1 r c).1] at hmine
      exact absurd hmine (by simp)
    · rfl
  have hok : GridOK s.rows s.cols s.grid := by rw [inv.rows_eq, inv.cols_eq]; exact inv.ok
  have hcell := cellAt_lost hok r c (by rw [inv.rows_eq]; exact hr) (by rw [inv.cols_eq]; exact hc)
  have heq : onOpen s r c rnd =
      { s with
        grid := revealAllMines s.rows s.cols (revealMine s.grid r c true)
        gameOver := true
        banner := some false } := by
    rw [onOpen_blocks, if_neg (by simp [hgo, hclosed, hflag]), firstClick_done hfc, openCell,
      if_pos hmine, lost_eq]
  rw [heq]
  refine ⟨rfl, rfl, fun r' c' hm => ?_, fun r' c' => ?_⟩
  · dsimp only at hm ⊢
    rw [hcell] at hm ⊢
    dsimp only at hm ⊢
    have hin : r' < s.rows ∧ c' < s.cols := by
      by_contra hout
      rw [cellAt_outside hok r' c' hout] at hm
      exact absurd hm (by simp [emptyCell])
    rw [hm, inv.no_open_mine r' c' hm]
    simp [hin]
  · dsimp only
    rw [hcell]
    dsimp only
    rw [inv.not_exploded hgo r' c']
    simp

set_option maxRecDepth 100000 in
theorem loss_reveals_all_witness :
    Reachable 1 6 1 (onOpen (restart 1 6 1) 0 0 (fun _ => 0)) ∧
    (onOpen (restart 1 6 1) 0 0 (fun _ => 0)).gameOver = false ∧ 0 < 1 ∧ 3 < 6 ∧
    (cellAt (onOpen (restart 1 6 1) 0 0 (fun _ => 0)).grid 0 3).isOpen = false ∧
    (cellAt (onOpen (restart 1 6 1) 0 0 (fun _ => 0)).grid 0 3).isFlag = false ∧
    (cellAt (onOpen (restart 1 6 1) 0 0 (fun _ => 0)).grid 0 3).isMine = true ∧
    ((onOpen (onOpen (restart 1 6 1) 0 0 (fun _ => 0)) 0 3 (fun _ => 0)).gameOver = true ∧
      (onOpen (onOpen (restart 1 6 1) 0 0 (fun _ => 0)) 0 3 (fun _ => 0)).banner = some false ∧
      (∀ r' c',
        (cellAt (onOpen (onOpen (restart 1 6 1) 0 0 (fun _ => 0)) 0 3 (fun _ => 0)).grid
          r' c').isMine = true →
        (cellAt (onOpen (onOpen (restart 1 6 1) 0 0 (fun _ => 0)) 0 3 (fun _ => 0)).grid
          r' c').elMine = true) ∧
      (∀ r' c',
        (cellAt (onOpen (onOpen (restart 1 6 1) 0 0 (fun _ => 0)) 0 3 (fun _ => 0)).grid
          r' c').elExploded = true ↔ (r', c') = (0, 3))) :=
  ⟨Reachable.opened 0 0 _ Reachable.init (by decide) (by decide), by decide, by decide,
    by decide, by decide, by decide, by decide,
    loss_reveals_all 1 6 1 _ (Reachable.opened 0 0 _ Reachable.init (by decide) (by decide))
      (by decide) 0 3 (by decide) (by decide) (by decide) (by decide) (by decide) (fun _ => 0)⟩

set_option maxRecDepth 100000 in
/-- C8, as stated, fails: on a 3 x 3 board with 5 mines (a valid configuration) a first click
on the centre leaves no candidate cell, no mine is placed, the flood opens all 9 cells and
`openedSafeCells = 9` exceeds `totalSafeCells = 4`. -/
theorem opened_bound_counterexample :
    1 ≤ 3 ∧ (0 : Int) ≤ 5 ∧ (5 : Int) < ((3 : Nat) : Int) * ((3 : Nat) : Int) ∧
    Reachable 3 3 5 (onOpen (restart 3 3 5) 1 1 (fun _ => 0)) ∧
    (onOpen (restart 3 3 5) 1 1 (fun _ => 0)).openedSafeCells = 9 ∧
    (onOpen (restart 3 3 5) 1 1 (fun _ => 0)).totalSafeCells = 4 ∧
    ¬ ((onOpen (restart 3 3 5) 1 1 (fun _ => 0)).openedSafeCells ≤
      (onOpen (restart 3 3 5) 1 1 (fun _ => 0)).totalSafeCells) :=
  ⟨by decide, by decide, by decide,
    Reachable.opened 1 1 _ Reachable.init (by decide) (by decide), by decide, by decide,
    by decide⟩

/-- C8, amended. Opened-count bound: in every reachable state of a session whose
configuration leaves room for the safe zone, `0 ≤ mines ≤ rows * cols - 9`,
`openedSafeCells ≤ totalSafeCells = rows * cols - mines`. -/
theorem opened_bound (rows cols : Nat) (mines : Int) (h0 : 0 ≤ mines)
    (h9 : mines ≤ (rows : Int) * (cols : Int) - 9) (s : Game)
    (h : Reachable rows cols mines s) :
    s.openedSafeCells ≤ s.totalSafeCells ∧
      s.totalSafeCells = (rows : Int) * (cols : Int) - mines := by
  have inv := reachable_inv h
  refine ⟨?_, inv.total_eq⟩
  rw [inv.total_eq, inv.opened_eq]
  cases hf : s.firstClickDone
  · have : countCells rows cols s.grid Cell.isOpen = 0 := by
      unfold countCells
      rw [List.countP_eq_zero]
      intro p _
      simp [((inv.fresh hf).1 p.1 p.2).2]
    rw [this]
    push_cast
    omega
  · have hm := inv.mine_count hf h0 h9
    have hd := countCells_disjoint rows cols s.grid Cell.isMine Cell.isOpen inv.no_open_mine
    have : ((countCells rows cols s.grid Cell.isMine : Nat) : Int) +
        (countCells rows cols s.grid Cell.isOpen : Nat) ≤ (rows : Int) * (cols : Int) := by
      exact_mod_cast hd
    omega

set_option maxRecDepth 100000 in
theorem opened_bound_witness :
    (0 : Int) ≤ 5 ∧ (5 : Int) ≤ ((4 : Nat) : Int) * ((4 : Nat) : Int) - 9 ∧
    Reachable 4 4 5 (onOpen (restart 4 4 5) 0 0 (fun _ => 0)) ∧
    ((onOpen (restart 4 4 5) 0 0 (fun _ => 0)).openedSafeCells ≤
        (onOpen (restart 4 4 5) 0 0 (fun _ => 0)).totalSafeCells ∧
      (onOpen (restart 4 4 5) 0 0 (fun _ => 0)).totalSafeCells =
        ((4 : Nat) : Int) * ((4 : Nat) : Int) - 5) :=
  ⟨by decide, by decide, Reachable.opened 0 0 _ Reachable.init (by decide) (by decide),
    opened_bound 4 4 5 (by decide) (by decide) _
      (Reachable.opened 0 0 _ Reachable.init (by decide) (by decide))⟩

theorem reachable_floodState : Reachable 1 12 3 floodState :=
  Reachable.flagged 0 9 (Reachable.flagged 0 7 (Reachable.opened 0 8 _
    (Reachable.flagged 0 9 (Reachable.flagged 0 7 (Reachable.flagged 0 5 Reachable.init
      (by decide) (by decide)) (by decide) (by decide)) (by decide) (by decide))
    (by decide) (by decide)) (by decide) (by decide)) (by decide) (by decide)

set_option maxRecDepth 100000 in
/-- C2, as stated, fails: in the in-progress state `floodState` columns 3 to 11 are the
zero-count region, column 8 is open, column 5 is flagged; a click on the closed, unflagged,
zero-count cell of column 7 opens columns 7 and 6 only. Column 9, a closed unflagged
zero-count cell of the region, stays closed (it is joined to column 7 only through the open
column 8), and so does the flagged column 5. -/
theorem flood_region_counterexample :
    Reachable 1 12 3 floodState ∧ floodState.gameOver = false ∧
    floodState.firstClickDone = true ∧
    (cellAt floodState.grid 0 7).isOpen = false ∧ (cellAt floodState.grid 0 7).isFlag = false ∧
    (cellAt floodState.grid 0 7).isMine = false ∧ (cellAt floodState.grid 0 7).adjacent = 0 ∧
    ZeroRegion 1 12 floodState.grid (0, 7) (0, 9) ∧
    (cellAt floodState.grid 0 9).isFlag = false ∧
    (cellAt (onOpen floodState 0 7 (fun i => i)).grid 0 9).isOpen = false ∧
    ZeroRegion 1 12 floodState.grid (0, 7) (0, 5) ∧
    (cellAt (onOpen floodState 0 7 (fun i => i)).grid 0 5).isOpen = false := by
  refine ⟨reachable_floodState, by decide, by decide, by decide, by decide, by decide, by decide,
    ?_, by decide, by decide, ?_, by decide⟩
  · exact ZeroRegion.step (y := (0, 8)) (x := (0, 9))
      (ZeroRegion.step (y := (0, 7)) (x := (0, 8)) ZeroRegion.start (by decide) (by decide)
        (by decide) (by decide) (by decide))
      (by decide) (by decide) (by decide) (by decide) (by decide)
  · exact ZeroRegion.step (y := (0, 6)) (x := (0, 5))
      (ZeroRegion.step (y := (0, 7)) (x := (0, 6)) ZeroRegion.start (by decide) (by decide)
        (by decide) (by decide) (by decide))
      (by decide) (by decide) (by decide) (by decide) (by decide)

/-- C2, amended. Flood completeness: for every in-progress state of a session (mines placed,
game not over) and every closed, unflagged, non-mine cell `(r, c)`, after `onOpen(r, c)` the
cell is open and so is every cell of `FloodReach`: every cell joined to `(r, c)` by a chain of
8-adjacent cells that were closed, unflagged and not mines before the call, all of them but
the last with adjacent count 0. -/
theorem flood_complete (rows cols : Nat) (mines : Int) (s : Game)
    (h : Reachable rows cols mines s) (hgo : s.gameOver = false)
    (hfc : s.firstClickDone = true) (r c : Nat) (hr : r < rows) (hc : c < cols)
    (hclosed : (cellAt s.grid r c).isOpen = false) (hflag : (cellAt s.grid r c).isFlag = false)
    (hmine : (cellAt s.grid r c).isMine = false) (rnd : Nat → Nat) (x : Nat × Nat)
    (hx : FloodReach rows cols s.grid (r, c) x) :
    (cellAt (onOpen s r c rnd).grid x.1 x.2).isOpen = true := by
  have inv := reachable_inv h
  have hok : GridOK s.rows s.cols s.grid := by rw [inv.rows_eq, inv.cols_eq]; exact inv.ok
  rw [onOpen_blocks, if_neg (by simp [hgo, hclosed, hflag]), firstClick_done hfc, openCell,
    if_neg (by simp [hmine]), checkWin_grid]
  refine floodOpen_complete hok (by rw [inv.rows_eq]; exact hr) (by rw [inv.cols_eq]; exact hc)
    hclosed hflag ?_
  rw [inv.rows_eq, inv.cols_eq]
  exact hx

set_option maxRecDepth 100000 in
theorem flood_complete_witness :
    Reachable 1 12 3 floodState ∧ floodState.gameOver = false ∧
    floodState.firstClickDone = true ∧ 0 < 1 ∧ 7 < 12 ∧
    (cellAt floodState.grid 0 7).isOpen = false ∧ (cellAt floodState.grid 0 7).isFlag = false ∧
    (cellAt floodState.grid 0 7).isMine = false ∧
    FloodReach 1 12 floodState.grid (0, 7) (0, 6) ∧
    (cellAt (onOpen floodState 0 7 (fun i => i)).grid 0 6).isOpen = true :=
  ⟨reachable_floodState, by decide, by decide, by decide, by decide, by decide, by decide,
    by decide,
    FloodReach.step (y := (0, 7)) (x := (0, 6)) FloodReach.start (by decide) (by decide)
      (by decide) (by decide) (by decide) (by decide) (by decide),
    flood_complete 1 12 3 floodState reachable_floodState (by decide) (by decide) 0 7
      (by decide) (by decide) (by decide) (by decide) (by decide) (fun i => i) (0, 6)
      (FloodReach.step (y := (0, 7)) (x := (0, 6)) FloodReach.start (by decide) (by decide)
        (by decide) (by decide) (by decide) (by decide) (by decide))⟩

/-! ## What the handlers leave alone -/

theorem checkWin_cases (s : Game) :
    (s.totalSafeCells ≤ s.openedSafeCells ∧
        checkWin s = { s with gameOver := true, banner := some true }) ∨
      (¬ s.totalSafeCells ≤ s.openedSafeCells ∧ checkWin s = s) := by
  unfold checkWin
  split_ifs with h
  · exact Or.inl ⟨h, won_eq s⟩
  · exact Or.inr ⟨h, rfl⟩

/-- The first-click block changes `firstClickDone`, `isMine` and `adjacent` only. -/
theorem firstClick_frame {rows cols : Nat} {mines : Int} {s : Game} (h : Inv rows cols mines s)
    (r c : Nat) (rnd : Nat → Nat) :
    (firstClick s r c rnd).flagsLeft = s.flagsLeft ∧
    (firstClick s r c rnd).openedSafeCells = s.openedSafeCells ∧
    (firstClick s r c rnd).totalSafeCells = s.totalSafeCells ∧
    (firstClick s r c rnd).banner = s.banner ∧
    ∀ r' c', (cellAt (firstClick s r c rnd).grid r' c').isOpen = (cellAt s.grid r' c').isOpen ∧
      (cellAt (firstClick s r c rnd).grid r' c').isFlag = (cellAt s.grid r' c').isFlag ∧
      (cellAt (firstClick s r c rnd).grid r' c').elMine = (cellAt s.grid r' c').elMine ∧
      (cellAt (firstClick s r c rnd).grid r' c').elExploded = (cellAt s.grid r' c').elExploded := by
  have hok : GridOK s.rows s.cols s.grid := by rw [h.rows_eq, h.cols_eq]; exact h.ok
  unfold firstClick
  by_cases hf : (!s.firstClickDone) = true
  · rw [if_pos hf]
    exact ⟨rfl, rfl, rfl, rfl, fun r' c' => frame_placeMinesGrid hok s.mines r c rnd r' c'⟩
  · rw [if_neg hf]
    exact ⟨rfl, rfl, rfl, rfl, fun r' c' => ⟨rfl, rfl, rfl, rfl⟩⟩

/-- The mine check and the flood change neither the flags nor the mines nor the counts. -/
theorem openCell_frame {rows cols : Nat} {mines : Int} {s : Game} (h : Inv rows cols mines s)
    {r c : Nat} (hr : r < rows) (hc : c < cols) :
    (openCell s r c).flagsLeft = s.flagsLeft ∧
    (openCell s r c).firstClickDone = s.firstClickDone ∧
    ∀ r' c', (cellAt (openCell s r c).grid r' c').isFlag = (cellAt s.grid r' c').isFlag ∧
      (cellAt (openCell s r c).grid r' c').isMine = (cellAt s.grid r' c').isMine ∧
      (cellAt (openCell s r c).grid r' c').adjacent = (cellAt s.grid r' c').adjacent := by
  have hok : GridOK s.rows s.cols s.grid := by rw [h.rows_eq, h.cols_eq]; exact h.ok
  have hr' : r < s.rows := by rw [h.rows_eq]; exact hr
  have hc' : c < s.cols := by rw [h.cols_eq]; exact hc
  unfold openCell
  split_ifs with hm
  · rw [lost_eq]
    refine ⟨rfl, rfl, fun r' c' => ?_⟩
    dsimp only
    rw [cellAt_lost hok r c hr' hc']
    exact ⟨rfl, rfl, rfl⟩
  · have inv := floodOpen_inv hok hr' hc'
    obtain ⟨f1, f2, f3, f4, f5, f6, f7, f8⟩ := floodOpen_fields s r c
    rcases checkWin_cases (floodOpen s r c) with ⟨_, e⟩ | ⟨_, e⟩ <;> rw [e]
    · exact ⟨f6, f5, fun r' c' => ⟨inv.flag_eq r' c', inv.mine_eq r' c', inv.adj_eq r' c'⟩⟩
    · exact ⟨f6, f5, fun r' c' => ⟨inv.flag_eq r' c', inv.mine_eq r' c', inv.adj_eq r' c'⟩⟩

/-- The banner of a win is only set together with `gameOver`, once the count is reached. -/
theorem openCell_won {s : Game} (hb : s.banner ≠ some true) (r c : Nat)
    (hwon : (openCell s r c).banner = some true) :
    (openCell s r c).gameOver = true ∧
      (openCell s r c).totalSafeCells ≤ (openCell s r c).openedSafeCells ∧
      (openCell s r c).firstClickDone = s.firstClickDone := by
  unfold openCell at hwon ⊢
  split_ifs at hwon ⊢ with hm
  · rw [lost_eq] at hwon
    simp at hwon
  · obtain ⟨f1, f2, f3, f4, f5, f6, f7, f8⟩ := floodOpen_fields s r c
    rcases checkWin_cases (floodOpen s r c) with ⟨hw, e⟩ | ⟨_, e⟩ <;> rw [e] at hwon ⊢
    · exact ⟨rfl, hw, f5⟩
    · rw [f8] at hwon
      exact absurd hwon hb

/-- What `onOpen` leaves alone: the flag budget and the flags. -/
theorem onOpen_flags {rows cols : Nat} {mines : Int} {s : Game} (h : Inv rows cols mines s)
    {r c : Nat} (hr : r < rows) (hc : c < cols) (rnd : Nat → Nat) :
    (onOpen s r c rnd).flagsLeft = s.flagsLeft ∧
      ∀ r' c', (cellAt (onOpen s r c rnd).grid r' c').isFlag = (cellAt s.grid r' c').isFlag := by
  rw [onOpen_blocks]
  split_ifs with hg
  · exact ⟨rfl, fun _ _ => rfl⟩
  · have ht := inv_firstClick h r c rnd
    have hf := firstClick_frame h r c rnd
    have ho := openCell_frame ht.1 hr hc
    exact ⟨ho.1.trans hf.1, fun r' c' => ((ho.2.2 r' c').1).trans (hf.2.2.2.2 r' c').2.1⟩

theorem inv2_restart (rows cols : Nat) (mines : Int) :
    Inv2 rows cols mines (restart rows cols mines) :=
  { flag_sum := by
      have : countCells rows cols (createEmptyGrid rows cols) Cell.isFlag = 0 := by
        unfold countCells
        rw [List.countP_eq_zero]
        intro p _
        simp [cellAt_createEmptyGrid, emptyCell]
      simp [restart, this]
    won := fun hb => by simp [restart] at hb }

theorem inv2_toggle {rows cols : Nat} {mines : Int} {s : Game} (h : Inv rows cols mines s)
    (h2 : Inv2 rows cols mines s) {r c : Nat} (hr : r < rows) (hc : c < cols) :
    Inv2 rows cols mines (onToggleFlag s r c) := by
  by_cases hg : (s.gameOver || (cellAt s.grid r c).isOpen) = true
  · rw [onToggleFlag_noop (Or.inl hg)]
    exact h2
  · simp only [Bool.not_eq_true] at hg
    by_cases hf : (cellAt s.grid r c).isFlag = true
    · rw [onToggleFlag_unflag hg hf]
      have hcnt := countCells_modifyCell h.ok hr hc (fun x => x.setFlag false) Cell.isFlag
      have e1 : ((cellAt s.grid r c).setFlag false).isFlag = false := rfl

      rw [hf, e1] at hcnt
      simp only [if_true, Bool.false_eq_true, if_false] at hcnt
      have := h2.flag_sum
      exact
        { flag_sum := by
            dsimp only
            omega
          won := h2.won }
    · simp only [Bool.not_eq_true] at hf
      by_cases hz : s.flagsLeft ≤ 0
      · rw [onToggleFlag_noop (Or.inr ⟨hf, hz⟩)]
        exact h2
      · rw [onToggleFlag_flag hg hf (by omega)]
        have hcnt := countCells_modifyCell h.ok hr hc (fun x => x.setFlag true) Cell.isFlag
        have e1 : ((cellAt s.grid r c).setFlag true).isFlag = true := rfl

        rw [hf, e1] at hcnt
        simp only [if_true, Bool.false_eq_true, if_false] at hcnt
        have := h2.flag_sum
        exact
          { flag_sum := by
              dsimp only
              omega
            won := h2.won }

theorem inv2_open {rows cols : Nat} {mines : Int} {s : Game} (h : Inv rows cols mines s)
    (h2 : Inv2 rows cols mines s) {r c : Nat} (hr : r < rows) (hc : c < cols)
    (rnd : Nat → Nat) : Inv2 rows cols mines (onOpen s r c rnd) := by
  have hfl := onOpen_flags h hr hc rnd
  refine
    { flag_sum := by
        rw [hfl.1, countCells_congr rows cols Cell.isFlag hfl.2]
        exact h2.flag_sum
      won := ?_ }
  rw [onOpen_blocks]
  split_ifs with hg
  · exact h2.won
  · intro hwon
    have hgo : s.gameOver = false := by
      simp only [Bool.or_eq_true, not_or, Bool.not_eq_true] at hg
      exact hg.1.1
    have ht := inv_firstClick h r c rnd
    have hf := firstClick_frame h r c rnd
    have hb : (firstClick s r c rnd).banner ≠ some true := by
      rw [hf.2.2.2.1]
      intro hb
      have := (h2.won hb).1
      rw [hgo] at this
      exact absurd this (by simp)
    have := openCell_won hb r c hwon
    exact ⟨this.1, this.2.1, this.2.2.trans ht.2.1⟩

theorem reachable_inv2 {rows cols : Nat} {mines : Int} {s : Game}
    (h : Reachable rows cols mines s) : Inv2 rows cols mines s := by
  induction h with
  | init => exact inv2_restart rows cols mines
  | opened r c rnd hs hr hc ih => exact inv2_open (reachable_inv hs) ih hr hc rnd
  | flagged r c hs hr hc ih => exact inv2_toggle (reachable_inv hs) ih hr hc

/-! ## Claims about stale actions, configuration and the life of the mines -/

/-- C11. Stale actions are no-ops: `onOpen` on a cell that is already open or is flagged,
`onToggleFlag` on a cell that is already open, and `onToggleFlag` on an unflagged cell while
`flagsLeft ≤ 0`, each return the state unchanged; in particular `onOpen` on a flagged cell
before the first open places no mines and does not set `firstClickDone`. -/
theorem stale_actions_noop (s : Game) (r c : Nat) (rnd : Nat → Nat) :
    (((cellAt s.grid r c).isOpen = true ∨ (cellAt s.grid r c).isFlag = true) →
      onOpen s r c rnd = s) ∧
    ((cellAt s.grid r c).isOpen = true → onToggleFlag s r c = s) ∧
    ((cellAt s.grid r c).isFlag = false → s.flagsLeft ≤ 0 → onToggleFlag s r c = s) ∧
    ((cellAt s.grid r c).isFlag = true → s.firstClickDone = false →
      (onOpen s r c rnd).firstClickDone = false ∧ (onOpen s r c rnd).grid = s.grid) := by
  have h1 : ((cellAt s.grid r c).isOpen = true ∨ (cellAt s.grid r c).isFlag = true) →
      onOpen s r c rnd = s := by
    intro h
    rw [onOpen_blocks, if_pos]
    rcases h with h | h <;> simp [h]
  refine ⟨h1, fun h => onToggleFlag_noop (Or.inl (by simp [h])),
    fun hf hz => onToggleFlag_noop (Or.inr ⟨hf, hz⟩), fun hf hfirst => ?_⟩
  rw [h1 (Or.inr hf)]
  exact ⟨hfirst, rfl⟩

set_option maxRecDepth 100000 in
theorem stale_actions_noop_witness :
    ((cellAt (onOpen (onToggleFlag (restart 1 6 1) 0 5) 0 0 (fun _ => 0)).grid 0 0).isOpen = true ∧
      onOpen (onOpen (onToggleFlag (restart 1 6 1) 0 5) 0 0 (fun _ => 0)) 0 0 (fun _ => 0) =
        onOpen (onToggleFlag (restart 1 6 1) 0 5) 0 0 (fun _ => 0)) ∧
    ((cellAt (onOpen (onToggleFlag (restart 1 6 1) 0 5) 0 0 (fun _ => 0)).grid 0 0).isOpen = true ∧
      onToggleFlag (onOpen (onToggleFlag (restart 1 6 1) 0 5) 0 0 (fun _ => 0)) 0 0 =
        onOpen (onToggleFlag (restart 1 6 1) 0 5) 0 0 (fun _ => 0)) ∧
    ((cellAt (onOpen (onToggleFlag (restart 1 6 1) 0 5) 0 0 (fun _ => 0)).grid 0 4).isFlag = false ∧
      (onOpen (onToggleFlag (restart 1 6 1) 0 5) 0 0 (fun _ => 0)).flagsLeft ≤ 0 ∧
      onToggleFlag (onOpen (onToggleFlag (restart 1 6 1) 0 5) 0 0 (fun _ => 0)) 0 4 =
        onOpen (onToggleFlag (restart 1 6 1) 0 5) 0 0 (fun _ => 0)) ∧
    ((cellAt (onToggleFlag (restart 1 6 1) 0 5).grid 0 5).isFlag = true ∧
      (onToggleFlag (restart 1 6 1) 0 5).firstClickDone = false ∧
      (onOpen (onToggleFlag (restart 1 6 1) 0 5) 0 5 (fun _ => 0)).firstClickDone = false ∧
      (onOpen (onToggleFlag (restart 1 6 1) 0 5) 0 5 (fun _ => 0)).grid =
        (onToggleFlag (restart 1 6 1) 0 5).grid) :=
  ⟨⟨by decide, (stale_actions_noop _ 0 0 (fun _ => 0)).1 (Or.inl (by decide))⟩,
    ⟨by decide, (stale_actions_noop _ 0 0 (fun _ => 0)).2.1 (by decide)⟩,
    ⟨by decide, by decide, (stale_actions_noop _ 0 4 (fun _ => 0)).2.2.1 (by decide) (by decide)⟩,
    ⟨by decide, by decide,
      (stale_actions_noop (onToggleFlag (restart 1 6 1) 0 5) 0 5 (fun _ => 0)).2.2.2 (by decide)
        (by decide)⟩⟩

/-- C12, as stated, fails: `restart` does not validate. With `2 x 2 x 7` in the selector
(`mines ≥ rows * cols`) the call made during an `8 x 8 x 10` session does not leave that
session unchanged: it installs the new session, with `flagsLeft = 7` and
`totalSafeCells = -3`. -/
theorem restart_validation_counterexample :
    ¬ validConfig 2 2 7 ∧
    restartFrom (restart 8 8 10) 2 2 7 ≠ restart 8 8 10 ∧
    (restartFrom (restart 8 8 10) 2 2 7).rows = 2 ∧
    (restartFrom (restart 8 8 10) 2 2 7).flagsLeft = 7 ∧
    (restartFrom (restart 8 8 10) 2 2 7).totalSafeCells = -3 := by
  refine ⟨by decide, ?_, rfl, rfl, by decide⟩
  intro h
  have := congrArg Game.rows h
  exact absurd this (by decide)

/-- C12, amended. `restart` performs no validation and has no failure path. For every
configuration of naturals `rows, cols ≤ 2^26` and an integer `mines` with `|mines| ≤ 2^52` (whole
numbers on which the arithmetic of the script is exact), valid or not, and for every previous
state: the call overwrites every variable, so its result does not depend on the previous state;
the result is the initial state of the session of that configuration, that is, the
configuration is stored, `totalSafeCells = rows * cols - mines` (of absolute value at most
`2^53`), `flagsLeft = mines`, `openedSafeCells = 0`, the game is neither over nor started, the
banner is hidden and the grid is `rows x cols` fresh cells (no mine, nothing open, nothing
flagged); and play proceeds from it: an open of any cell of the board is carried out as the
first click of the session. -/
theorem restart_total (prev : Game) (rows cols : Nat) (mines : Int)
    (hrows : rows ≤ 2 ^ 26) (hcols : cols ≤ 2 ^ 26)
    (hlo : -(2 ^ 52) ≤ mines) (hhi : mines ≤ 2 ^ 52) :
    (∀ prev', restartFrom prev' rows cols mines = restartFrom prev rows cols mines) ∧
    Reachable rows cols mines (restartFrom prev rows cols mines) ∧
    (restartFrom prev rows cols mines).rows = rows ∧
    (restartFrom prev rows cols mines).cols = cols ∧
    (restartFrom prev rows cols mines).mines = mines ∧
    (restartFrom prev rows cols mines).totalSafeCells = (rows : Int) * (cols : Int) - mines ∧
    -(2 ^ 53) ≤ (restartFrom prev rows cols mines).totalSafeCells ∧
    (restartFrom prev rows cols mines).totalSafeCells ≤ 2 ^ 53 ∧
    (restartFrom prev rows cols mines).flagsLeft = mines ∧
    (restartFrom prev rows cols mines).openedSafeCells = 0 ∧
    (restartFrom prev rows cols mines).gameOver = false ∧
    (restartFrom prev rows cols mines).firstClickDone = false ∧
    (restartFrom prev rows cols mines).banner = none ∧
    GridOK rows cols (restartFrom prev rows cols mines).grid ∧
    (∀ r c, cellAt (restartFrom prev rows cols mines).grid r c = emptyCell) ∧
    ∀ r c rnd, r < rows → c < cols →
      (onOpen (restartFrom prev rows cols mines) r c rnd).firstClickDone = true := by
  have heq : ∀ p, restartFrom p rows cols mines = restart rows cols mines := fun _ => rfl
  have hprod : (rows : Int) * (cols : Int) ≤ 2 ^ 52 := by
    have h := Nat.mul_le_mul hrows hcols
    have h2 : ((rows * cols : Nat) : Int) ≤ ((2 ^ 26 * 2 ^ 26 : Nat) : Int) := Int.ofNat_le.mpr h
    push_cast at h2
    norm_num at h2 ⊢
    exact h2
  have hnn : (0 : Int) ≤ (rows : Int) * (cols : Int) :=
    Int.mul_nonneg (Int.ofNat_nonneg rows) (Int.ofNat_nonneg cols)
  have htot : (restartFrom prev rows cols mines).totalSafeCells =
      (rows : Int) * (cols : Int) - mines := rfl
  refine ⟨fun p => (heq p).trans (heq prev).symm, ?_, rfl, rfl, rfl, htot, ?_, ?_, rfl, rfl, rfl,
    rfl, rfl, gridOK_createEmptyGrid rows cols, fun r c => cellAt_createEmptyGrid rows cols r c,
    fun r c rnd hr hc => ?_⟩
  · rw [heq prev]
    exact Reachable.init
  · rw [htot]
    norm_num at hlo hhi hprod ⊢
    omega
  · rw [htot]
    norm_num at hlo hhi hprod ⊢
    omega
  · rw [heq prev]
    have inv := inv_restart rows cols mines
    have hfr := inv.fresh rfl
    rw [onOpen_blocks, if_neg (by
      simp [hfr.2, (hfr.1 r c).2, cellAt_createEmptyGrid, restart, emptyCell])]
    have ht := inv_firstClick inv r c rnd
    exact (openCell_frame ht.1 hr hc).2.1.trans ht.2.1

set_option maxRecDepth 100000 in
theorem restart_total_witness :
    ((2 : Nat) ≤ 2 ^ 26 ∧ -(2 ^ 52) ≤ (7 : Int) ∧ (7 : Int) ≤ 2 ^ 52 ∧ ¬ validConfig 2 2 7) ∧
    (∀ prev', restartFrom prev' 2 2 7 =
      restartFrom (onOpen (restart 8 8 10) 0 0 (fun i => i)) 2 2 7) ∧
    Reachable 2 2 7 (restartFrom (onOpen (restart 8 8 10) 0 0 (fun i => i)) 2 2 7) ∧
    (restartFrom (onOpen (restart 8 8 10) 0 0 (fun i => i)) 2 2 7).totalSafeCells = -3 ∧
    (restartFrom (onOpen (restart 8 8 10) 0 0 (fun i => i)) 2 2 7).firstClickDone = false ∧
    (onOpen (restartFrom (onOpen (restart 8 8 10) 0 0 (fun i => i)) 2 2 7) 1 1
      (fun i => i)).firstClickDone = true :=
  ⟨⟨by decide, by decide, by decide, by decide⟩,
    (restart_total (onOpen (restart 8 8 10) 0 0 (fun i => i)) 2 2 7
      (by decide) (by decide) (by decide) (by decide)).1,
    (restart_total (onOpen (restart 8 8 10) 0 0 (fun i => i)) 2 2 7
      (by decide) (by decide) (by decide) (by decide)).2.1,
    (restart_total (onOpen (restart 8 8 10) 0 0 (fun i => i)) 2 2 7
      (by decide) (by decide) (by decide) (by decide)).2.2.2.2.2.1,
    (restart_total (onOpen (restart 8 8 10) 0 0 (fun i => i)) 2 2 7
      (by decide) (by decide) (by decide) (by decide)).2.2.2.2.2.2.2.2.2.2.2.1,
    (restart_total (onOpen (restart 8 8 10) 0 0 (fun i => i)) 2 2 7
      (by decide) (by decide) (by decide) (by decide)).2.2.2.2.2.2.2.2.2.2.2.2.2.2.2 1 1
      (fun i => i) (by decide) (by decide)⟩

/-- C13. Mines are populated exactly once per session: in a reachable state before the first
effective open no cell is a mine; the first open of an unflagged cell sets `firstClickDone`;
and once `firstClickDone` is set it stays set and no `onOpen` or `onToggleFlag` on a cell of
the board changes `isMine` or `adjacent` of any cell. -/
theorem mines_placed_once (rows cols : Nat) (mines : Int) (s : Game)
    (h : Reachable rows cols mines s) :
    (s.firstClickDone = false → ∀ r c, (cellAt s.grid r c).isMine = false) ∧
    (s.firstClickDone = false → ∀ r c rnd, r < rows → c < cols →
      (cellAt s.grid r c).isFlag = false → (onOpen s r c rnd).firstClickDone = true) ∧
    (s.firstClickDone = true → ∀ r c rnd, r < rows → c < cols →
      (onOpen s r c rnd).firstClickDone = true ∧ (onToggleFlag s r c).firstClickDone = true ∧
      ∀ r' c',
        (cellAt (onOpen s r c rnd).grid r' c').isMine = (cellAt s.grid r' c').isMine ∧
        (cellAt (onOpen s r c rnd).grid r' c').adjacent = (cellAt s.grid r' c').adjacent ∧
        (cellAt (onToggleFlag s r c).grid r' c').isMine = (cellAt s.grid r' c').isMine ∧
        (cellAt (onToggleFlag s r c).grid r' c').adjacent = (cellAt s.grid r' c').adjacent) := by
  have inv := reachable_inv h
  refine ⟨fun hf r c => ((inv.fresh hf).1 r c).1, fun hf r c rnd hr hc hflag => ?_,
    fun hf r c rnd hr hc => ?_⟩
  · have hfr := inv.fresh hf
    rw [onOpen_blocks, if_neg (by simp [hfr.2, (hfr.1 r c).2, hflag])]
    have ht := inv_firstClick inv r c rnd
    exact (openCell_frame ht.1 hr hc).2.1.trans ht.2.1
  · have hopen : (onOpen s r c rnd).firstClickDone = true ∧
        ∀ r' c', (cellAt (onOpen s r c rnd).grid r' c').isMine = (cellAt s.grid r' c').isMine ∧
          (cellAt (onOpen s r c rnd).grid r' c').adjacent = (cellAt s.grid r' c').adjacent := by
      rw [onOpen_blocks]
      split_ifs with hg
      · exact ⟨hf, fun _ _ => ⟨rfl, rfl⟩⟩
      · rw [firstClick_done hf]
        have ho := openCell_frame inv hr hc
        exact ⟨ho.2.1.trans hf, fun r' c' => (ho.2.2 r' c').2⟩
    have htog : (onToggleFlag s r c).firstClickDone = true ∧
        ∀ r' c', (cellAt (onToggleFlag s r c).grid r' c').isMine = (cellAt s.grid r' c').isMine ∧
          (cellAt (onToggleFlag s r c).grid r' c').adjacent =
            (cellAt s.grid r' c').adjacent := by
      unfold onToggleFlag
      split_ifs
      · exact ⟨hf, fun _ _ => ⟨rfl, rfl⟩⟩
      · exact ⟨hf, fun r' c' =>
          ⟨(cellAt_setFlag inv.ok r c false r' c').1, (cellAt_setFlag inv.ok r c false r' c').2.2.1⟩⟩
      · exact ⟨hf, fun _ _ => ⟨rfl, rfl⟩⟩
      · exact ⟨hf, fun r' c' =>
          ⟨(cellAt_setFlag inv.ok r c true r' c').1, (cellAt_setFlag inv.ok r c true r' c').2.2.1⟩⟩
    exact ⟨hopen.1, htog.1, fun r' c' =>
      ⟨(hopen.2 r' c').1, (hopen.2 r' c').2, (htog.2 r' c').1, (htog.2 r' c').2⟩⟩

set_option maxRecDepth 100000 in
theorem mines_placed_once_witness :
    Reachable 1 6 1 (onOpen (restart 1 6 1) 0 0 (fun _ => 0)) ∧
    (onOpen (restart 1 6 1) 0 0 (fun _ => 0)).firstClickDone = true ∧
    (onOpen (onOpen (restart 1 6 1) 0 0 (fun _ => 0)) 0 4 (fun _ => 0)).firstClickDone = true ∧
    (cellAt (onOpen (onOpen (restart 1 6 1) 0 0 (fun _ => 0)) 0 4 (fun _ => 0)).grid 0 3).isMine =
      (cellAt (onOpen (restart 1 6 1) 0 0 (fun _ => 0)).grid 0 3).isMine :=
  ⟨Reachable.opened 0 0 _ Reachable.init (by decide) (by decide), by decide,
    ((mines_placed_once 1 6 1 _ (Reachable.opened 0 0 _ Reachable.init (by decide) (by decide))).2.2
      (by decide) 0 4 (fun _ => 0) (by decide) (by decide)).1,
    (((mines_placed_once 1 6 1 _
      (Reachable.opened 0 0 _ Reachable.init (by decide) (by decide))).2.2
      (by decide) 0 4 (fun _ => 0) (by decide) (by decide)).2.2 0 3).1⟩

set_option maxRecDepth 100000 in
/-- C14, as stated, fails: after `placeMinesAvoiding(1, 1)` on a fresh 4 x 4 grid with 10
mines, the mine cell `(3, 0)` has the mine `(3, 1)` next to it but its `adjacent` is still the
0 it was created with. -/
theorem adjacent_all_counterexample :
    (cellAt (placeMinesGrid 4 4 10 (createEmptyGrid 4 4) 1 1 (fun _ => 0)) 3 0).isMine = true ∧
    (cellAt (placeMinesGrid 4 4 10 (createEmptyGrid 4 4) 1 1 (fun _ => 0)) 3 0).adjacent = 0 ∧
    mineNeighbours 4 4 (placeMinesGrid 4 4 10 (createEmptyGrid 4 4) 1 1 (fun _ => 0)) 3 0 = 1 ∧
    (cellAt (placeMinesGrid 4 4 10 (createEmptyGrid 4 4) 1 1 (fun _ => 0)) 3 0).adjacent ≠
      mineNeighbours 4 4 (placeMinesGrid 4 4 10 (createEmptyGrid 4 4) 1 1 (fun _ => 0)) 3 0 :=
  ⟨by decide, by decide, by decide, by decide⟩

/-- C14, amended. Adjacency after mine placement on a freshly created grid: for every cell of
the board that is not a mine, `adjacent` is the number of its 8-neighbours that are mines; for
every mine cell `adjacent` is 0, the value it was created with (the counting loop skips
mines). -/
theorem placeMines_adjacent_all (rows cols : Nat) (mines : Int) (firstR firstC : Nat)
    (rnd : Nat → Nat) (r c : Nat) (hr : r < rows) (hc : c < cols) :
    (cellAt (placeMinesGrid rows cols mines (createEmptyGrid rows cols) firstR firstC rnd)
        r c).adjacent =
      if (cellAt (placeMinesGrid rows cols mines (createEmptyGrid rows cols) firstR firstC rnd)
          r c).isMine = true then 0
      else mineNeighbours rows cols
        (placeMinesGrid rows cols mines (createEmptyGrid rows cols) firstR firstC rnd) r c := by
  have hok := gridOK_createEmptyGrid rows cols
  split_ifs with hm
  · have hm' := hm
    rw [placeMinesGrid_eq, cellAt_computeAdjacent (gridOK_setMines _ hok)] at hm ⊢
    by_cases hs : (cellAt (setMines (createEmptyGrid rows cols)
        (minedCells rows cols mines firstR firstC rnd)) r c).isMine = false
    · rw [if_pos ⟨hr, hc, hs⟩] at hm
      simp only [Cell.setAdjacent] at hm
      rw [hs] at hm
      exact absurd hm (by simp)
    · rw [if_neg (fun h' => hs h'.2.2), cellAt_setMines _ hok, cellAt_createEmptyGrid]
      split_ifs <;> rfl
  · rw [adjacent_placeMinesGrid hok mines firstR firstC rnd r c hr hc (by simpa using hm),
      countMineNeighbors_eq]

set_option maxRecDepth 100000 in
theorem placeMines_adjacent_all_witness :
    3 < 4 ∧ 0 < 4 ∧
    (cellAt (placeMinesGrid 4 4 10 (createEmptyGrid 4 4) 1 1 (fun _ => 0)) 3 0).adjacent =
      if (cellAt (placeMinesGrid 4 4 10 (createEmptyGrid 4 4) 1 1 (fun _ => 0)) 3 0).isMine = true
        then 0
      else mineNeighbours 4 4 (placeMinesGrid 4 4 10 (createEmptyGrid 4 4) 1 1 (fun _ => 0)) 3 0 :=
  ⟨by decide, by decide,
    placeMines_adjacent_all 4 4 10 1 1 (fun _ => 0) 3 0 (by decide) (by decide)⟩

/-! ## Claims about opened cells and flags -/

/-- C18. No mine is ever opened: in every reachable state no cell is both a mine and open;
`floodOpen` started from a non-mine cell of the board sets `isOpen` only on cells that are
neither mines nor flagged; and `openedSafeCells` is the number of open cells that are not
mines. -/
theorem no_mine_opened (rows cols : Nat) (mines : Int) (s : Game)
    (h : Reachable rows cols mines s) :
    (∀ r c, ¬ ((cellAt s.grid r c).isMine = true ∧ (cellAt s.grid r c).isOpen = true)) ∧
    (∀ r c, r < rows → c < cols → (cellAt s.grid r c).isMine = false →
      ∀ r' c', (cellAt s.grid r' c').isOpen = false →
        (cellAt (floodOpen s r c).grid r' c').isOpen = true →
        (cellAt s.grid r' c').isMine = false ∧ (cellAt s.grid r' c').isFlag = false) ∧
    s.openedSafeCells = (countCells rows cols s.grid (fun x => x.isOpen && !x.isMine) : Int) := by
  have inv := reachable_inv h
  have hok : GridOK s.rows s.cols s.grid := by rw [inv.rows_eq, inv.cols_eq]; exact inv.ok
  refine ⟨fun r c hboth => ?_, fun r c hr hc hsafe r' c' hclosed hopen => ?_, ?_⟩
  · rw [inv.no_open_mine r c hboth.1] at hboth
    exact absurd hboth.2 (by simp)
  · rcases floodOpen_opened hok (by rw [inv.rows_eq]; exact hr) (by rw [inv.cols_eq]; exact hc)
      hsafe r' c' hopen with h1 | h1
    · rw [hclosed] at h1
      exact absurd h1 (by simp)
    · exact h1
  · rw [inv.opened_eq]
    congr 1
    unfold countCells
    apply List.countP_congr
    intro p _
    cases hm : (cellAt s.grid p.1 p.2).isMine
    · simp [hm]
    · simp [hm, inv.no_open_mine p.1 p.2 hm]

set_option maxRecDepth 100000 in
theorem no_mine_opened_witness :
    Reachable 1 6 1 (onOpen (restart 1 6 1) 0 0 (fun _ => 0)) ∧
    (∀ r c, ¬ ((cellAt (onOpen (restart 1 6 1) 0 0 (fun _ => 0)).grid r c).isMine = true ∧
      (cellAt (onOpen (restart 1 6 1) 0 0 (fun _ => 0)).grid r c).isOpen = true)) ∧
    (onOpen (restart 1 6 1) 0 0 (fun _ => 0)).openedSafeCells = 3 :=
  ⟨Reachable.opened 0 0 _ Reachable.init (by decide) (by decide),
    (no_mine_opened 1 6 1 _ (Reachable.opened 0 0 _ Reachable.init (by decide) (by decide))).1,
    by decide⟩

/-- C19. Flag conservation: in every reachable state `flagsLeft` plus the number of cells with
`isFlag = true` equals `mines`; so for `mines ≥ 0` at most `mines` cells are flagged at once;
and `onOpen` on a cell of the board never changes `flagsLeft`. -/
theorem flag_conservation (rows cols : Nat) (mines : Int) (s : Game)
    (h : Reachable rows cols mines s) :
    s.flagsLeft + (countCells rows cols s.grid Cell.isFlag : Int) = mines ∧
    (0 ≤ mines → (countCells rows cols s.grid Cell.isFlag : Int) ≤ mines) ∧
    ∀ r c rnd, r < rows → c < cols → (onOpen s r c rnd).flagsLeft = s.flagsLeft := by
  have inv := reachable_inv h
  have hsum := (reachable_inv2 h).flag_sum
  refine ⟨hsum, fun h0 => ?_, fun r c rnd hr hc => (onOpen_flags inv hr hc rnd).1⟩
  rcases inv.flags with h1 | h1
  · omega
  · omega

set_option maxRecDepth 100000 in
theorem flag_conservation_witness :
    Reachable 2 2 2 (onToggleFlag (restart 2 2 2) 0 1) ∧
    (onToggleFlag (restart 2 2 2) 0 1).flagsLeft +
        (countCells 2 2 (onToggleFlag (restart 2 2 2) 0 1).grid Cell.isFlag : Int) = 2 ∧
    (countCells 2 2 (onToggleFlag (restart 2 2 2) 0 1).grid Cell.isFlag : Int) = 1 :=
  ⟨Reachable.flagged 0 1 Reachable.init (by decide) (by decide),
    (flag_conservation 2 2 2 _ (Reachable.flagged 0 1 Reachable.init (by decide) (by decide))).1,
    by decide⟩

theorem countP_disjoint_le {α : Type} (q1 q2 : α → Bool) (l : List α)
    (hd : ∀ a ∈ l, q1 a = true → q2 a = false) : l.countP q1 + l.countP q2 ≤ l.length := by
  induction l with
  | nil => simp
  | cons b l ih =>
    have := ih fun a ha => hd a (List.mem_cons_of_mem _ ha)
    have hb := hd b (List.mem_cons_self _ _)
    simp only [List.countP_cons, List.length_cons]
    cases h1 : q1 b <;> cases h2 : q2 b
    · simp only [Bool.false_eq_true, if_false]
      omega
    · simp only [Bool.false_eq_true, if_false, if_true]
      omega
    · simp only [Bool.false_eq_true, if_false, if_true]
      omega
    · rw [hb h1] at h2
      exact absurd h2 (by simp)

theorem countP_cover {α : Type} (q1 q2 : α → Bool) (l : List α)
    (hd : ∀ a ∈ l, q1 a = true → q2 a = false)
    (h : l.length ≤ l.countP q1 + l.countP q2) : ∀ a ∈ l, q1 a = true ∨ q2 a = true := by
  induction l with
  | nil => simp
  | cons b l ih =>
    have hd' : ∀ a ∈ l, q1 a = true → q2 a = false :=
      fun a ha => hd a (List.mem_cons_of_mem _ ha)
    have hle := countP_disjoint_le q1 q2 l hd'
    have hb := hd b (List.mem_cons_self _ _)
    simp only [List.countP_cons, List.length_cons] at h
    intro a ha
    cases h1 : q1 b <;> cases h2 : q2 b
    · simp only [h1, h2, Bool.false_eq_true, if_false] at h
      omega
    · simp only [h1, h2, Bool.false_eq_true, if_false, if_true] at h
      rcases List.mem_cons.mp ha with e | e
      · subst e
        exact Or.inr h2
      · exact ih hd' (by omega) a e
    · simp only [h1, h2, Bool.false_eq_true, if_false, if_true] at h
      rcases List.mem_cons.mp ha with e | e
      · subst e
        exact Or.inl h1
      · exact ih hd' (by omega) a e
    · rw [hb h1] at h2
      exact absurd h2 (by simp)

/-- C20. A win means the board is cleared: for every session with
`0 ≤ mines ≤ rows * cols - 9`, in every reachable state in which the game has ended as won
(the state shows the banner of `endGame(true)`, which is only set together with `gameOver`),
every cell of the board that is not a mine is open and no mine cell is open. -/
theorem win_clears_board (rows cols : Nat) (mines : Int) (h0 : 0 ≤ mines)
    (h9 : mines ≤ (rows : Int) * (cols : Int) - 9) (s : Game)
    (h : Reachable rows cols mines s) (hwon : s.banner = some true) (r c : Nat) (hr : r < rows)
    (hc : c < cols) :
    ((cellAt s.grid r c).isMine = false → (cellAt s.grid r c).isOpen = true) ∧
      ((cellAt s.grid r c).isMine = true → (cellAt s.grid r c).isOpen = false) := by
  have inv := reachable_inv h
  obtain ⟨-, hreach, hfc⟩ := (reachable_inv2 h).won hwon
  refine ⟨fun hm => ?_, inv.no_open_mine r c⟩
  have hmc := inv.mine_count hfc h0 h9
  rw [inv.total_eq, inv.opened_eq] at hreach
  have hlen : (allPositions rows cols).length ≤
      (allPositions rows cols).countP (fun p => (cellAt s.grid p.1 p.2).isOpen) +
      (allPositions rows cols).countP (fun p => (cellAt s.grid p.1 p.2).isMine) := by
    rw [length_allPositions]
    unfold countCells at hmc hreach
    have : ((rows * cols : Nat) : Int) = (rows : Int) * (cols : Int) := by push_cast; rfl
    omega
  rcases countP_cover _ _ _
    (fun p _ ho => by
      cases hm' : (cellAt s.grid p.1 p.2).isMine
      · rfl
      · rw [inv.no_open_mine p.1 p.2 hm'] at ho
        exact absurd ho (by simp))
    hlen (r, c) ((mem_allPositions rows cols (r, c)).mpr ⟨hr, hc⟩) with h1 | h1
  · exact h1
  · dsimp only at h1
    rw [hm] at h1
    exact absurd h1 (by simp)

set_option maxRecDepth 100000 in
theorem win_clears_board_witness :
    (0 : Int) ≤ 1 ∧ (1 : Int) ≤ ((4 : Nat) : Int) * ((4 : Nat) : Int) - 9 ∧
    Reachable 4 4 1 (onOpen (restart 4 4 1) 0 0 (fun _ => 0)) ∧
    (onOpen (restart 4 4 1) 0 0 (fun _ => 0)).banner = some true ∧ 2 < 4 ∧ 3 < 4 ∧
    (((cellAt (onOpen (restart 4 4 1) 0 0 (fun _ => 0)).grid 2 3).isMine = false →
        (cellAt (onOpen (restart 4 4 1) 0 0 (fun _ => 0)).grid 2 3).isOpen = true) ∧
      ((cellAt (onOpen (restart 4 4 1) 0 0 (fun _ => 0)).grid 2 3).isMine = true →
        (cellAt (onOpen (restart 4 4 1) 0 0 (fun _ => 0)).grid 2 3).isOpen = false)) :=
  ⟨by decide, by decide, Reachable.opened 0 0 _ Reachable.init (by decide) (by decide),
    by decide, by decide, by decide,
    win_clears_board 4 4 1 (by decide) (by decide) _
      (Reachable.opened 0 0 _ Reachable.init (by decide) (by decide)) (by decide)
      2 3 (by decide) (by decide)⟩

/-! ## Termination and cost of the flood -/

/-- Whatever the fuel, the loop pops at most once per stack entry and eight times per closed
cell. -/
theorem floodIters_le {rows cols : Nat} {g0 : Grid} {start : Nat × Nat} (fuel : Nat) {s : Game}
    {stack : List (Nat × Nat)} (h : FloodInv rows cols g0 start s stack) :
    floodIters fuel s stack ≤
      stack.length + 8 * countCells rows cols s.grid (fun x => !x.isOpen) := by
  induction fuel generalizing s stack with
  | zero => simp [floodIters]
  | succ fuel ih =>
    cases stack with
    | nil => simp [floodIters]
    | cons p stack =>
      have hp := h.stack_in p (List.mem_cons_self _ _)
      have hcnt := countCells_modifyCell h.ok hp.1 hp.2 Cell.setOpen (fun x => !x.isOpen)
      simp only [List.length_cons]
      simp only [floodIters]
      split_ifs with hskip hadj
      · have := ih (h.skip hskip)
        omega
      · simp only [Bool.or_eq_true, not_or, Bool.not_eq_true] at hskip
        simp only [hskip.1, Cell.setOpen] at hcnt
        simp at hcnt
        have := ih (h.openNumbered hadj)
        dsimp only at this
        omega
      · simp only [Bool.or_eq_true, not_or, Bool.not_eq_true] at hskip
        simp only [hskip.1, Cell.setOpen] at hcnt
        simp at hcnt
        have hlen := length_floodPushes_le s.rows s.cols
          (modifyCell s.grid p.1 p.2 Cell.setOpen) p.1 p.2
        have := ih h.openZero
        simp only [List.length_append, List.length_reverse] at this
        omega

/-- Once the loop has emptied its stack, more fuel changes nothing. -/
theorem floodLoop_fuel_add (fuel k : Nat) (s : Game) (stack : List (Nat × Nat))
    (h : (floodLoop fuel s stack).2 = []) :
    floodLoop (fuel + k) s stack = floodLoop fuel s stack ∧
      floodIters (fuel + k) s stack = floodIters fuel s stack := by
  induction fuel generalizing s stack with
  | zero =>
    simp only [floodLoop] at h
    subst h
    cases k <;> simp [floodLoop, floodIters]
  | succ fuel ih =>
    cases stack with
    | nil => simp [floodLoop, floodIters, Nat.add_right_comm fuel 1 k]
    | cons p stack =>
      rw [Nat.add_right_comm fuel 1 k]
      simp only [floodLoop, floodIters] at h ⊢
      split_ifs at h ⊢ with hskip hadj
      · exact ⟨(ih _ _ h).1, by rw [(ih _ _ h).2]⟩
      · exact ⟨(ih _ _ h).1, by rw [(ih _ _ h).2]⟩
      · exact ⟨(ih _ _ h).1, by rw [(ih _ _ h).2]⟩

set_option maxRecDepth 100000 in
/-- C15, as stated, fails in its bound: on a 2 x 2 board without mines the flood started by
the first click on `(0, 0)` pops 7 stack entries (cells still closed are pushed by each of
their zero-count neighbours), more than `rows * cols = 4`. -/
theorem flood_bound_counterexample :
    GridOK 2 2 (firstClick (restart 2 2 0) 0 0 (fun _ => 0)).grid ∧
    (floodLoop (floodFuel (firstClick (restart 2 2 0) 0 0 (fun _ => 0)))
      (firstClick (restart 2 2 0) 0 0 (fun _ => 0)) [(0, 0)]).2 = [] ∧
    floodIters (floodFuel (firstClick (restart 2 2 0) 0 0 (fun _ => 0)))
      (firstClick (restart 2 2 0) 0 0 (fun _ => 0)) [(0, 0)] = 7 ∧
    ¬ floodIters (floodFuel (firstClick (restart 2 2 0) 0 0 (fun _ => 0)))
      (firstClick (restart 2 2 0) 0 0 (fun _ => 0)) [(0, 0)] ≤ 2 * 2 :=
  ⟨by decide, by decide, by decide, by decide⟩

/-- C15, amended. Flood termination and bound: for every well-formed grid and every start cell
of the board, `floodOpen` terminates (the run on the fuel of `floodOpen` ends with an empty
stack, and more fuel changes neither the result nor the number of iterations), its worklist
loop executes at most `8 * rows * cols + 1` iterations, and it opens at most `rows * cols`
cells. -/
theorem flood_terminates_bounded (s : Game) (ok : GridOK s.rows s.cols s.grid) (r c : Nat)
    (hr : r < s.rows) (hc : c < s.cols) :
    (floodLoop (floodFuel s) s [(r, c)]).2 = [] ∧
    (∀ k, floodLoop (floodFuel s + k) s [(r, c)] = floodLoop (floodFuel s) s [(r, c)] ∧
      floodIters (floodFuel s + k) s [(r, c)] = floodIters (floodFuel s) s [(r, c)]) ∧
    (∀ fuel, floodIters fuel s [(r, c)] ≤ 8 * (s.rows * s.cols) + 1) ∧
    (floodOpen s r c).openedSafeCells ≤ s.openedSafeCells + ((s.rows * s.cols : Nat) : Int) ∧
    s.openedSafeCells ≤ (floodOpen s r c).openedSafeCells := by
  have hinit := floodInv_init ok hr hc
  have hclosed := countCells_le s.rows s.cols s.grid (fun x => !x.isOpen)
  have hterm : (floodLoop (floodFuel s) s [(r, c)]).2 = [] := by
    apply floodLoop_terminates _ hinit
    simp only [List.length_singleton, floodFuel]
    omega
  refine ⟨hterm, fun k => floodLoop_fuel_add _ k s _ hterm, fun fuel => ?_, ?_, ?_⟩
  · have := floodIters_le fuel hinit
    simp only [List.length_singleton] at this
    omega
  · have hcount := floodOpen_count ok hr hc
    have h1 := countCells_le s.rows s.cols (floodOpen s r c).grid Cell.isOpen
    have h1' : ((countCells s.rows s.cols (floodOpen s r c).grid Cell.isOpen : Nat) : Int) ≤
        ((s.rows * s.cols : Nat) : Int) := by exact_mod_cast h1
    omega
  · have hcount := floodOpen_count ok hr hc
    have hmono : countCells s.rows s.cols s.grid Cell.isOpen ≤
        countCells s.rows s.cols (floodOpen s r c).grid Cell.isOpen := by
      unfold countCells
      apply List.countP_mono_left
      intro p _ hp
      exact (floodOpen_inv ok hr hc).mono p.1 p.2 hp
    omega

set_option maxRecDepth 100000 in
theorem flood_terminates_bounded_witness :
    GridOK (firstClick (restart 2 2 0) 0 0 (fun _ => 0)).rows
      (firstClick (restart 2 2 0) 0 0 (fun _ => 0)).cols
      (firstClick (restart 2 2 0) 0 0 (fun _ => 0)).grid ∧
    0 < (firstClick (restart 2 2 0) 0 0 (fun _ => 0)).rows ∧
    0 < (firstClick (restart 2 2 0) 0 0 (fun _ => 0)).cols ∧
    (floodLoop (floodFuel (firstClick (restart 2 2 0) 0 0 (fun _ => 0)))
      (firstClick (restart 2 2 0) 0 0 (fun _ => 0)) [(0, 0)]).2 = [] ∧
    ∀ fuel, floodIters fuel (firstClick (restart 2 2 0) 0 0 (fun _ => 0)) [(0, 0)] ≤
      8 * ((firstClick (restart 2 2 0) 0 0 (fun _ => 0)).rows *
        (firstClick (restart 2 2 0) 0 0 (fun _ => 0)).cols) + 1 :=
  ⟨by decide, by decide, by decide,
    (flood_terminates_bounded (firstClick (restart 2 2 0) 0 0 (fun _ => 0)) (by decide) 0 0
      (by decide) (by decide)).1,
    (flood_terminates_bounded (firstClick (restart 2 2 0) 0 0 (fun _ => 0)) (by decide) 0 0
      (by decide) (by decide)).2.2.1⟩

/-! ## The neighbour query -/

/-- The neighbour list has the length of any duplicate-free list with the same members. -/
theorem length_forEachNeighbor_of (rows cols r c : Nat) (m : List (Nat × Nat)) (hm : m.Nodup)
    (h : ∀ x y, (x, y) ∈ m ↔
      x < rows ∧ y < cols ∧ ¬ (x = r ∧ y = c) ∧ x ≤ r + 1 ∧ r ≤ x + 1 ∧ y ≤ c + 1 ∧ c ≤ y + 1) :
    (forEachNeighbor rows cols r c).length = m.length := by
  refine List.Perm.length_eq ?_
  rw [List.perm_ext_iff_of_nodup (nodup_forEachNeighbor rows cols r c) hm]
  rintro ⟨x, y⟩
  rw [mem_forEachNeighbor, h]
  simp only [ne_eq, Prod.mk.injEq]

theorem length_forEachNeighbor_corner (rows cols r c : Nat) (hr : r < rows) (hc : c < cols)
    (h2r : 2 ≤ rows) (h2c : 2 ≤ cols) (her : r = 0 ∨ r + 1 = rows) (hec : c = 0 ∨ c + 1 = cols) :
    (forEachNeighbor rows cols r c).length = 3 := by
  rcases her with rfl | her <;> rcases hec with rfl | hec
  · rw [length_forEachNeighbor_of rows cols 0 0 [(0, 1), (1, 0), (1, 1)] (by decide)]
    · rfl
    · intro x y
      simp only [List.mem_cons, Prod.mk.injEq, List.mem_singleton, List.not_mem_nil, or_false]
      omega
  · rw [length_forEachNeighbor_of rows cols 0 c [(0, c - 1), (1, c - 1), (1, c)]]
    · rfl
    · simp only [List.nodup_cons, List.mem_cons, Prod.mk.injEq, List.mem_singleton,
        List.not_mem_nil, List.nodup_nil, and_true, not_false_eq_true, true_and, false_and,
        or_false, false_or, and_false]
      omega
    · intro x y
      simp only [List.mem_cons, Prod.mk.injEq, List.mem_singleton, List.not_mem_nil, or_false]
      omega
  · rw [length_forEachNeighbor_of rows cols r 0 [(r - 1, 0), (r - 1, 1), (r, 1)]]
    · rfl
    · simp only [List.nodup_cons, List.mem_cons, Prod.mk.injEq, List.mem_singleton,
        List.not_mem_nil, List.nodup_nil, and_true, not_false_eq_true, true_and, false_and,
        or_false, false_or, and_false]
      omega
    · intro x y
      simp only [List.mem_cons, Prod.mk.injEq, List.mem_singleton, List.not_mem_nil, or_false]
      omega
  · rw [length_forEachNeighbor_of rows cols r c [(r - 1, c - 1), (r - 1, c), (r, c - 1)]]
    · rfl
    · simp only [List.nodup_cons, List.mem_cons, Prod.mk.injEq, List.mem_singleton,
        List.not_mem_nil, List.nodup_nil, and_true, not_false_eq_true, true_and, false_and,
        or_false, false_or, and_false]
      omega
    · intro x y
      simp only [List.mem_cons, Prod.mk.injEq, List.mem_singleton, List.not_mem_nil, or_false]
      omega

theorem length_forEachNeighbor_edge (rows cols r c : Nat) (hr : r < rows) (hc : c < cols)
    (h2r : 2 ≤ rows) (h2c : 2 ≤ cols)
    (hedge : ((r = 0 ∨ r + 1 = rows) ∧ 0 < c ∧ c + 1 < cols) ∨
      ((c = 0 ∨ c + 1 = cols) ∧ 0 < r ∧ r + 1 < rows)) :
    (forEachNeighbor rows cols r c).length = 5 := by
  rcases hedge with ⟨rfl | her, hc0, hc1⟩ | ⟨rfl | hec, hr0, hr1⟩
  · rw [length_forEachNeighbor_of rows cols 0 c
      [(0, c - 1), (0, c + 1), (1, c - 1), (1, c), (1, c + 1)]]
    · rfl
    · simp only [List.nodup_cons, List.mem_cons, Prod.mk.injEq, List.mem_singleton,
        List.not_mem_nil, List.nodup_nil, and_true, not_false_eq_true, true_and, false_and,
        or_false, false_or, and_false]
      omega
    · intro x y
      simp only [List.mem_cons, Prod.mk.injEq, List.mem_singleton, List.not_mem_nil, or_false]
      omega
  · rw [length_forEachNeighbor_of rows cols r c
      [(r, c - 1), (r, c + 1), (r - 1, c - 1), (r - 1, c), (r - 1, c + 1)]]
    · rfl
    · simp only [List.nodup_cons, List.mem_cons, Prod.mk.injEq, List.mem_singleton,
        List.not_mem_nil, List.nodup_nil, and_true, not_false_eq_true, true_and, false_and,
        or_false, false_or, and_false]
      omega
    · intro x y
      simp only [List.mem_cons, Prod.mk.injEq, List.mem_singleton, List.not_mem_nil, or_false]
      omega
  · rw [length_forEachNeighbor_of rows cols r 0
      [(r - 1, 0), (r + 1, 0), (r - 1, 1), (r, 1), (r + 1, 1)]]
    · rfl
    · simp only [List.nodup_cons, List.mem_cons, Prod.mk.injEq, List.mem_singleton,
        List.not_mem_nil, List.nodup_nil, and_true, not_false_eq_true, true_and, false_and,
        or_false, false_or, and_false]
      omega
    · intro x y
      simp only [List.mem_cons, Prod.mk.injEq, List.mem_singleton, List.not_mem_nil, or_false]
      omega
  · rw [length_forEachNeighbor_of rows cols r c
      [(r - 1, c), (r + 1, c), (r - 1, c - 1), (r, c - 1), (r + 1, c - 1)]]
    · rfl
    · simp only [List.nodup_cons, List.mem_cons, Prod.mk.injEq, List.mem_singleton,
        List.not_mem_nil, List.nodup_nil, and_true, not_false_eq_true, true_and, false_and,
        or_false, false_or, and_false]
      omega
    · intro x y
      simp only [List.mem_cons, Prod.mk.injEq, List.mem_singleton, List.not_mem_nil, or_false]
      omega

/-- C16. Neighbour query: for every cell `(r, c)` of a `rows x cols` grid,
`forEachNeighbor(r, c)` visits exactly the cells `(r + dr, c + dc)` with
`dr, dc ∈ {-1, 0, 1}`, `(dr, dc) ≠ (0, 0)` that lie on the grid, each exactly once (the list
of visited cells has no duplicate) and never `(r, c)` itself; hence at most 8 cells, and on a grid with `rows, cols ≥ 2` exactly 3 at a
corner and exactly 5 on an edge away from the corners. -/
theorem forEachNeighbor_spec (rows cols r c : Nat) (hr : r < rows) (hc : c < cols) :
    (∀ p : Nat × Nat, p ∈ forEachNeighbor rows cols r c ↔
      ∃ dr dc : Int, (dr = -1 ∨ dr = 0 ∨ dr = 1) ∧ (dc = -1 ∨ dc = 0 ∨ dc = 1) ∧
        ¬ (dr = 0 ∧ dc = 0) ∧ (p.1 : Int) = (r : Int) + dr ∧ (p.2 : Int) = (c : Int) + dc ∧
        p.1 < rows ∧ p.2 < cols) ∧
    (forEachNeighbor rows cols r c).Nodup ∧
    (r, c) ∉ forEachNeighbor rows cols r c ∧
    (forEachNeighbor rows cols r c).length ≤ 8 ∧
    (2 ≤ rows → 2 ≤ cols → (r = 0 ∨ r + 1 = rows) → (c = 0 ∨ c + 1 = cols) →
      (forEachNeighbor rows cols r c).length = 3) ∧
    (2 ≤ rows → 2 ≤ cols →
      (((r = 0 ∨ r + 1 = rows) ∧ 0 < c ∧ c + 1 < cols) ∨
        ((c = 0 ∨ c + 1 = cols) ∧ 0 < r ∧ r + 1 < rows)) →
      (forEachNeighbor rows cols r c).length = 5) := by
  refine ⟨fun p => ?_, nodup_forEachNeighbor rows cols r c,
    fun hmem => ?_, length_forEachNeighbor_le rows cols r c,
    fun h2r h2c her hec => length_forEachNeighbor_corner rows cols r c hr hc h2r h2c her hec,
    fun h2r h2c hedge => length_forEachNeighbor_edge rows cols r c hr hc h2r h2c hedge⟩
  · obtain ⟨x, y⟩ := p
    rw [mem_forEachNeighbor]
    simp only [ne_eq, Prod.mk.injEq]
    constructor
    · intro h
      exact ⟨(x : Int) - r, (y : Int) - c, by omega, by omega, by omega, by omega, by omega,
        h.1, h.2.1⟩
    · rintro ⟨dr, dc, h1, h2, h3, h4, h5, h6, h7⟩
      refine ⟨h6, h7, ?_, ?_, ?_, ?_, ?_⟩ <;> omega
  · rw [mem_forEachNeighbor] at hmem
    exact hmem.2.2.1 rfl

theorem forEachNeighbor_spec_witness :
    0 < 8 ∧ 3 < 8 ∧ 2 ≤ 8 ∧ (forEachNeighbor 8 8 0 3).length = 5 ∧
      (0, 3) ∉ forEachNeighbor 8 8 0 3 :=
  ⟨by decide, by decide, by decide,
    (forEachNeighbor_spec 8 8 0 3 (by decide) (by decide)).2.2.2.2.2 (by decide) (by decide)
      (Or.inl ⟨Or.inl rfl, by decide, by decide⟩),
    (forEachNeighbor_spec 8 8 0 3 (by decide) (by decide)).2.2.1⟩

/-! ## A board without mines -/

/-- On a grid whose cells are all closed, unflagged, zero-count and not mines, the flood has to
open every cell of the board. -/
theorem floodReach_all {rows cols : Nat} {g : Grid} {r c : Nat} (hr : r < rows) (hc : c < cols)
    (hall : ∀ r' c', (cellAt g r' c').isMine = false ∧ (cellAt g r' c').isOpen = false ∧
      (cellAt g r' c').isFlag = false ∧ (cellAt g r' c').adjacent = 0)
    (n : Nat) : ∀ x : Nat × Nat, x.1 < rows → x.2 < cols →
      x.1 ≤ r + n → r ≤ x.1 + n → x.2 ≤ c + n → c ≤ x.2 + n →
      FloodReach rows cols g (r, c) x := by
  induction n with
  | zero =>
    rintro ⟨a, b⟩ _ _ h1 h2 h3 h4
    have ha : a = r := by simp only at h1 h2; omega
    have hb : b = c := by simp only at h3 h4; omega
    subst ha hb
    exact FloodReach.start
  | succ n ih =>
    rintro ⟨a, b⟩ hxr hxc h1 h2 h3 h4
    simp only at hxr hxc h1 h2 h3 h4
    by_cases hst : a = r ∧ b = c
    · obtain ⟨rfl, rfl⟩ := hst
      exact FloodReach.start
    · obtain ⟨y1, hy1⟩ : ∃ y1, (a < r → y1 = a + 1) ∧ (r < a → y1 + 1 = a) ∧ (a = r → y1 = r) := by
        by_cases h : a < r
        · exact ⟨a + 1, by omega, by omega, by omega⟩
        · by_cases h' : r < a
          · exact ⟨a - 1, by omega, by omega, by omega⟩
          · exact ⟨r, by omega, by omega, by omega⟩
      obtain ⟨y2, hy2⟩ : ∃ y2, (b < c → y2 = b + 1) ∧ (c < b → y2 + 1 = b) ∧ (b = c → y2 = c) := by
        by_cases h : b < c
        · exact ⟨b + 1, by omega, by omega, by omega⟩
        · by_cases h' : c < b
          · exact ⟨b - 1, by omega, by omega, by omega⟩
          · exact ⟨c, by omega, by omega, by omega⟩
      have hy := ih (y1, y2) (by simp only; omega) (by simp only; omega) (by simp only; omega)
        (by simp only; omega) (by simp only; omega) (by simp only; omega)
      refine FloodReach.step hy (hall y1 y2).2.2.2 hxr hxc ?_ (hall a b).1 (hall a b).2.1
        (hall a b).2.2.1
      simp only [isNeighbour, ne_eq, Prod.mk.injEq, decide_eq_true_eq]
      omega

/-- C17. Mine-free board wins on the first open: for every `rows, cols ≥ 1` with `mines = 0`,
the first `onOpen` of the session, on any cell of the board, opens every cell of the grid,
`openedSafeCells` reaches `totalSafeCells = rows * cols`, and the session is won. -/
theorem mine_free_first_open_wins (rows cols : Nat) (s : Game) (h : Reachable rows cols 0 s)
    (hfirst : s.firstClickDone = false) (r c : Nat) (hr : r < rows) (hc : c < cols)
    (rnd : Nat → Nat) :
    (∀ r' c', r' < rows → c' < cols → (cellAt (onOpen s r c rnd).grid r' c').isOpen = true) ∧
    (onOpen s r c rnd).openedSafeCells = (onOpen s r c rnd).totalSafeCells ∧
    (onOpen s r c rnd).totalSafeCells = (rows : Int) * (cols : Int) ∧
    (onOpen s r c rnd).gameOver = true ∧ (onOpen s r c rnd).banner = some true := by
  have inv := reachable_inv h
  have inv2 := reachable_inv2 h
  have hfresh := inv.fresh hfirst
  -- no flag can have been placed: the budget is zero
  have hnoflag : ∀ r' c', (cellAt s.grid r' c').isFlag = false := by
    intro r' c'
    by_cases hin : r' < rows ∧ c' < cols
    · have hcnt : countCells rows cols s.grid Cell.isFlag = 0 := by
        have := inv2.flag_sum
        rcases inv.flags with h1 | h1 <;> omega
      unfold countCells at hcnt
      rw [List.countP_eq_zero] at hcnt
      have := hcnt (r', c') ((mem_allPositions rows cols (r', c')).mpr hin)
      simpa using this
    · rw [cellAt_outside inv.ok r' c' hin]
      rfl
  -- the state after the first-click block
  have ht := inv_firstClick inv r c rnd
  have hfr := firstClick_frame inv r c rnd
  have hgrid : (firstClick s r c rnd).grid = placeMinesGrid rows cols 0 s.grid r c rnd := by
    simp only [firstClick, hfirst, Bool.not_false, if_true, placeMinesAvoiding, inv.rows_eq,
      inv.cols_eq, inv.mines_eq]
  have hnomine : ∀ r' c', (cellAt (firstClick s r c rnd).grid r' c').isMine = false := by
    intro r' c'
    rw [hgrid, isMine_placeMinesGrid inv.ok, (hfresh.1 r' c').1]
    simp [minedCells]
  have hall : ∀ r' c', (cellAt (firstClick s r c rnd).grid r' c').isMine = false ∧
      (cellAt (firstClick s r c rnd).grid r' c').isOpen = false ∧
      (cellAt (firstClick s r c rnd).grid r' c').isFlag = false ∧
      (cellAt (firstClick s r c rnd).grid r' c').adjacent = 0 := by
    intro r' c'
    refine ⟨hnomine r' c', ?_, ?_, ?_⟩
    · rw [(hfr.2.2.2.2 r' c').1]
      exact (hfresh.1 r' c').2
    · rw [(hfr.2.2.2.2 r' c').2.1]
      exact hnoflag r' c'
    · by_cases hin : r' < rows ∧ c' < cols
      · have hadj := adjacent_placeMinesGrid inv.ok 0 r c rnd r' c' hin.1 hin.2
          (by rw [← hgrid]; exact hnomine r' c')
        rw [hgrid, hadj, countMineNeighbors_eq_countP, List.countP_eq_zero]
        intro p _
        rw [← hgrid, hnomine]
        simp
      · rw [cellAt_outside ht.1.ok r' c' hin]
        rfl
  -- every cell is opened by the flood
  have hok : GridOK (firstClick s r c rnd).rows (firstClick s r c rnd).cols
      (firstClick s r c rnd).grid := by
    rw [ht.1.rows_eq, ht.1.cols_eq]
    exact ht.1.ok
  have heq : onOpen s r c rnd = checkWin (floodOpen (firstClick s r c rnd) r c) := by
    rw [onOpen_blocks, if_neg (by simp [hfresh.2, (hfresh.1 r c).2, hnoflag r c]), openCell,
      if_neg (by simp [hnomine r c])]
  have hopen : ∀ r' c', r' < rows → c' < cols →
      (cellAt (onOpen s r c rnd).grid r' c').isOpen = true := by
    intro r' c' hr' hc'
    rw [heq, checkWin_grid]
    refine floodOpen_complete (x := (r', c')) hok (by rw [ht.1.rows_eq]; exact hr)
      (by rw [ht.1.cols_eq]; exact hc) (hall r c).2.1 (hall r c).2.2.1 ?_
    rw [ht.1.rows_eq, ht.1.cols_eq]
    exact floodReach_all hr hc hall (rows + cols) (r', c') hr' hc' (by simp only; omega)
      (by simp only; omega) (by simp only; omega) (by simp only; omega)
  -- the counters and the phase
  have inv' := reachable_inv (Reachable.opened r c rnd h hr hc)
  have hcount : countCells rows cols (onOpen s r c rnd).grid Cell.isOpen = rows * cols := by
    unfold countCells
    rw [← length_allPositions rows cols, List.countP_eq_length]
    intro p hp
    rw [mem_allPositions] at hp
    exact hopen p.1 p.2 hp.1 hp.2
  have htotal : (onOpen s r c rnd).totalSafeCells = (rows : Int) * (cols : Int) := by
    rw [inv'.total_eq]
    omega
  have hopened : (onOpen s r c rnd).openedSafeCells = (rows : Int) * (cols : Int) := by
    rw [inv'.opened_eq, hcount]
    push_cast
    rfl
  have hpos : (0 : Int) < (rows : Int) * (cols : Int) := by
    have h1 : (0 : Int) < (rows : Int) := by omega
    have h2 : (0 : Int) < (cols : Int) := by omega
    exact Int.mul_pos h1 h2
  have hwin := inv'.win hpos (by rw [htotal, hopened])
  exact ⟨hopen, hopened.trans htotal.symm, htotal, hwin.1, hwin.2⟩

set_option maxRecDepth 100000 in
theorem mine_free_first_open_wins_witness :
    Reachable 1 1 0 (restart 1 1 0) ∧ (restart 1 1 0).firstClickDone = false ∧ 0 < 1 ∧
    (onOpen (restart 1 1 0) 0 0 (fun _ => 0)).openedSafeCells = 1 ∧
    ((∀ r' c', r' < 1 → c' < 1 →
        (cellAt (onOpen (restart 1 1 0) 0 0 (fun _ => 0)).grid r' c').isOpen = true) ∧
      (onOpen (restart 1 1 0) 0 0 (fun _ => 0)).openedSafeCells =
        (onOpen (restart 1 1 0) 0 0 (fun _ => 0)).totalSafeCells ∧
      (onOpen (restart 1 1 0) 0 0 (fun _ => 0)).totalSafeCells = ((1 : Nat) : Int) * ((1 : Nat) : Int) ∧
      (onOpen (restart 1 1 0) 0 0 (fun _ => 0)).gameOver = true ∧
      (onOpen (restart 1 1 0) 0 0 (fun _ => 0)).banner = some true) :=
  ⟨Reachable.init, by decide, by decide, by decide,
    mine_free_first_open_wins 1 1 (restart 1 1 0) Reachable.init (by decide) 0 0 (by decide)
      (by decide) (fun _ => 0)⟩

end Minesweeper
